import Mathlib

/-!
# Carbonite image loader (`carbonite.h`)

A shallow embedding of `CarboniteUnfreezeImage` over a byte-level model of the
image buffer, and the properties of the loader proved about it.

The buffer is a list of bytes placed at the absolute address `imageData`.
Every memory access of the C++ code is an access to an absolute address; an
access that does not lie inside the buffer is undefined behaviour in C++ and
is reported here as the fault `outOfBounds`.  Pointers and `size_t` values are
natural numbers below `2 ^ 64`; pointer arithmetic wraps modulo `2 ^ 64`.
Multi-byte fields are little-endian (the header comment of
`CARBONITE_IMAGE_MAGIC` fixes the byte order of the format).
-/

namespace Carbonite

/-! ## Bytes and little-endian fields -/

/-- One byte of the image buffer. -/
abbrev Byte := Fin 256

/-- The little-endian value of the `n` bytes at offset `off` (a byte past the
end of the list counts as 0; `load` checks the bounds before reading). -/
def leRead (m : List Byte) (off : Nat) : Nat → Nat
  | 0 => 0
  | n + 1 => (m.getD off 0).val + 256 * leRead m (off + 1) n

/-- Overwrites the `n` bytes at offset `off` with the little-endian encoding
of `v` (truncated to `n` bytes). -/
def leWrite (m : List Byte) (off : Nat) : Nat → Nat → List Byte
  | 0, _ => m
  | n + 1, v => leWrite (m.set off ⟨v % 256, Nat.mod_lt v (by decide)⟩) (off + 1) n (v / 256)

/-- The `n`-byte little-endian encoding of `v`, used to write images down. -/
def leBytes : Nat → Nat → List Byte
  | 0, _ => []
  | n + 1, v => ⟨v % 256, Nat.mod_lt v (by decide)⟩ :: leBytes n (v / 256)

/-! ## Memory accesses -/

/-- Why an execution did not return. -/
inductive Fault
  /-- An access outside the buffer (undefined behaviour in C++). -/
  | outOfBounds
  /-- The iteration bound of the model was used up. -/
  | fuel
  deriving DecidableEq, Repr

deriving instance DecidableEq for Except

/-- Reads the `n`-byte field at absolute address `addr` of the buffer `m`
placed at address `imageData`. -/
def load (imageData : Nat) (m : List Byte) (addr n : Nat) : Except Fault Nat :=
  if imageData ≤ addr ∧ addr + n ≤ imageData + m.length then
    .ok (leRead m (addr - imageData) n)
  else
    .error .outOfBounds

/-- Writes the `n`-byte field at absolute address `addr` of the buffer `m`
placed at address `imageData`. -/
def store (imageData : Nat) (m : List Byte) (addr n v : Nat) : Except Fault (List Byte) :=
  if imageData ≤ addr ∧ addr + n ≤ imageData + m.length then
    .ok (leWrite m (addr - imageData) n v)
  else
    .error .outOfBounds

/-! ## Constants and the header layout -/

/-- The multi-character constant `'NBRC'`: its value is
`'N' << 24 | 'B' << 16 | 'R' << 8 | 'C'`. -/
def CARBONITE_IMAGE_MAGIC : Nat := 0x4E * 2 ^ 24 + 0x42 * 2 ^ 16 + 0x52 * 2 ^ 8 + 0x43

/-- The expected version that accepts every image version. -/
def CARBONITE_ACCEPT_ANY_PAYLOAD_FORMAT_VERSION : Nat := 0

/-- Null pointer. -/
def nullptr : Nat := 0

/-- Byte offset of `CarboniteImage::Magic` (`uint32_t`). -/
def offMagic : Nat := 0
/-- Byte offset of `CarboniteImage::PayloadFormatVersion` (`uint32_t`). -/
def offPayloadFormatVersion : Nat := 4
/-- Byte offset of `CarboniteImage::PointerTable.Count` (`size_t`). -/
def offPointerTableCount : Nat := 8
/-- Byte offset of `CarboniteImage::PointerTable.Elements` (pointer). -/
def offPointerTableElements : Nat := 16
/-- Byte offset of `CarboniteImage::RootObjectTable.Count` (`size_t`). -/
def offRootObjectTableCount : Nat := 24
/-- Byte offset of `CarboniteImage::RootObjectTable.Elements` (pointer). -/
def offRootObjectTableElements : Nat := 32
/-- Size of `CarboniteImage` in bytes. -/
def sizeofCarboniteImage : Nat := 40

/-! ## The loader -/

/-- The loops of lines 143-145 and 148-150:
`for (size_t i = 0; i < header->X.Count; i++) entries[i] += (size_t)imageData;`
where `countAddr` is the address of `header->X.Count` (read again at every
iteration, as in the source) and `entries` the local pointer `rootObjects` or
`pointers`.  The index `i` stays below `Count < 2 ^ 64`, so `i++` cannot wrap
and `2 ^ 64` iterations bound the loop. -/
def relocateEntries (imageData countAddr entries : Nat) :
    Nat → Nat → List Byte → Except Fault (List Byte)
  | 0, _, _ => .error .fuel
  | fuel + 1, i, m =>
    (load imageData m countAddr 8).bind fun count =>
    if i < count then
      (load imageData m ((entries + 8 * i) % 2 ^ 64) 8).bind fun v =>
      (store imageData m ((entries + 8 * i) % 2 ^ 64) 8 ((v + imageData) % 2 ^ 64)).bind fun m1 =>
      relocateEntries imageData countAddr entries fuel (i + 1) m1
    else
      .ok m

/-- The loop of lines 153-156:
`for (size_t i = 0; i < header->PointerTable.Count; i++) {
   char** pointer = (char**)header->PointerTable.Elements[i];
   *pointer += (size_t)imageData; }`
Both `Count` and `Elements` are read from the header at every iteration. -/
def relocateSlots (imageData : Nat) : Nat → Nat → List Byte → Except Fault (List Byte)
  | 0, _, _ => .error .fuel
  | fuel + 1, i, m =>
    (load imageData m (imageData + offPointerTableCount) 8).bind fun count =>
    if i < count then
      (load imageData m (imageData + offPointerTableElements) 8).bind fun elements =>
      (load imageData m ((elements + 8 * i) % 2 ^ 64) 8).bind fun pointer =>
      (load imageData m pointer 8).bind fun v =>
      (store imageData m pointer 8 ((v + imageData) % 2 ^ 64)).bind fun m1 =>
      relocateSlots imageData fuel (i + 1) m1
    else
      .ok m

/-- Lines 140-158 of `CarboniteUnfreezeImage`: the relocation that follows the
header check.  Returns the buffer after the call. -/
def relocate (imageData : Nat) (m : List Byte) : Except Fault (List Byte) :=
  (load imageData m (imageData + offRootObjectTableElements) 8).bind fun r =>
  (store imageData m (imageData + offRootObjectTableElements) 8 ((imageData + r) % 2 ^ 64)).bind fun m1 =>
  (load imageData m1 (imageData + offRootObjectTableElements) 8).bind fun rootObjects =>
  (relocateEntries imageData (imageData + offRootObjectTableCount) rootObjects (2 ^ 64) 0 m1).bind fun m2 =>
  (load imageData m2 (imageData + offPointerTableElements) 8).bind fun p =>
  (store imageData m2 (imageData + offPointerTableElements) 8 ((imageData + p) % 2 ^ 64)).bind fun m3 =>
  (load imageData m3 (imageData + offPointerTableElements) 8).bind fun pointers =>
  (relocateEntries imageData (imageData + offPointerTableCount) pointers (2 ^ 64) 0 m3).bind fun m4 =>
  relocateSlots imageData (2 ^ 64) 0 m4

/-- The call `CarboniteUnfreezeImage(imageData, expectedPayloadFormatVersion)` on the
buffer `m` placed at address `imageData`: the returned pointer (`nullptr` or
`header == imageData`) and the buffer after the call, or a fault.  The `||`
and `&&` of the header check short-circuit as in C++: the version field is
read only when the magic matches. -/
def CarboniteUnfreezeImage (imageData : Nat) (m : List Byte)
    (expectedPayloadFormatVersion : Nat) : Except Fault (Nat × List Byte) :=
  (load imageData m (imageData + offMagic) 4).bind fun magic =>
  if magic ≠ CARBONITE_IMAGE_MAGIC then
    .ok (nullptr, m)
  else
    (load imageData m (imageData + offPayloadFormatVersion) 4).bind fun version =>
    if version ≠ expectedPayloadFormatVersion ∧
        expectedPayloadFormatVersion ≠ CARBONITE_ACCEPT_ANY_PAYLOAD_FORMAT_VERSION then
      .ok (nullptr, m)
    else
      (relocate imageData m).bind fun m1 => .ok (imageData, m1)

/-! ## Stored fields of an image and its layout -/

/-- The 8-byte field stored at blob offset `off`. -/
def read64 (m : List Byte) (off : Nat) : Nat := leRead m off 8

/-- The 4-byte field stored at blob offset `off`. -/
def read32 (m : List Byte) (off : Nat) : Nat := leRead m off 4

/-- Field `Magic` as stored in the blob. -/
def magicOf (m : List Byte) : Nat := read32 m offMagic
/-- Field `PayloadFormatVersion` as stored in the blob. -/
def versionOf (m : List Byte) : Nat := read32 m offPayloadFormatVersion
/-- Field `RootObjectTable.Count` as stored in the blob. -/
def rootCount (m : List Byte) : Nat := read64 m offRootObjectTableCount
/-- Field `RootObjectTable.Elements` as stored in the blob. -/
def rootElements (m : List Byte) : Nat := read64 m offRootObjectTableElements
/-- Field `PointerTable.Count` as stored in the blob. -/
def pointerCount (m : List Byte) : Nat := read64 m offPointerTableCount
/-- Field `PointerTable.Elements` as stored in the blob. -/
def pointerElements (m : List Byte) : Nat := read64 m offPointerTableElements
/-- Blob offset of root-table entry `i` (by the stored table offset). -/
def rootCell (m : List Byte) (i : Nat) : Nat := rootElements m + 8 * i
/-- Blob offset of pointer-table entry `j` (by the stored table offset). -/
def pointerCell (m : List Byte) (j : Nat) : Nat := pointerElements m + 8 * j
/-- Root-table entry `i` as stored in the blob. -/
def rootEntry (m : List Byte) (i : Nat) : Nat := read64 m (rootCell m i)
/-- Pointer-table entry `j` as stored in the blob: the offset of slot `j`. -/
def slotOf (m : List Byte) (j : Nat) : Nat := read64 m (pointerCell m j)
/-- The value stored in the slot that pointer-table entry `j` designates. -/
def slotValue (m : List Byte) (j : Nat) : Nat := read64 m (slotOf m j)

/-- The header check of lines 135-136 passes. -/
def passesGate (m : List Byte) (expectedPayloadFormatVersion : Nat) : Prop :=
  magicOf m = CARBONITE_IMAGE_MAGIC ∧
    (versionOf m = expectedPayloadFormatVersion ∨
      expectedPayloadFormatVersion = CARBONITE_ACCEPT_ANY_PAYLOAD_FORMAT_VERSION)

instance (m : List Byte) (e : Nat) : Decidable (passesGate m e) := by
  unfold passesGate; infer_instance

/-- The 8-byte cells at offsets `a` and `b` share no byte. -/
def Apart (a b : Nat) : Prop := a + 8 ≤ b ∨ b + 8 ≤ a

instance (a b : Nat) : Decidable (Apart a b) := by unfold Apart; infer_instance

/-- The 8-byte cell at offset `a` lies inside the blob, after the header. -/
def InBody (m : List Byte) (a : Nat) : Prop := sizeofCarboniteImage ≤ a ∧ a + 8 ≤ m.length

instance (m : List Byte) (a : Nat) : Decidable (InBody m a) := by unfold InBody; infer_instance

/-- The buffer `m` is a valid object at address `imageData`: the address is
not null, the buffer ends inside the address space and holds a header. -/
def ValidBuffer (imageData : Nat) (m : List Byte) : Prop :=
  0 < imageData ∧ imageData + m.length ≤ 2 ^ 64 ∧ sizeofCarboniteImage ≤ m.length

instance (imageData : Nat) (m : List Byte) : Decidable (ValidBuffer imageData m) := by
  unfold ValidBuffer; infer_instance

/-- Layout of an image: both tables and every designated slot lie inside the
blob after the header; the two tables do not overlap each other; no designated
slot overlaps a table.  (Slots may coincide here; see `DistinctSlots`.) -/
def Layout (m : List Byte) : Prop :=
  (∀ i < rootCount m, InBody m (rootCell m i)) ∧
  (∀ j < pointerCount m, InBody m (pointerCell m j)) ∧
  (∀ j < pointerCount m, InBody m (slotOf m j)) ∧
  (∀ i < rootCount m, ∀ j < pointerCount m, Apart (rootCell m i) (pointerCell m j)) ∧
  (∀ i < rootCount m, ∀ j < pointerCount m, Apart (rootCell m i) (slotOf m j)) ∧
  (∀ j < pointerCount m, ∀ k < pointerCount m, Apart (pointerCell m j) (slotOf m k))

instance (m : List Byte) : Decidable (Layout m) := by unfold Layout; infer_instance

/-- Invariant I4: different pointer-table entries designate slots that share
no byte. -/
def DistinctSlots (m : List Byte) : Prop :=
  ∀ j < pointerCount m, ∀ k < pointerCount m, j ≠ k → Apart (slotOf m j) (slotOf m k)

instance (m : List Byte) : Decidable (DistinctSlots m) := by
  unfold DistinctSlots; infer_instance

/-- Invariant I3: every offset stored in the image (both table offsets, every
root entry, every pointer-table entry and every value stored in a designated
slot) is an offset into the blob. -/
def OffsetsInBlob (m : List Byte) : Prop :=
  rootElements m < m.length ∧ pointerElements m < m.length ∧
  (∀ i < rootCount m, rootEntry m i < m.length) ∧
  (∀ j < pointerCount m, slotOf m j < m.length) ∧
  (∀ j < pointerCount m, slotValue m j < m.length)

instance (m : List Byte) : Decidable (OffsetsInBlob m) := by
  unfold OffsetsInBlob; infer_instance

/-- A well-formed image placed at `imageData`: a valid buffer with a proper
layout, distinct slots (I4) and offsets that point into the blob (I3). -/
def WellFormed (imageData : Nat) (m : List Byte) : Prop :=
  ValidBuffer imageData m ∧ Layout m ∧ DistinctSlots m ∧ OffsetsInBlob m

instance (imageData : Nat) (m : List Byte) : Decidable (WellFormed imageData m) := by
  unfold WellFormed; infer_instance

/-- Byte `k` of the blob `m` belongs to a location that the loader relocates:
one of the two `Elements` fields of the header, a table entry, or a designated
slot. -/
def Relocated (m : List Byte) (k : Nat) : Prop :=
  (offPointerTableElements ≤ k ∧ k < offPointerTableElements + 8) ∨
  (offRootObjectTableElements ≤ k ∧ k < offRootObjectTableElements + 8) ∨
  (∃ i < rootCount m, rootCell m i ≤ k ∧ k < rootCell m i + 8) ∨
  (∃ j < pointerCount m, pointerCell m j ≤ k ∧ k < pointerCell m j + 8) ∨
  (∃ j < pointerCount m, slotOf m j ≤ k ∧ k < slotOf m j + 8)

instance (m : List Byte) (k : Nat) : Decidable (Relocated m k) := by
  unfold Relocated; infer_instance

/-! ## The relocation as a fold over cells -/

/-- Adds the base address to the 8-byte cell at blob offset `off`. -/
def relocCell (imageData : Nat) (m : List Byte) (off : Nat) : List Byte :=
  leWrite m off 8 ((read64 m off + imageData) % 2 ^ 64)

/-- Adds the base address to each of the listed cells, in order. -/
def relocCells (imageData : Nat) (offs : List Nat) (m : List Byte) : List Byte :=
  offs.foldl (relocCell imageData) m

/-- Blob offsets of the root-table entries, in index order. -/
def rootCells (m : List Byte) : List Nat := (List.range' 0 (rootCount m)).map (rootCell m)

/-- Blob offsets of the pointer-table entries, in index order. -/
def pointerCells (m : List Byte) : List Nat :=
  (List.range' 0 (pointerCount m)).map (pointerCell m)

/-- Blob offsets of the designated slots, in pointer-table order. -/
def slotCells (m : List Byte) : List Nat := (List.range' 0 (pointerCount m)).map (slotOf m)

/-- The buffer after line 141 (`RootObjectTable.Elements` relocated). -/
def stage1 (imageData : Nat) (m : List Byte) : List Byte :=
  leWrite m offRootObjectTableElements 8 ((imageData + rootElements m) % 2 ^ 64)

/-- The buffer after the loop of lines 143-145 (root entries relocated). -/
def stage2 (imageData : Nat) (m : List Byte) : List Byte :=
  relocCells imageData (rootCells m) (stage1 imageData m)

/-- The buffer after line 146 (`PointerTable.Elements` relocated). -/
def stage3 (imageData : Nat) (m : List Byte) : List Byte :=
  leWrite (stage2 imageData m) offPointerTableElements 8
    ((imageData + pointerElements m) % 2 ^ 64)

/-- The buffer after the loop of lines 148-150 (pointer-table entries
relocated). -/
def stage4 (imageData : Nat) (m : List Byte) : List Byte :=
  relocCells imageData (pointerCells m) (stage3 imageData m)

/-- The buffer after the loop of lines 153-156 (designated slots relocated):
what a load of an image with a proper layout leaves behind. -/
def relocated (imageData : Nat) (m : List Byte) : List Byte :=
  relocCells imageData (slotCells m) (stage4 imageData m)

/-! ## Reading the image after a load -/

/-- The operator `CarboniteArray<T>::operator[]` (lines 72-74) for an element type of
`size` bytes, on the array structure at address `array` (`Count` at offset 0,
`Elements` at offset 8): reads `this->Elements[index]`. -/
def CarboniteArray_index (size imageData : Nat) (m : List Byte) (array index : Nat) :
    Except Fault Nat :=
  (load imageData m (array + 8) 8).bind fun elements =>
  load imageData m ((elements + size * index) % 2 ^ 64) size

/-- The returned pointer of a call together with the 8-byte field at blob
offset `off` of the buffer it leaves behind. -/
def fieldAfter (r : Except Fault (Nat × List Byte)) (off : Nat) : Except Fault (Nat × Nat) :=
  r.map fun x => (x.1, read64 x.2 off)

/-- Blob offsets of all the 8-byte locations that a load relocates. -/
def relocatedCells (m : List Byte) : List Nat :=
  [offPointerTableElements, offRootObjectTableElements]
    ++ rootCells m ++ pointerCells m ++ slotCells m

/-- Field `Count` of the `CarboniteString` stored at blob offset `a`. -/
def stringCount (m : List Byte) (a : Nat) : Nat := read64 m a
/-- Field `Elements` of the `CarboniteString` stored at blob offset `a`. -/
def stringElements (m : List Byte) (a : Nat) : Nat := read64 m (a + 8)

/-- A frozen `CarboniteString` at blob offset `a`: its `Elements` field is
designated by the pointer table, its `Count` field and its terminator byte are
plain data (no byte of them is relocated), and the byte stored at offset
`Elements + Count` lies in the blob and is zero. -/
def FrozenString (m : List Byte) (a : Nat) : Prop :=
  (∃ j < pointerCount m, slotOf m j = a + 8) ∧
  (∀ k < 8, ¬ Relocated m (a + k)) ∧
  stringElements m a + stringCount m a < m.length ∧
  ¬ Relocated m (stringElements m a + stringCount m a) ∧
  m.getD (stringElements m a + stringCount m a) 0 = 0

instance (m : List Byte) (a : Nat) : Decidable (FrozenString m a) := by
  unfold FrozenString; infer_instance

/-- The conditions on the root table alone: it lies inside the blob after the
header and overlaps neither the pointer table nor a designated slot. -/
def RootTableProper (m : List Byte) : Prop :=
  ∀ i < rootCount m, InBody m (rootCell m i) ∧
    ∀ j < pointerCount m, Apart (rootCell m i) (pointerCell m j) ∧
      Apart (rootCell m i) (slotOf m j)

instance (m : List Byte) : Decidable (RootTableProper m) := by
  unfold RootTableProper; infer_instance

/-- The conditions on the designated slots alone: pairwise non-overlapping,
inside the blob after the header, overlapping neither table. -/
def SlotsProper (m : List Byte) : Prop :=
  ∀ j < pointerCount m, InBody m (slotOf m j) ∧
    (∀ k < pointerCount m, j ≠ k → Apart (slotOf m j) (slotOf m k)) ∧
    (∀ k < pointerCount m, Apart (pointerCell m k) (slotOf m j)) ∧
    (∀ i < rootCount m, Apart (rootCell m i) (slotOf m j))

instance (m : List Byte) : Decidable (SlotsProper m) := by
  unfold SlotsProper; infer_instance

/-! ## Sample images -/

/-- The four bytes `'C','R','B','N'`. -/
def magicBytes : List Byte := [0x43, 0x52, 0x42, 0x4E]

/-- Scenario A: version 1, one root object at offset 56 (an integer array
`{Count = 2, Elements = 72}` holding 10 and 20), root table at offset 40,
pointer table at offset 48 with the single entry 64 (the array's `Elements`
field). -/
def scenarioA : List Byte :=
  magicBytes ++ leBytes 4 1
    ++ leBytes 8 1 ++ leBytes 8 48 ++ leBytes 8 1 ++ leBytes 8 40
    ++ leBytes 8 56 ++ leBytes 8 64
    ++ leBytes 8 2 ++ leBytes 8 72 ++ leBytes 4 10 ++ leBytes 4 20

/-- A header with correct magic and version 1 whose root table (one entry, at
offset 40) lies past the end of the 40-byte buffer. -/
def headerOnly : List Byte :=
  magicBytes ++ leBytes 4 1
    ++ leBytes 8 0 ++ leBytes 8 0 ++ leBytes 8 1 ++ leBytes 8 40

/-- An image whose only pointer-table entry designates the header field
`RootObjectTable.Elements` (offset 32): root table at offset 40 with the entry
56, pointer table at offset 48 with the entry 32, an 8-byte object at 56. -/
def slotInHeader : List Byte :=
  magicBytes ++ leBytes 4 1
    ++ leBytes 8 1 ++ leBytes 8 48 ++ leBytes 8 1 ++ leBytes 8 40
    ++ leBytes 8 56 ++ leBytes 8 32 ++ leBytes 8 7

/-- An image with an empty pointer table whose root table (one entry) is
placed at offset 16, on top of the header field `PointerTable.Elements`. -/
def rootTableInHeader : List Byte :=
  magicBytes ++ leBytes 4 1
    ++ leBytes 8 0 ++ leBytes 8 0 ++ leBytes 8 1 ++ leBytes 8 16

/-- An image with two strings: the root object at offset 56 holds the string
`"hi"` (`Count = 2`, `Elements = 88`) and an empty string (`Count = 0`,
`Elements = 91`); the pointer table at offset 104 designates the two
`Elements` fields (offsets 64 and 80). -/
def twoStrings : List Byte :=
  magicBytes ++ leBytes 4 1
    ++ leBytes 8 2 ++ leBytes 8 104 ++ leBytes 8 1 ++ leBytes 8 40
    ++ leBytes 8 56 ++ leBytes 8 0
    ++ leBytes 8 2 ++ leBytes 8 88 ++ leBytes 8 0 ++ leBytes 8 91
    ++ [0x68, 0x69, 0, 0] ++ leBytes 4 0 ++ leBytes 8 0
    ++ leBytes 8 64 ++ leBytes 8 80

/-- An image with aliasing and a self-reference: the root object at offset 72
has three pointer fields, at offsets 72, 80 and 88, all designated by the
pointer table (at offset 48); the first two store the offset 96 of a shared
object, the third stores its own offset 88. -/
def aliasedImage : List Byte :=
  magicBytes ++ leBytes 4 1
    ++ leBytes 8 3 ++ leBytes 8 48 ++ leBytes 8 1 ++ leBytes 8 40
    ++ leBytes 8 72
    ++ leBytes 8 72 ++ leBytes 8 80 ++ leBytes 8 88
    ++ leBytes 8 96 ++ leBytes 8 96 ++ leBytes 8 88
    ++ leBytes 8 5

/-! ## The loader with a log of its stores -/

/-- The loop `relocateEntries` that also appends the address of every store it
performs to the log `w`. -/
def relocateEntriesLog (imageData countAddr entries : Nat) :
    Nat → Nat → List Byte → List Nat → Except Fault (List Byte × List Nat)
  | 0, _, _, _ => .error .fuel
  | fuel + 1, i, m, w =>
    (load imageData m countAddr 8).bind fun count =>
    if i < count then
      (load imageData m ((entries + 8 * i) % 2 ^ 64) 8).bind fun v =>
      (store imageData m ((entries + 8 * i) % 2 ^ 64) 8 ((v + imageData) % 2 ^ 64)).bind fun m1 =>
      relocateEntriesLog imageData countAddr entries fuel (i + 1) m1
        (w ++ [(entries + 8 * i) % 2 ^ 64])
    else
      .ok (m, w)

/-- The loop `relocateSlots` that also appends the address of every store it
performs to the log `w`. -/
def relocateSlotsLog (imageData : Nat) :
    Nat → Nat → List Byte → List Nat → Except Fault (List Byte × List Nat)
  | 0, _, _, _ => .error .fuel
  | fuel + 1, i, m, w =>
    (load imageData m (imageData + offPointerTableCount) 8).bind fun count =>
    if i < count then
      (load imageData m (imageData + offPointerTableElements) 8).bind fun elements =>
      (load imageData m ((elements + 8 * i) % 2 ^ 64) 8).bind fun pointer =>
      (load imageData m pointer 8).bind fun v =>
      (store imageData m pointer 8 ((v + imageData) % 2 ^ 64)).bind fun m1 =>
      relocateSlotsLog imageData fuel (i + 1) m1 (w ++ [pointer])
    else
      .ok (m, w)

/-- The relocation `relocate` with the log of the addresses of its 8-byte
stores, in the order they are performed. -/
def relocateLog (imageData : Nat) (m : List Byte) : Except Fault (List Byte × List Nat) :=
  (load imageData m (imageData + offRootObjectTableElements) 8).bind fun r =>
  (store imageData m (imageData + offRootObjectTableElements) 8 ((imageData + r) % 2 ^ 64)).bind fun m1 =>
  (load imageData m1 (imageData + offRootObjectTableElements) 8).bind fun rootObjects =>
  (relocateEntriesLog imageData (imageData + offRootObjectTableCount) rootObjects (2 ^ 64) 0 m1
    [imageData + offRootObjectTableElements]).bind fun s2 =>
  (load imageData s2.1 (imageData + offPointerTableElements) 8).bind fun p =>
  (store imageData s2.1 (imageData + offPointerTableElements) 8 ((imageData + p) % 2 ^ 64)).bind fun m3 =>
  (load imageData m3 (imageData + offPointerTableElements) 8).bind fun pointers =>
  (relocateEntriesLog imageData (imageData + offPointerTableCount) pointers (2 ^ 64) 0 m3
    (s2.2 ++ [imageData + offPointerTableElements])).bind fun s4 =>
  relocateSlotsLog imageData (2 ^ 64) 0 s4.1 s4.2

/-- The call `CarboniteUnfreezeImage` with the log of the addresses of its
8-byte stores: the returned pointer, the buffer after the call and the log. -/
def CarboniteUnfreezeImageLog (imageData : Nat) (m : List Byte)
    (expectedPayloadFormatVersion : Nat) : Except Fault (Nat × List Byte × List Nat) :=
  (load imageData m (imageData + offMagic) 4).bind fun magic =>
  if magic ≠ CARBONITE_IMAGE_MAGIC then
    .ok (nullptr, m, [])
  else
    (load imageData m (imageData + offPayloadFormatVersion) 4).bind fun version =>
    if version ≠ expectedPayloadFormatVersion ∧
        expectedPayloadFormatVersion ≠ CARBONITE_ACCEPT_ANY_PAYLOAD_FORMAT_VERSION then
      .ok (nullptr, m, [])
    else
      (relocateLog imageData m).bind fun s => .ok (imageData, s.1, s.2)

/-- The stores of a load of an image with a proper layout at the address
`imageData`, in order: `RootObjectTable.Elements`, the root entries,
`PointerTable.Elements`, the pointer-table entries, the designated slots. -/
def storesOf (imageData : Nat) (m : List Byte) : List Nat :=
  [imageData + offRootObjectTableElements] ++ (rootCells m).map (imageData + ·)
    ++ [imageData + offPointerTableElements] ++ (pointerCells m).map (imageData + ·)
    ++ (slotCells m).map (imageData + ·)

/-! ## Parts and variants of the relocation -/

/-- Line 141 alone: `RootObjectTable.Elements` is relocated. -/
def relocateRootElements (imageData : Nat) (m : List Byte) : Except Fault (List Byte) :=
  (load imageData m (imageData + offRootObjectTableElements) 8).bind fun r =>
  store imageData m (imageData + offRootObjectTableElements) 8 ((imageData + r) % 2 ^ 64)

/-- Lines 142-150: the root entries, `PointerTable.Elements` and the
pointer-table entries are relocated. -/
def relocateTableEntries (imageData : Nat) (m1 : List Byte) : Except Fault (List Byte) :=
  (load imageData m1 (imageData + offRootObjectTableElements) 8).bind fun rootObjects =>
  (relocateEntries imageData (imageData + offRootObjectTableCount) rootObjects (2 ^ 64) 0 m1).bind fun m2 =>
  (load imageData m2 (imageData + offPointerTableElements) 8).bind fun p =>
  (store imageData m2 (imageData + offPointerTableElements) 8 ((imageData + p) % 2 ^ 64)).bind fun m3 =>
  (load imageData m3 (imageData + offPointerTableElements) 8).bind fun pointers =>
  relocateEntries imageData (imageData + offPointerTableCount) pointers (2 ^ 64) 0 m3

/-- Lines 140-150: the bootstrap-table relocation that precedes the slot loop
of lines 153-156. -/
def relocateTables (imageData : Nat) (m : List Byte) : Except Fault (List Byte) :=
  (relocateRootElements imageData m).bind (relocateTableEntries imageData)

/-- The loop of lines 143-145 visiting the indices of the list `order`, each
once, instead of `0, 1, ..., Count - 1`:
`rootObjects[i] += (size_t)imageData` for every `i` of `order`. -/
def relocateEntriesIn (imageData entries : Nat) : List Nat → List Byte → Except Fault (List Byte)
  | [], m => .ok m
  | i :: rest, m =>
    (load imageData m ((entries + 8 * i) % 2 ^ 64) 8).bind fun v =>
    (store imageData m ((entries + 8 * i) % 2 ^ 64) 8 ((v + imageData) % 2 ^ 64)).bind fun m1 =>
    relocateEntriesIn imageData entries rest m1

/-- The relocation of lines 140-158 with the root entries relocated in the
order `order`; everything else is as in `relocate`. -/
def relocateInOrder (imageData : Nat) (m : List Byte) (order : List Nat) :
    Except Fault (List Byte) :=
  (load imageData m (imageData + offRootObjectTableElements) 8).bind fun r =>
  (store imageData m (imageData + offRootObjectTableElements) 8 ((imageData + r) % 2 ^ 64)).bind fun m1 =>
  (load imageData m1 (imageData + offRootObjectTableElements) 8).bind fun rootObjects =>
  (relocateEntriesIn imageData rootObjects order m1).bind fun m2 =>
  (load imageData m2 (imageData + offPointerTableElements) 8).bind fun p =>
  (store imageData m2 (imageData + offPointerTableElements) 8 ((imageData + p) % 2 ^ 64)).bind fun m3 =>
  (load imageData m3 (imageData + offPointerTableElements) 8).bind fun pointers =>
  (relocateEntries imageData (imageData + offPointerTableCount) pointers (2 ^ 64) 0 m3).bind fun m4 =>
  relocateSlots imageData (2 ^ 64) 0 m4

/-- The loader with the root entries relocated in the order `order`. -/
def CarboniteUnfreezeImageInOrder (imageData : Nat) (m : List Byte)
    (expectedPayloadFormatVersion : Nat) (order : List Nat) : Except Fault (Nat × List Byte) :=
  (load imageData m (imageData + offMagic) 4).bind fun magic =>
  if magic ≠ CARBONITE_IMAGE_MAGIC then
    .ok (nullptr, m)
  else
    (load imageData m (imageData + offPayloadFormatVersion) 4).bind fun version =>
    if version ≠ expectedPayloadFormatVersion ∧
        expectedPayloadFormatVersion ≠ CARBONITE_ACCEPT_ANY_PAYLOAD_FORMAT_VERSION then
      .ok (nullptr, m)
    else
      (relocateInOrder imageData m order).bind fun m1 => .ok (imageData, m1)

/-! ## The layout of the structures -/

/-- Size and alignment of a field, in bytes. -/
structure CField where
  /-- Number of bytes the field occupies. -/
  size : Nat
  /-- Alignment of the field. -/
  align : Nat
  deriving DecidableEq, Repr

/-- The least multiple of `a` that is at least `off`. -/
def alignUp (off a : Nat) : Nat := (off + a - 1) / a * a

/-- Offsets of the fields of a structure laid out from offset `off`: every
field at the next multiple of its alignment, in declaration order. -/
def fieldOffsets : Nat → List CField → List Nat
  | _, [] => []
  | off, f :: fs => alignUp off f.align :: fieldOffsets (alignUp off f.align + f.size) fs

/-- End of the last field of a structure laid out from offset `off`. -/
def fieldsEnd : Nat → List CField → Nat
  | off, [] => off
  | off, f :: fs => fieldsEnd (alignUp off f.align + f.size) fs

/-- A structure as a field of another: its alignment is the largest alignment
of its fields, its size the end of its last field rounded up to it. -/
def structOf (fs : List CField) : CField :=
  ⟨alignUp (fieldsEnd 0 fs) (fs.foldl (fun a f => max a f.align) 1),
    fs.foldl (fun a f => max a f.align) 1⟩

/-- Type `uint32_t`. -/
def uint32_t : CField := ⟨4, 4⟩
/-- Type `size_t` on the 64-bit platforms that line 41 admits. -/
def size_t : CField := ⟨8, 8⟩
/-- Pointer type `const T*` (8 bytes by the `static_assert` of line 41). -/
def pointer_t : CField := ⟨8, 8⟩

/-- Fields of `CarboniteArray<T>` (lines 49-61): `Count`, `Elements`. -/
def CarboniteArray_fields : List CField := [size_t, pointer_t]

/-- Fields of `CarboniteImage` (lines 94-115): `Magic`,
`PayloadFormatVersion`, `PointerTable`, `RootObjectTable`. -/
def CarboniteImage_fields : List CField :=
  [uint32_t, uint32_t, structOf CarboniteArray_fields, structOf CarboniteArray_fields]

/-- The bytes of a header with the given field values, in wire order. -/
def headerBytes (magic version pointerCount pointerElements rootCount rootElements : Nat) :
    List Byte :=
  leBytes 4 magic ++ leBytes 4 version ++ leBytes 8 pointerCount ++ leBytes 8 pointerElements
    ++ leBytes 8 rootCount ++ leBytes 8 rootElements

/-! ## More sample images -/

/-- An image with both tables empty and both stored `Elements` equal to the
zero sentinel. -/
def emptyTables : List Byte := headerBytes CARBONITE_IMAGE_MAGIC 1 0 0 0 0

/-- An image whose two tables are the same 8 bytes at offset 40: one root
entry and one pointer-table entry, both the stored offset 48 of an 8-byte slot
that stores 0.  Every stored offset is smaller than the length 56. -/
def sharedTable : List Byte :=
  headerBytes CARBONITE_IMAGE_MAGIC 1 1 40 1 40 ++ leBytes 8 48 ++ leBytes 8 0

/-- An image of length 52 whose only pointer-table entry (at offset 40) is the
offset 48: the designated 8-byte slot starts inside the blob but ends 4 bytes
past its end. -/
def straddlingSlot : List Byte :=
  headerBytes CARBONITE_IMAGE_MAGIC 1 1 40 0 0 ++ leBytes 8 48 ++ leBytes 4 0

/-- An image whose pointer table (at offset 48) has two entries that both
designate the slot at offset 64, which stores the offset 72; the root table
(at offset 40) has the single entry 64. -/
def duplicateEntry : List Byte :=
  headerBytes CARBONITE_IMAGE_MAGIC 1 2 48 1 40
    ++ leBytes 8 64 ++ leBytes 8 64 ++ leBytes 8 64 ++ leBytes 8 72 ++ leBytes 8 5

/-- An image with two root objects (8 bytes each, at offsets 56 and 64) and an
empty pointer table; the root table is at offset 40. -/
def twoRoots : List Byte :=
  headerBytes CARBONITE_IMAGE_MAGIC 1 0 0 2 40
    ++ leBytes 8 56 ++ leBytes 8 64 ++ leBytes 8 11 ++ leBytes 8 22

/-- An image whose only pointer-table entry (at offset 40) is the offset 0: the
designated 8-byte slot is the first 8 bytes of the header, `Magic` and
`PayloadFormatVersion`. -/
def slotAtMagic : List Byte :=
  headerBytes CARBONITE_IMAGE_MAGIC 1 1 40 0 0 ++ leBytes 8 0

/-! ## Little-endian fields: reading and writing -/

theorem leWrite_length (m : List Byte) (off n v : Nat) :
    (leWrite m off n v).length = m.length := by
  induction n generalizing m off v with
  | zero => rfl
  | succ n ih => simp [leWrite, ih]

theorem leWrite_getElem?_outside (m : List Byte) (off n v k : Nat)
    (hk : k < off ∨ off + n ≤ k) : (leWrite m off n v)[k]? = m[k]? := by
  induction n generalizing m off v with
  | zero => rfl
  | succ n ih =>
    simp only [leWrite]
    rw [ih _ _ _ (by omega), List.getElem?_set_ne (by omega)]

theorem leWrite_getD_outside (m : List Byte) (off n v k : Nat)
    (hk : k < off ∨ off + n ≤ k) : (leWrite m off n v).getD k 0 = m.getD k 0 := by
  simp only [List.getD_eq_getElem?_getD, leWrite_getElem?_outside m off n v k hk]

theorem leRead_congr (m1 m2 : List Byte) (off n : Nat)
    (h : ∀ k, off ≤ k → k < off + n → m1.getD k 0 = m2.getD k 0) :
    leRead m1 off n = leRead m2 off n := by
  induction n generalizing off with
  | zero => rfl
  | succ n ih =>
    simp only [leRead]
    rw [h off (by omega) (by omega), ih (off + 1) (fun k h1 h2 => h k (by omega) (by omega))]

theorem leRead_lt (m : List Byte) (off n : Nat) : leRead m off n < 256 ^ n := by
  induction n generalizing off with
  | zero => simp [leRead]
  | succ n ih =>
    simp only [leRead]
    have h1 := ih (off + 1)
    have h2 : (m.getD off 0).val < 256 := (m.getD off 0).isLt
    rw [pow_succ]
    omega

theorem leRead_leWrite_same (m : List Byte) (off n v : Nat) (h : off + n ≤ m.length) :
    leRead (leWrite m off n v) off n = v % 256 ^ n := by
  induction n generalizing m off v with
  | zero => simp [leRead, Nat.mod_one]
  | succ n ih =>
    simp only [leRead, leWrite]
    rw [leWrite_getD_outside _ _ _ _ _ (by omega), ih _ _ _ (by simp; omega)]
    have hb : (m.set off (⟨v % 256, Nat.mod_lt v (by decide)⟩ : Byte)).getD off 0
        = ⟨v % 256, Nat.mod_lt v (by decide)⟩ := by
      rw [List.getD_eq_getElem?_getD, List.getElem?_set_self (by omega)]
      rfl
    rw [hb, pow_succ, mul_comm (256 ^ n) 256, Nat.mod_mul]

theorem leRead_leWrite_disjoint (m : List Byte) (off1 n1 off2 n2 v : Nat)
    (h : off1 + n1 ≤ off2 ∨ off2 + n2 ≤ off1) :
    leRead (leWrite m off2 n2 v) off1 n1 = leRead m off1 n1 :=
  leRead_congr _ _ _ _ fun k h1 h2 => leWrite_getD_outside m off2 n2 v k (by omega)


/-! ## Accesses inside the buffer -/

theorem load_inside (imageData : Nat) (m : List Byte) (off n : Nat) (h : off + n ≤ m.length) :
    load imageData m (imageData + off) n = .ok (leRead m off n) := by
  have h1 : imageData ≤ imageData + off ∧ imageData + off + n ≤ imageData + m.length := by omega
  simp [load, h1]

theorem store_inside (imageData : Nat) (m : List Byte) (off n v : Nat)
    (h : off + n ≤ m.length) :
    store imageData m (imageData + off) n v = .ok (leWrite m off n v) := by
  have h1 : imageData ≤ imageData + off ∧ imageData + off + n ≤ imageData + m.length := by omega
  simp [store, h1]

theorem two_pow_64 : (256 : Nat) ^ 8 = 2 ^ 64 := by norm_num

theorem read64_lt (m : List Byte) (off : Nat) : read64 m off < 2 ^ 64 := by
  have h := leRead_lt m off 8
  rw [two_pow_64] at h
  exact h

/-! ## Relocating cells -/

theorem relocCell_length (imageData : Nat) (m : List Byte) (off : Nat) :
    (relocCell imageData m off).length = m.length :=
  leWrite_length _ _ _ _

theorem relocCell_getD_outside (imageData : Nat) (m : List Byte) (off k : Nat)
    (hk : k < off ∨ off + 8 ≤ k) : (relocCell imageData m off).getD k 0 = m.getD k 0 :=
  leWrite_getD_outside _ _ _ _ _ hk

theorem relocCell_leRead_disjoint (imageData : Nat) (m : List Byte) (off o n : Nat)
    (h : o + n ≤ off ∨ off + 8 ≤ o) :
    leRead (relocCell imageData m off) o n = leRead m o n :=
  leRead_leWrite_disjoint _ _ _ _ _ _ h

theorem relocCell_read64_same (imageData : Nat) (m : List Byte) (off : Nat)
    (h : off + 8 ≤ m.length) :
    read64 (relocCell imageData m off) off = (read64 m off + imageData) % 2 ^ 64 := by
  unfold relocCell
  rw [read64, leRead_leWrite_same _ _ _ _ h, two_pow_64, Nat.mod_mod]

theorem relocCells_nil (imageData : Nat) (m : List Byte) : relocCells imageData [] m = m := rfl

theorem relocCells_cons (imageData : Nat) (a : Nat) (offs : List Nat) (m : List Byte) :
    relocCells imageData (a :: offs) m = relocCells imageData offs (relocCell imageData m a) :=
  rfl

theorem relocCells_length (imageData : Nat) (offs : List Nat) (m : List Byte) :
    (relocCells imageData offs m).length = m.length := by
  induction offs generalizing m with
  | nil => rfl
  | cons a offs ih => rw [relocCells_cons, ih, relocCell_length]

theorem relocCells_getD_outside (imageData : Nat) (offs : List Nat) (m : List Byte) (k : Nat)
    (hk : ∀ c ∈ offs, k < c ∨ c + 8 ≤ k) :
    (relocCells imageData offs m).getD k 0 = m.getD k 0 := by
  induction offs generalizing m with
  | nil => rfl
  | cons a offs ih =>
    rw [relocCells_cons, ih _ (fun c hc => hk c (List.mem_cons_of_mem _ hc)),
      relocCell_getD_outside _ _ _ _ (hk a (List.mem_cons_self _ _))]

theorem relocCells_leRead_disjoint (imageData : Nat) (offs : List Nat) (m : List Byte)
    (o n : Nat) (h : ∀ c ∈ offs, o + n ≤ c ∨ c + 8 ≤ o) :
    leRead (relocCells imageData offs m) o n = leRead m o n :=
  leRead_congr _ _ _ _ fun k h1 h2 =>
    relocCells_getD_outside _ _ _ _ fun c hc => by have := h c hc; omega

theorem relocCells_read64_apart (imageData : Nat) (offs : List Nat) (m : List Byte) (c : Nat)
    (h : ∀ a ∈ offs, Apart c a) : read64 (relocCells imageData offs m) c = read64 m c :=
  relocCells_leRead_disjoint _ _ _ _ _ h

theorem relocCells_read64_mem (imageData : Nat) (offs : List Nat) (m : List Byte) (c : Nat)
    (hp : offs.Pairwise Apart) (hin : ∀ a ∈ offs, a + 8 ≤ m.length) (hc : c ∈ offs) :
    read64 (relocCells imageData offs m) c = (read64 m c + imageData) % 2 ^ 64 := by
  induction offs generalizing m with
  | nil => simp at hc
  | cons a offs ih =>
    rw [relocCells_cons]
    rw [List.pairwise_cons] at hp
    rcases List.mem_cons.mp hc with h | h
    · subst h
      rw [relocCells_read64_apart _ _ _ _ (fun b hb => hp.1 b hb),
        relocCell_read64_same _ _ _ (hin c (List.mem_cons_self _ _))]
    · rw [ih _ hp.2 (fun b hb => by
          rw [relocCell_length]; exact hin b (List.mem_cons_of_mem _ hb)) h]
      have hac : Apart a c := hp.1 c h
      have : read64 (relocCell imageData m a) c = read64 m c :=
        relocCell_leRead_disjoint _ _ _ _ _ (by unfold Apart at hac; omega)
      rw [this]

/-! ## The loops as folds -/

theorem load64_inside (imageData : Nat) (m : List Byte) (off : Nat) (h : off + 8 ≤ m.length) :
    load imageData m (imageData + off) 8 = .ok (read64 m off) :=
  load_inside imageData m off 8 h

theorem store64_reloc (imageData : Nat) (m : List Byte) (off : Nat) (h : off + 8 ≤ m.length) :
    store imageData m (imageData + off) 8 ((read64 m off + imageData) % 2 ^ 64)
      = .ok (relocCell imageData m off) :=
  store_inside imageData m off 8 _ h

theorem relocCell_read64_header (imageData : Nat) (m : List Byte) (off cOff : Nat)
    (hc : cOff + 8 ≤ sizeofCarboniteImage) (h : sizeofCarboniteImage ≤ off) :
    read64 (relocCell imageData m off) cOff = read64 m cOff :=
  relocCell_leRead_disjoint _ _ _ _ _ (by omega)

theorem relocateEntries_eq (imageData cOff entries t n : Nat)
    (hc : cOff + 8 ≤ sizeofCarboniteImage)
    (haddr : ∀ k < n, (entries + 8 * k) % 2 ^ 64 = imageData + (t + 8 * k)) :
    ∀ (d i : Nat) (m : List Byte) (fuel : Nat), i + d = n → d < fuel →
      sizeofCarboniteImage ≤ m.length → read64 m cOff = n →
      (∀ k < n, InBody m (t + 8 * k)) →
      relocateEntries imageData (imageData + cOff) entries fuel i m
        = .ok (relocCells imageData ((List.range' i d).map fun k => t + 8 * k) m) := by
  intro d
  induction d with
  | zero =>
    intro i m fuel hi hf hlen hcnt hin
    obtain ⟨f, rfl⟩ : ∃ f, fuel = f + 1 := ⟨fuel - 1, by omega⟩
    have hl := load64_inside imageData m cOff (by omega)
    simp only [relocateEntries, hl, Except.bind, hcnt]
    rw [if_neg (by omega)]
    rfl
  | succ d ih =>
    intro i m fuel hi hf hlen hcnt hin
    obtain ⟨f, rfl⟩ : ∃ f, fuel = f + 1 := ⟨fuel - 1, by omega⟩
    have hl := load64_inside imageData m cOff (by omega)
    have hi' : i < n := by omega
    have hbody := hin i hi'
    have hl2 := load64_inside imageData m (t + 8 * i) hbody.2
    have hs := store64_reloc imageData m (t + 8 * i) hbody.2
    simp only [relocateEntries, hl, Except.bind, hcnt]
    rw [if_pos hi', haddr i hi']
    simp only [hl2, hs]
    rw [ih (i + 1) _ f (by omega) (by omega) (by rw [relocCell_length]; exact hlen)
      (by rw [relocCell_read64_header _ _ _ _ hc hbody.1]; exact hcnt)
      (fun k hk => by
        have := hin k hk
        unfold InBody at this ⊢
        rw [relocCell_length]; exact this)]
    rw [List.range'_succ, List.map_cons, relocCells_cons]

theorem relocateSlots_eq (imageData elements p n : Nat) (s : Nat → Nat)
    (haddr : ∀ k < n, (elements + 8 * k) % 2 ^ 64 = imageData + (p + 8 * k))
    (hslot : ∀ k < n, sizeofCarboniteImage ≤ s k)
    (hapart : ∀ j < n, ∀ k < n, Apart (p + 8 * j) (s k)) :
    ∀ (d i : Nat) (m : List Byte) (fuel : Nat), i + d = n → d < fuel →
      sizeofCarboniteImage ≤ m.length →
      read64 m offPointerTableCount = n → read64 m offPointerTableElements = elements →
      (∀ k < n, p + 8 * k + 8 ≤ m.length) → (∀ k < n, s k + 8 ≤ m.length) →
      (∀ k < n, read64 m (p + 8 * k) = imageData + s k) →
      relocateSlots imageData fuel i m
        = .ok (relocCells imageData ((List.range' i d).map s) m) := by
  intro d
  induction d with
  | zero =>
    intro i m fuel hi hf hlen hcnt hel hpin hsin hent
    obtain ⟨f, rfl⟩ : ∃ f, fuel = f + 1 := ⟨fuel - 1, by omega⟩
    have hl := load64_inside imageData m offPointerTableCount
      (by unfold offPointerTableCount; unfold sizeofCarboniteImage at hlen; omega)
    simp only [relocateSlots, hl, Except.bind, hcnt]
    rw [if_neg (by omega)]
    rfl
  | succ d ih =>
    intro i m fuel hi hf hlen hcnt hel hpin hsin hent
    obtain ⟨f, rfl⟩ : ∃ f, fuel = f + 1 := ⟨fuel - 1, by omega⟩
    have hi' : i < n := by omega
    have h40 : sizeofCarboniteImage = 40 := rfl
    have hl := load64_inside imageData m offPointerTableCount
      (by unfold offPointerTableCount; omega)
    have hl1 := load64_inside imageData m offPointerTableElements
      (by unfold offPointerTableElements; omega)
    have hl2 := load64_inside imageData m (p + 8 * i) (hpin i hi')
    have hl3 := load64_inside imageData m (s i) (hsin i hi')
    have hs := store64_reloc imageData m (s i) (hsin i hi')
    simp only [relocateSlots, hl, Except.bind, hcnt]
    rw [if_pos hi']
    simp only [hl1, hel, haddr i hi', hl2, hent i hi', hl3, hs]
    rw [ih (i + 1) _ f (by omega) (by omega) (by rw [relocCell_length]; exact hlen)
      (by rw [relocCell_read64_header _ _ _ _ (by decide) (hslot i hi')]; exact hcnt)
      (by rw [relocCell_read64_header _ _ _ _ (by decide) (hslot i hi')]; exact hel)
      (fun k hk => by rw [relocCell_length]; exact hpin k hk)
      (fun k hk => by rw [relocCell_length]; exact hsin k hk)
      (fun k hk => by
        have ha := hapart k hk i hi'
        have : read64 (relocCell imageData m (s i)) (p + 8 * k) = read64 m (p + 8 * k) :=
          relocCell_leRead_disjoint _ _ _ _ _ (by unfold Apart at ha; omega)
        rw [this]; exact hent k hk)]
    rw [List.range'_succ, List.map_cons, relocCells_cons]

/-! ## The iteration bound is never reached -/

theorem bind_ne_fuel {α β : Type} (x : Except Fault α) (f : α → Except Fault β)
    (hx : x ≠ .error .fuel) (hf : ∀ a, x = .ok a → f a ≠ .error .fuel) :
    x.bind f ≠ .error .fuel := by
  cases x with
  | error e =>
    intro h
    apply hx
    simp only [Except.bind, Except.error.injEq] at h
    rw [h]
  | ok a => exact hf a rfl

theorem load_ne_fuel (imageData : Nat) (m : List Byte) (addr n : Nat) :
    load imageData m addr n ≠ .error .fuel := by
  unfold load
  split <;> simp

theorem store_ne_fuel (imageData : Nat) (m : List Byte) (addr n v : Nat) :
    store imageData m addr n v ≠ .error .fuel := by
  unfold store
  split <;> simp

theorem load64_lt (imageData : Nat) (m : List Byte) (addr v : Nat)
    (h : load imageData m addr 8 = .ok v) : v < 2 ^ 64 := by
  unfold load at h
  split at h
  · simp only [Except.ok.injEq] at h
    rw [← h]
    exact read64_lt _ _
  · simp at h

/-- The loop over the entries of a table ends before `2 ^ 64` iterations: the
index stays below `Count`, which is a 64-bit value. -/
theorem relocateEntries_ne_fuel (imageData countAddr entries : Nat) :
    ∀ (fuel i : Nat) (m : List Byte), i < 2 ^ 64 → 2 ^ 64 ≤ fuel + i →
      relocateEntries imageData countAddr entries fuel i m ≠ .error .fuel := by
  intro fuel
  induction fuel with
  | zero => intro i m h1 h2; omega
  | succ f ih =>
    intro i m h1 h2
    unfold relocateEntries
    refine bind_ne_fuel _ _ (load_ne_fuel _ _ _ _) fun count hc => ?_
    have hlt := load64_lt _ _ _ _ hc
    split
    · refine bind_ne_fuel _ _ (load_ne_fuel _ _ _ _) fun v _ => ?_
      refine bind_ne_fuel _ _ (store_ne_fuel _ _ _ _ _) fun m1 _ => ?_
      exact ih (i + 1) m1 (by omega) (by omega)
    · simp

theorem relocateSlots_ne_fuel (imageData : Nat) :
    ∀ (fuel i : Nat) (m : List Byte), i < 2 ^ 64 → 2 ^ 64 ≤ fuel + i →
      relocateSlots imageData fuel i m ≠ .error .fuel := by
  intro fuel
  induction fuel with
  | zero => intro i m h1 h2; omega
  | succ f ih =>
    intro i m h1 h2
    unfold relocateSlots
    refine bind_ne_fuel _ _ (load_ne_fuel _ _ _ _) fun count hc => ?_
    have hlt := load64_lt _ _ _ _ hc
    split
    · refine bind_ne_fuel _ _ (load_ne_fuel _ _ _ _) fun elements _ => ?_
      refine bind_ne_fuel _ _ (load_ne_fuel _ _ _ _) fun pointer _ => ?_
      refine bind_ne_fuel _ _ (load_ne_fuel _ _ _ _) fun v _ => ?_
      refine bind_ne_fuel _ _ (store_ne_fuel _ _ _ _ _) fun m1 _ => ?_
      exact ih (i + 1) m1 (by omega) (by omega)
    · simp

/-- On every buffer, at every address and for every expected version, the
call either returns or leaves the buffer: the iteration bound of the loops is
never the reason for a fault. -/
theorem unfreeze_ne_fuel (imageData : Nat) (m : List Byte) (expected : Nat) :
    CarboniteUnfreezeImage imageData m expected ≠ .error .fuel := by
  unfold CarboniteUnfreezeImage
  refine bind_ne_fuel _ _ (load_ne_fuel _ _ _ _) fun magic _ => ?_
  split
  · simp
  · refine bind_ne_fuel _ _ (load_ne_fuel _ _ _ _) fun version _ => ?_
    split
    · simp
    · refine bind_ne_fuel _ _ ?_ fun m1 _ => by simp
      unfold relocate
      refine bind_ne_fuel _ _ (load_ne_fuel _ _ _ _) fun r _ => ?_
      refine bind_ne_fuel _ _ (store_ne_fuel _ _ _ _ _) fun m1 _ => ?_
      refine bind_ne_fuel _ _ (load_ne_fuel _ _ _ _) fun rootObjects _ => ?_
      refine bind_ne_fuel _ _
        (relocateEntries_ne_fuel _ _ _ _ _ _ (by norm_num) (by omega)) fun m2 _ => ?_
      refine bind_ne_fuel _ _ (load_ne_fuel _ _ _ _) fun p _ => ?_
      refine bind_ne_fuel _ _ (store_ne_fuel _ _ _ _ _) fun m3 _ => ?_
      refine bind_ne_fuel _ _ (load_ne_fuel _ _ _ _) fun pointers _ => ?_
      refine bind_ne_fuel _ _
        (relocateEntries_ne_fuel _ _ _ _ _ _ (by norm_num) (by omega)) fun m4 _ => ?_
      exact relocateSlots_ne_fuel _ _ _ _ (by norm_num) (by omega)

/-! ## The stages of the relocation -/

theorem mem_rootCells {m : List Byte} {c : Nat} (h : c ∈ rootCells m) :
    ∃ i < rootCount m, c = rootCell m i := by
  unfold rootCells at h
  obtain ⟨i, hi, rfl⟩ := List.mem_map.mp h
  exact ⟨i, by have := (List.mem_range'_1.mp hi).2; omega, rfl⟩

theorem mem_pointerCells {m : List Byte} {c : Nat} (h : c ∈ pointerCells m) :
    ∃ j < pointerCount m, c = pointerCell m j := by
  unfold pointerCells at h
  obtain ⟨i, hi, rfl⟩ := List.mem_map.mp h
  exact ⟨i, by have := (List.mem_range'_1.mp hi).2; omega, rfl⟩

theorem mem_slotCells {m : List Byte} {c : Nat} (h : c ∈ slotCells m) :
    ∃ j < pointerCount m, c = slotOf m j := by
  unfold slotCells at h
  obtain ⟨i, hi, rfl⟩ := List.mem_map.mp h
  exact ⟨i, by have := (List.mem_range'_1.mp hi).2; omega, rfl⟩

theorem rootCell_mem {m : List Byte} {i : Nat} (h : i < rootCount m) :
    rootCell m i ∈ rootCells m :=
  List.mem_map.mpr ⟨i, List.mem_range'_1.mpr ⟨by omega, by omega⟩, rfl⟩

theorem pointerCell_mem {m : List Byte} {j : Nat} (h : j < pointerCount m) :
    pointerCell m j ∈ pointerCells m :=
  List.mem_map.mpr ⟨j, List.mem_range'_1.mpr ⟨by omega, by omega⟩, rfl⟩

theorem slotOf_mem {m : List Byte} {j : Nat} (h : j < pointerCount m) :
    slotOf m j ∈ slotCells m :=
  List.mem_map.mpr ⟨j, List.mem_range'_1.mpr ⟨by omega, by omega⟩, rfl⟩

theorem stride_pairwise (t n : Nat) :
    ((List.range' 0 n).map fun k => t + 8 * k).Pairwise Apart := by
  rw [List.pairwise_map]
  refine List.Pairwise.imp ?_ (List.pairwise_lt_range' 0 n)
  intro a b hab
  unfold Apart
  omega

theorem stage1_length (imageData : Nat) (m : List Byte) :
    (stage1 imageData m).length = m.length := leWrite_length _ _ _ _

theorem stage2_length (imageData : Nat) (m : List Byte) :
    (stage2 imageData m).length = m.length := by
  unfold stage2; rw [relocCells_length, stage1_length]

theorem stage3_length (imageData : Nat) (m : List Byte) :
    (stage3 imageData m).length = m.length := by
  unfold stage3; rw [leWrite_length, stage2_length]

theorem stage4_length (imageData : Nat) (m : List Byte) :
    (stage4 imageData m).length = m.length := by
  unfold stage4; rw [relocCells_length, stage3_length]

theorem relocated_length (imageData : Nat) (m : List Byte) :
    (relocated imageData m).length = m.length := by
  unfold relocated; rw [relocCells_length, stage4_length]

theorem stage1_getD (imageData : Nat) (m : List Byte) (k : Nat)
    (h : k < offRootObjectTableElements ∨ offRootObjectTableElements + 8 ≤ k) :
    (stage1 imageData m).getD k 0 = m.getD k 0 :=
  leWrite_getD_outside _ _ _ _ _ h

theorem stage2_getD (imageData : Nat) (m : List Byte) (k : Nat)
    (h : k < offRootObjectTableElements ∨ offRootObjectTableElements + 8 ≤ k)
    (hr : ∀ i < rootCount m, k < rootCell m i ∨ rootCell m i + 8 ≤ k) :
    (stage2 imageData m).getD k 0 = m.getD k 0 := by
  have hc : ∀ c ∈ rootCells m, k < c ∨ c + 8 ≤ k := fun c hc => by
    obtain ⟨i, hi, rfl⟩ := mem_rootCells hc; exact hr i hi
  unfold stage2
  rw [relocCells_getD_outside _ _ _ _ hc, stage1_getD _ _ _ h]

theorem stage3_getD (imageData : Nat) (m : List Byte) (k : Nat)
    (h : k < offRootObjectTableElements ∨ offRootObjectTableElements + 8 ≤ k)
    (hr : ∀ i < rootCount m, k < rootCell m i ∨ rootCell m i + 8 ≤ k)
    (hp : k < offPointerTableElements ∨ offPointerTableElements + 8 ≤ k) :
    (stage3 imageData m).getD k 0 = m.getD k 0 := by
  unfold stage3
  rw [leWrite_getD_outside _ _ _ _ _ hp, stage2_getD _ _ _ h hr]

theorem stage4_getD (imageData : Nat) (m : List Byte) (k : Nat)
    (h : k < offRootObjectTableElements ∨ offRootObjectTableElements + 8 ≤ k)
    (hr : ∀ i < rootCount m, k < rootCell m i ∨ rootCell m i + 8 ≤ k)
    (hp : k < offPointerTableElements ∨ offPointerTableElements + 8 ≤ k)
    (ht : ∀ j < pointerCount m, k < pointerCell m j ∨ pointerCell m j + 8 ≤ k) :
    (stage4 imageData m).getD k 0 = m.getD k 0 := by
  have hc : ∀ c ∈ pointerCells m, k < c ∨ c + 8 ≤ k := fun c hc => by
    obtain ⟨i, hi, rfl⟩ := mem_pointerCells hc; exact ht i hi
  unfold stage4
  rw [relocCells_getD_outside _ _ _ _ hc, stage3_getD _ _ _ h hr hp]

theorem relocated_getD (imageData : Nat) (m : List Byte) (k : Nat)
    (h : k < offRootObjectTableElements ∨ offRootObjectTableElements + 8 ≤ k)
    (hr : ∀ i < rootCount m, k < rootCell m i ∨ rootCell m i + 8 ≤ k)
    (hp : k < offPointerTableElements ∨ offPointerTableElements + 8 ≤ k)
    (ht : ∀ j < pointerCount m, k < pointerCell m j ∨ pointerCell m j + 8 ≤ k)
    (hs : ∀ j < pointerCount m, k < slotOf m j ∨ slotOf m j + 8 ≤ k) :
    (relocated imageData m).getD k 0 = m.getD k 0 := by
  have hc : ∀ c ∈ slotCells m, k < c ∨ c + 8 ≤ k := fun c hc => by
    obtain ⟨i, hi, hci⟩ := mem_slotCells hc
    rw [hci]; exact hs i hi
  unfold relocated
  rw [relocCells_getD_outside _ _ _ _ hc, stage4_getD _ _ _ h hr hp ht]

/-! ## Consequences of a proper layout -/

theorem Layout.root_in {m : List Byte} (h : Layout m) {i : Nat} (hi : i < rootCount m) :
    40 ≤ rootCell m i ∧ rootCell m i + 8 ≤ m.length := h.1 i hi

theorem Layout.pointer_in {m : List Byte} (h : Layout m) {j : Nat} (hj : j < pointerCount m) :
    40 ≤ pointerCell m j ∧ pointerCell m j + 8 ≤ m.length := h.2.1 j hj

theorem Layout.slot_in {m : List Byte} (h : Layout m) {j : Nat} (hj : j < pointerCount m) :
    40 ≤ slotOf m j ∧ slotOf m j + 8 ≤ m.length := h.2.2.1 j hj

theorem Layout.root_pointer {m : List Byte} (h : Layout m) {i j : Nat}
    (hi : i < rootCount m) (hj : j < pointerCount m) :
    rootCell m i + 8 ≤ pointerCell m j ∨ pointerCell m j + 8 ≤ rootCell m i :=
  h.2.2.2.1 i hi j hj

theorem Layout.root_slot {m : List Byte} (h : Layout m) {i j : Nat}
    (hi : i < rootCount m) (hj : j < pointerCount m) :
    rootCell m i + 8 ≤ slotOf m j ∨ slotOf m j + 8 ≤ rootCell m i :=
  h.2.2.2.2.1 i hi j hj

theorem Layout.pointer_slot {m : List Byte} (h : Layout m) {j k : Nat}
    (hj : j < pointerCount m) (hk : k < pointerCount m) :
    pointerCell m j + 8 ≤ slotOf m k ∨ slotOf m k + 8 ≤ pointerCell m j :=
  h.2.2.2.2.2 j hj k hk

theorem ValidBuffer.header {imageData : Nat} {m : List Byte} (h : ValidBuffer imageData m) :
    40 ≤ m.length := h.2.2

theorem ValidBuffer.fits {imageData : Nat} {m : List Byte} (h : ValidBuffer imageData m) :
    imageData + m.length ≤ 18446744073709551616 := h.2.1

/-! ### Reads that a stage leaves alone -/

theorem peel_slots (imageData : Nat) (m : List Byte) (o n : Nat)
    (h : ∀ j < pointerCount m, o + n ≤ slotOf m j ∨ slotOf m j + 8 ≤ o) :
    leRead (relocated imageData m) o n = leRead (stage4 imageData m) o n :=
  relocCells_leRead_disjoint _ _ _ _ _ fun c hc => by
    obtain ⟨j, hj, hcj⟩ := mem_slotCells hc
    rw [hcj]; exact h j hj

theorem peel_pointers (imageData : Nat) (m : List Byte) (o n : Nat)
    (h : ∀ j < pointerCount m, o + n ≤ pointerCell m j ∨ pointerCell m j + 8 ≤ o) :
    leRead (stage4 imageData m) o n = leRead (stage3 imageData m) o n :=
  relocCells_leRead_disjoint _ _ _ _ _ fun c hc => by
    obtain ⟨j, hj, rfl⟩ := mem_pointerCells hc; exact h j hj

theorem peel_pointerElements (imageData : Nat) (m : List Byte) (o n : Nat)
    (h : o + n ≤ 16 ∨ 24 ≤ o) :
    leRead (stage3 imageData m) o n = leRead (stage2 imageData m) o n :=
  leRead_leWrite_disjoint _ _ _ _ _ _ h

theorem peel_roots (imageData : Nat) (m : List Byte) (o n : Nat)
    (h : ∀ i < rootCount m, o + n ≤ rootCell m i ∨ rootCell m i + 8 ≤ o) :
    leRead (stage2 imageData m) o n = leRead (stage1 imageData m) o n :=
  relocCells_leRead_disjoint _ _ _ _ _ fun c hc => by
    obtain ⟨j, hj, rfl⟩ := mem_rootCells hc; exact h j hj

theorem peel_rootElements (imageData : Nat) (m : List Byte) (o n : Nat)
    (h : o + n ≤ 32 ∨ 40 ≤ o) :
    leRead (stage1 imageData m) o n = leRead m o n :=
  leRead_leWrite_disjoint _ _ _ _ _ _ h

/-- A field of the header other than the two `Elements` fields is the same
at every stage, when the tables and slots lie after the header. -/
theorem header_field_stage4 {imageData : Nat} {m : List Byte} (hL : Layout m) (o n : Nat)
    (h1 : o + n ≤ 16 ∨ 24 ≤ o) (h2 : o + n ≤ 32) :
    leRead (stage4 imageData m) o n = leRead m o n := by
  rw [peel_pointers _ _ _ _ (fun j hj => by have := hL.pointer_in hj; omega),
    peel_pointerElements _ _ _ _ h1,
    peel_roots _ _ _ _ (fun i hi => by have := hL.root_in hi; omega),
    peel_rootElements _ _ _ _ (by omega)]

theorem header_field_relocated {imageData : Nat} {m : List Byte} (hL : Layout m) (o n : Nat)
    (h1 : o + n ≤ 16 ∨ 24 ≤ o) (h2 : o + n ≤ 32) :
    leRead (relocated imageData m) o n = leRead m o n := by
  rw [peel_slots _ _ _ _ (fun j hj => by have := hL.slot_in hj; omega),
    header_field_stage4 hL o n h1 h2]

theorem stage1_rootElements (imageData : Nat) (m : List Byte) (h : 40 ≤ m.length) :
    read64 (stage1 imageData m) offRootObjectTableElements
      = (imageData + rootElements m) % 2 ^ 64 := by
  unfold stage1 read64
  rw [leRead_leWrite_same _ _ _ _ (by unfold offRootObjectTableElements; omega), two_pow_64,
    Nat.mod_mod]

theorem stage3_pointerElements (imageData : Nat) (m : List Byte) (h : 40 ≤ m.length) :
    read64 (stage3 imageData m) offPointerTableElements
      = (imageData + pointerElements m) % 2 ^ 64 := by
  unfold stage3 read64
  rw [leRead_leWrite_same _ _ _ _ (by
    rw [stage2_length]; unfold offPointerTableElements; omega), two_pow_64, Nat.mod_mod]

theorem stage2_pointerElements {imageData : Nat} {m : List Byte} (hL : Layout m) :
    read64 (stage2 imageData m) offPointerTableElements = pointerElements m := by
  unfold read64 pointerElements read64 offPointerTableElements
  rw [peel_roots _ _ _ _ (fun i hi => by have := hL.root_in hi; omega),
    peel_rootElements _ _ _ _ (by omega)]

theorem stage3_pointerCell {imageData : Nat} {m : List Byte} (hL : Layout m) {j : Nat}
    (hj : j < pointerCount m) :
    read64 (stage3 imageData m) (pointerCell m j) = slotOf m j := by
  have h := hL.pointer_in hj
  unfold read64 slotOf read64
  rw [peel_pointerElements _ _ _ _ (by omega),
    peel_roots _ _ _ _ (fun i hi => by have := hL.root_pointer hi hj; omega),
    peel_rootElements _ _ _ _ (by omega)]

theorem stage4_pointerCell {imageData : Nat} {m : List Byte} (hL : Layout m) {j : Nat}
    (hj : j < pointerCount m) :
    read64 (stage4 imageData m) (pointerCell m j) = (slotOf m j + imageData) % 2 ^ 64 := by
  have hp : (pointerCells m).Pairwise Apart :=
    stride_pairwise (pointerElements m) (pointerCount m)
  have hin : ∀ a ∈ pointerCells m, a + 8 ≤ (stage3 imageData m).length := by
    intro a ha
    obtain ⟨k, hk, rfl⟩ := mem_pointerCells ha
    rw [stage3_length]; exact (hL.pointer_in hk).2
  unfold stage4
  rw [relocCells_read64_mem _ _ _ _ hp hin (pointerCell_mem hj), stage3_pointerCell hL hj]

theorem wrap_add (imageData t k len : Nat) (hfit : imageData + len ≤ 18446744073709551616)
    (h : t + 8 * k + 8 ≤ len) :
    ((imageData + t) % 2 ^ 64 + 8 * k) % 2 ^ 64 = imageData + (t + 8 * k) := by
  norm_num
  omega

theorem wrap_base (imageData s len : Nat) (hfit : imageData + len ≤ 18446744073709551616)
    (h : s + 8 ≤ len) : (s + imageData) % 2 ^ 64 = imageData + s := by
  norm_num
  omega

/-- With a valid buffer and a proper layout, the relocation of lines 140-158
runs to its end without leaving the buffer and produces `relocated`. -/
theorem relocate_eq {imageData : Nat} {m : List Byte} (hV : ValidBuffer imageData m)
    (hL : Layout m) : relocate imageData m = .ok (relocated imageData m) := by
  have h40 := hV.header
  have hfit := hV.fits
  have e1 : load imageData m (imageData + offRootObjectTableElements) 8
      = .ok (rootElements m) :=
    load64_inside _ _ _ (by unfold offRootObjectTableElements; omega)
  have e2 : store imageData m (imageData + offRootObjectTableElements) 8
      ((imageData + rootElements m) % 2 ^ 64) = .ok (stage1 imageData m) :=
    store_inside _ _ _ _ _ (by unfold offRootObjectTableElements; omega)
  have e3 : load imageData (stage1 imageData m) (imageData + offRootObjectTableElements) 8
      = .ok ((imageData + rootElements m) % 2 ^ 64) := by
    rw [load64_inside _ _ _ (by rw [stage1_length]; unfold offRootObjectTableElements; omega),
      stage1_rootElements _ _ h40]
  have e4 : relocateEntries imageData (imageData + offRootObjectTableCount)
      ((imageData + rootElements m) % 2 ^ 64) (2 ^ 64) 0 (stage1 imageData m)
      = .ok (stage2 imageData m) := by
    have hcount : read64 (stage1 imageData m) offRootObjectTableCount = rootCount m :=
      peel_rootElements _ _ _ _ (by unfold offRootObjectTableCount; omega)
    exact relocateEntries_eq imageData offRootObjectTableCount _ (rootElements m) (rootCount m)
      (by decide)
      (fun k hk => wrap_add _ _ _ _ hfit (hL.root_in hk).2)
      (rootCount m) 0 (stage1 imageData m) (2 ^ 64) (by omega) (read64_lt _ _)
      (by rw [stage1_length]; exact h40) hcount
      (fun k hk => by
        have := hL.root_in hk
        unfold InBody
        rw [stage1_length]; exact this)
  have e5 : load imageData (stage2 imageData m) (imageData + offPointerTableElements) 8
      = .ok (pointerElements m) := by
    rw [load64_inside _ _ _ (by rw [stage2_length]; unfold offPointerTableElements; omega),
      stage2_pointerElements hL]
  have e6 : store imageData (stage2 imageData m) (imageData + offPointerTableElements) 8
      ((imageData + pointerElements m) % 2 ^ 64) = .ok (stage3 imageData m) :=
    store_inside _ _ _ _ _ (by rw [stage2_length]; unfold offPointerTableElements; omega)
  have e7 : load imageData (stage3 imageData m) (imageData + offPointerTableElements) 8
      = .ok ((imageData + pointerElements m) % 2 ^ 64) := by
    rw [load64_inside _ _ _ (by rw [stage3_length]; unfold offPointerTableElements; omega),
      stage3_pointerElements _ _ h40]
  have hcount3 : read64 (stage3 imageData m) offPointerTableCount = pointerCount m := by
    unfold read64 pointerCount read64 offPointerTableCount
    rw [peel_pointerElements _ _ _ _ (by omega),
      peel_roots _ _ _ _ (fun i hi => by have := hL.root_in hi; omega),
      peel_rootElements _ _ _ _ (by omega)]
  have e8 : relocateEntries imageData (imageData + offPointerTableCount)
      ((imageData + pointerElements m) % 2 ^ 64) (2 ^ 64) 0 (stage3 imageData m)
      = .ok (stage4 imageData m) :=
    relocateEntries_eq imageData offPointerTableCount _ (pointerElements m) (pointerCount m)
      (by decide)
      (fun k hk => wrap_add _ _ _ _ hfit (hL.pointer_in hk).2)
      (pointerCount m) 0 (stage3 imageData m) (2 ^ 64) (by omega) (read64_lt _ _)
      (by rw [stage3_length]; exact h40) hcount3
      (fun k hk => by
        have := hL.pointer_in hk
        unfold InBody
        rw [stage3_length]; exact this)
  have e9 : relocateSlots imageData (2 ^ 64) 0 (stage4 imageData m)
      = .ok (relocated imageData m) :=
    relocateSlots_eq imageData ((imageData + pointerElements m) % 2 ^ 64) (pointerElements m)
      (pointerCount m) (slotOf m)
      (fun k hk => wrap_add _ _ _ _ hfit (hL.pointer_in hk).2)
      (fun k hk => (hL.slot_in hk).1)
      (fun j hj k hk => hL.pointer_slot hj hk)
      (pointerCount m) 0 (stage4 imageData m) (2 ^ 64) (by omega) (read64_lt _ _)
      (by rw [stage4_length]; exact h40)
      (by
        have : leRead (stage4 imageData m) 8 8 = leRead m 8 8 :=
          header_field_stage4 hL 8 8 (by omega) (by omega)
        exact this)
      (by
        have h := stage3_pointerElements imageData m h40
        have hp : read64 (stage4 imageData m) offPointerTableElements
            = read64 (stage3 imageData m) offPointerTableElements :=
          peel_pointers _ _ _ _ (fun j hj => by
            have := hL.pointer_in hj; unfold offPointerTableElements; omega)
        rw [hp, h])
      (fun k hk => by rw [stage4_length]; exact (hL.pointer_in hk).2)
      (fun k hk => by rw [stage4_length]; exact (hL.slot_in hk).2)
      (fun k hk => by
        have : read64 (stage4 imageData m) (pointerCell m k)
            = (slotOf m k + imageData) % 2 ^ 64 := stage4_pointerCell hL hk
        rw [wrap_base _ _ _ hfit (hL.slot_in hk).2] at this
        exact this)
  unfold relocate
  simp only [e1, e2, e3, e4, e5, e6, e7, e8, e9, Except.bind]

/-! ## The buffer after a load -/

theorem relocated_rootElements {imageData : Nat} {m : List Byte} (h40 : 40 ≤ m.length)
    (hL : Layout m) :
    read64 (relocated imageData m) offRootObjectTableElements
      = (imageData + rootElements m) % 2 ^ 64 := by
  rw [← stage1_rootElements imageData m h40]
  unfold read64 offRootObjectTableElements
  rw [peel_slots _ _ _ _ (fun j hj => by have := hL.slot_in hj; omega),
    peel_pointers _ _ _ _ (fun j hj => by have := hL.pointer_in hj; omega),
    peel_pointerElements _ _ _ _ (by omega),
    peel_roots _ _ _ _ (fun i hi => by have := hL.root_in hi; omega)]

theorem relocated_pointerElements {imageData : Nat} {m : List Byte} (h40 : 40 ≤ m.length)
    (hL : Layout m) :
    read64 (relocated imageData m) offPointerTableElements
      = (imageData + pointerElements m) % 2 ^ 64 := by
  rw [← stage3_pointerElements imageData m h40]
  unfold read64 offPointerTableElements
  rw [peel_slots _ _ _ _ (fun j hj => by have := hL.slot_in hj; omega),
    peel_pointers _ _ _ _ (fun j hj => by have := hL.pointer_in hj; omega)]

theorem relocated_rootCell {imageData : Nat} {m : List Byte} (hL : Layout m) {i : Nat}
    (hi : i < rootCount m) :
    read64 (relocated imageData m) (rootCell m i)
      = (rootEntry m i + imageData) % 2 ^ 64 := by
  have hc := hL.root_in hi
  have hp : (rootCells m).Pairwise Apart := stride_pairwise (rootElements m) (rootCount m)
  have hin : ∀ a ∈ rootCells m, a + 8 ≤ (stage1 imageData m).length := by
    intro a ha
    obtain ⟨k, hk, rfl⟩ := mem_rootCells ha
    rw [stage1_length]; exact (hL.root_in hk).2
  have h1 : read64 (stage1 imageData m) (rootCell m i) = rootEntry m i :=
    peel_rootElements _ _ _ _ (by omega)
  have h2 : read64 (stage2 imageData m) (rootCell m i)
      = (rootEntry m i + imageData) % 2 ^ 64 := by
    unfold stage2
    rw [relocCells_read64_mem _ _ _ _ hp hin (rootCell_mem hi), h1]
  rw [← h2]
  unfold read64
  rw [peel_slots _ _ _ _ (fun j hj => by have := hL.root_slot hi hj; omega),
    peel_pointers _ _ _ _ (fun j hj => by have := hL.root_pointer hi hj; omega),
    peel_pointerElements _ _ _ _ (by omega)]

theorem relocated_pointerCell {imageData : Nat} {m : List Byte} (hL : Layout m) {j : Nat}
    (hj : j < pointerCount m) :
    read64 (relocated imageData m) (pointerCell m j)
      = (slotOf m j + imageData) % 2 ^ 64 := by
  rw [← stage4_pointerCell hL hj]
  unfold read64
  rw [peel_slots _ _ _ _ (fun k hk => by have := hL.pointer_slot hj hk; omega)]

theorem stage4_slot {imageData : Nat} {m : List Byte} (hL : Layout m) {j : Nat}
    (hj : j < pointerCount m) :
    read64 (stage4 imageData m) (slotOf m j) = slotValue m j := by
  have hc := hL.slot_in hj
  unfold read64 slotValue read64
  rw [peel_pointers _ _ _ _ (fun k hk => by have := hL.pointer_slot hk hj; omega),
    peel_pointerElements _ _ _ _ (by omega),
    peel_roots _ _ _ _ (fun i hi => by have := hL.root_slot hi hj; omega),
    peel_rootElements _ _ _ _ (by omega)]

theorem slotCells_pairwise {m : List Byte} (hD : DistinctSlots m) :
    (slotCells m).Pairwise Apart := by
  unfold slotCells
  rw [List.pairwise_map]
  refine List.Pairwise.imp_of_mem ?_ (List.pairwise_lt_range' 0 (pointerCount m))
  intro a b ha hb hab
  have h1 := (List.mem_range'_1.mp ha).2
  have h2 := (List.mem_range'_1.mp hb).2
  exact hD a (by omega) b (by omega) (by omega)

theorem relocated_slot {imageData : Nat} {m : List Byte} (hL : Layout m)
    (hD : DistinctSlots m) {j : Nat} (hj : j < pointerCount m) :
    read64 (relocated imageData m) (slotOf m j)
      = (slotValue m j + imageData) % 2 ^ 64 := by
  have hin : ∀ a ∈ slotCells m, a + 8 ≤ (stage4 imageData m).length := by
    intro a ha
    obtain ⟨k, hk, hak⟩ := mem_slotCells ha
    rw [stage4_length, hak]; exact (hL.slot_in hk).2
  unfold relocated
  rw [relocCells_read64_mem _ _ _ _ (slotCells_pairwise hD) hin (slotOf_mem hj),
    stage4_slot hL hj]

theorem getElem?_eq_of_getD {m1 m2 : List Byte} {k : Nat} (hlen : m1.length = m2.length)
    (h : m1.getD k 0 = m2.getD k 0) : m1[k]? = m2[k]? := by
  by_cases hk : k < m1.length
  · have hk2 : k < m2.length := by omega
    rw [List.getD_eq_getElem _ _ hk, List.getD_eq_getElem _ _ hk2] at h
    rw [List.getElem?_eq_getElem hk, List.getElem?_eq_getElem hk2, h]
  · rw [List.getElem?_eq_none (by omega), List.getElem?_eq_none (by omega)]

theorem relocated_frame (imageData : Nat) (m : List Byte) (k : Nat) (h : ¬ Relocated m k) :
    (relocated imageData m).getD k 0 = m.getD k 0 := by
  unfold Relocated at h
  simp only [not_or, not_exists, not_and] at h
  obtain ⟨h16, h32, hr, hp, hs⟩ := h
  refine relocated_getD imageData m k ?_ ?_ ?_ ?_ ?_
  · by_cases hc : offRootObjectTableElements ≤ k
    · have := h32 hc; omega
    · omega
  · intro i hi
    by_cases hc : rootCell m i ≤ k
    · have := hr i hi hc; omega
    · omega
  · by_cases hc : offPointerTableElements ≤ k
    · have := h16 hc; omega
    · omega
  · intro j hj
    by_cases hc : pointerCell m j ≤ k
    · have := hp j hj hc; omega
    · omega
  · intro j hj
    by_cases hc : slotOf m j ≤ k
    · have := hs j hj hc; omega
    · omega

/-! ## The header check -/

theorem load_magic (imageData : Nat) (m : List Byte) (h : 4 ≤ m.length) :
    load imageData m (imageData + offMagic) 4 = .ok (magicOf m) :=
  load_inside imageData m offMagic 4 (by unfold offMagic; omega)

theorem load_version (imageData : Nat) (m : List Byte) (h : 8 ≤ m.length) :
    load imageData m (imageData + offPayloadFormatVersion) 4 = .ok (versionOf m) :=
  load_inside imageData m offPayloadFormatVersion 4 (by unfold offPayloadFormatVersion; omega)

theorem unfreeze_of_gate (imageData : Nat) (m : List Byte) (expected : Nat)
    (hlen : 8 ≤ m.length) (hg : passesGate m expected) :
    CarboniteUnfreezeImage imageData m expected
      = (relocate imageData m).bind fun m1 => .ok (imageData, m1) := by
  obtain ⟨hm, hv⟩ := hg
  unfold CarboniteUnfreezeImage
  rw [load_magic _ _ (by omega), load_version _ _ hlen]
  simp only [Except.bind]
  rw [if_neg (by simp [hm]), if_neg (by
    intro h
    rcases hv with hv | hv
    · exact h.1 hv
    · exact h.2 hv)]

/-- What a load of an image with a proper layout that passes the header check
returns: the address of the buffer, and the buffer relocated in place. -/
theorem unfreeze_eq {imageData : Nat} {m : List Byte} (expected : Nat)
    (hV : ValidBuffer imageData m) (hL : Layout m) (hg : passesGate m expected) :
    CarboniteUnfreezeImage imageData m expected = .ok (imageData, relocated imageData m) := by
  have h40 := hV.header
  rw [unfreeze_of_gate _ _ _ (by omega) hg, relocate_eq hV hL]
  rfl

theorem unfreeze_of_bad_magic (imageData : Nat) (m : List Byte) (expected : Nat)
    (hlen : 4 ≤ m.length) (hmagic : magicOf m ≠ CARBONITE_IMAGE_MAGIC) :
    CarboniteUnfreezeImage imageData m expected = .ok (nullptr, m) := by
  unfold CarboniteUnfreezeImage
  rw [load_magic _ _ hlen]
  simp only [Except.bind]
  rw [if_pos hmagic]

theorem unfreeze_of_bad_version (imageData : Nat) (m : List Byte) (expected : Nat)
    (hlen : 8 ≤ m.length) (hmagic : magicOf m = CARBONITE_IMAGE_MAGIC)
    (hversion : versionOf m ≠ expected)
    (hwild : expected ≠ CARBONITE_ACCEPT_ANY_PAYLOAD_FORMAT_VERSION) :
    CarboniteUnfreezeImage imageData m expected = .ok (nullptr, m) := by
  unfold CarboniteUnfreezeImage
  rw [load_magic _ _ (by omega), load_version _ _ hlen]
  simp only [Except.bind]
  rw [if_neg (by simp [hmagic]), if_pos ⟨hversion, hwild⟩]

theorem passesGate_iff (m : List Byte) (expected : Nat) :
    ¬ passesGate m expected ↔
      (magicOf m ≠ CARBONITE_IMAGE_MAGIC ∨
        (versionOf m ≠ expected ∧ expected ≠ CARBONITE_ACCEPT_ANY_PAYLOAD_FORMAT_VERSION)) := by
  unfold passesGate
  constructor
  · intro h
    by_cases h1 : magicOf m = CARBONITE_IMAGE_MAGIC
    · right
      constructor
      · intro h2; exact h ⟨h1, Or.inl h2⟩
      · intro h2; exact h ⟨h1, Or.inr h2⟩
    · left; exact h1
  · rintro (h | ⟨h1, h2⟩) ⟨h3, h4⟩
    · exact h h3
    · rcases h4 with h4 | h4
      · exact h1 h4
      · exact h2 h4

/-- The call returns `nullptr` exactly when the header check fails. -/
theorem unfreeze_null_iff (imageData : Nat) (m : List Byte) (expected : Nat)
    (hbase : 0 < imageData) (hlen : 8 ≤ m.length) :
    (∃ m1, CarboniteUnfreezeImage imageData m expected = .ok (nullptr, m1)) ↔
      ¬ passesGate m expected := by
  constructor
  · rintro ⟨m1, h⟩ hg
    rw [unfreeze_of_gate _ _ _ hlen hg] at h
    cases hr : relocate imageData m with
    | error e => rw [hr] at h; simp [Except.bind] at h
    | ok m2 =>
      rw [hr] at h
      simp only [Except.bind, Except.ok.injEq, Prod.mk.injEq] at h
      unfold nullptr at h
      omega
  · intro hg
    rcases (passesGate_iff m expected).mp hg with h | ⟨h1, h2⟩
    · exact ⟨m, unfreeze_of_bad_magic _ _ _ (by omega) h⟩
    · by_cases h3 : magicOf m = CARBONITE_IMAGE_MAGIC
      · exact ⟨m, unfreeze_of_bad_version _ _ _ hlen h3 h1 h2⟩
      · exact ⟨m, unfreeze_of_bad_magic _ _ _ (by omega) h3⟩

theorem wrap_lt (imageData s len : Nat) (hfit : imageData + len ≤ 18446744073709551616)
    (h : s < len) : (imageData + s) % 2 ^ 64 = imageData + s := by
  norm_num
  omega

/-- Indexing a table of the header after the load: `operator[]` reads the
entry through the relocated `Elements` field. -/
theorem index_entry (imageData : Nat) (m1 : List Byte) (table t k v : Nat)
    (hfit : imageData + m1.length ≤ 18446744073709551616)
    (htable : table + 16 ≤ m1.length)
    (hel : read64 m1 (table + 8) = (imageData + t) % 2 ^ 64)
    (hin : t + 8 * k + 8 ≤ m1.length) (hv : read64 m1 (t + 8 * k) = v) :
    CarboniteArray_index 8 imageData m1 (imageData + table) k = .ok v := by
  unfold CarboniteArray_index
  rw [Nat.add_assoc, load64_inside _ _ _ (by omega), hel]
  simp only [Except.bind]
  rw [wrap_add _ _ _ _ hfit hin, load64_inside _ _ _ hin, hv]

theorem WellFormed.valid {imageData : Nat} {m : List Byte} (h : WellFormed imageData m) :
    ValidBuffer imageData m := h.1

theorem WellFormed.layout {imageData : Nat} {m : List Byte} (h : WellFormed imageData m) :
    Layout m := h.2.1

theorem WellFormed.distinct {imageData : Nat} {m : List Byte} (h : WellFormed imageData m) :
    DistinctSlots m := h.2.2.1

theorem WellFormed.offsets {imageData : Nat} {m : List Byte} (h : WellFormed imageData m) :
    OffsetsInBlob m := h.2.2.2

/-- Every relocated location of a well-formed image holds, after the load,
the base address plus the offset it held before. -/
theorem relocated_cell {imageData : Nat} {m : List Byte} (hW : WellFormed imageData m)
    {c : Nat} (hc : c ∈ relocatedCells m) :
    read64 (relocated imageData m) c = imageData + read64 m c := by
  have hV := hW.valid
  have hL := hW.layout
  have hfit := hV.fits
  obtain ⟨hr, hp, he, hs, hv⟩ := hW.offsets
  unfold relocatedCells at hc
  simp only [List.mem_append, List.mem_cons, List.not_mem_nil, or_false] at hc
  rcases hc with (((hc | hc) | hc) | hc) | hc
  · subst hc
    rw [relocated_pointerElements hV.header hL]
    exact wrap_lt _ _ _ hfit hp
  · subst hc
    rw [relocated_rootElements hV.header hL]
    exact wrap_lt _ _ _ hfit hr
  · obtain ⟨i, hi, hci⟩ := mem_rootCells hc
    rw [hci, relocated_rootCell hL hi, Nat.add_comm]
    exact wrap_lt _ _ _ hfit (he i hi)
  · obtain ⟨j, hj, hcj⟩ := mem_pointerCells hc
    rw [hcj, relocated_pointerCell hL hj, Nat.add_comm]
    exact wrap_lt _ _ _ hfit (hs j hj)
  · obtain ⟨j, hj, hcj⟩ := mem_slotCells hc
    rw [hcj, relocated_slot hL hW.distinct hj, Nat.add_comm]
    exact wrap_lt _ _ _ hfit (hv j hj)

/-- The relocated bytes are the bytes of the relocated locations. -/
theorem relocated_iff (m : List Byte) (k : Nat) :
    Relocated m k ↔ ∃ c ∈ relocatedCells m, c ≤ k ∧ k < c + 8 := by
  unfold Relocated relocatedCells
  constructor
  · rintro (h | h | ⟨i, hi, h⟩ | ⟨j, hj, h⟩ | ⟨j, hj, h⟩)
    · exact ⟨_, by simp, h⟩
    · exact ⟨_, by simp, h⟩
    · exact ⟨_, by
        simp only [List.mem_append]
        exact Or.inl (Or.inl (Or.inr (rootCell_mem hi))), h⟩
    · exact ⟨_, by
        simp only [List.mem_append]
        exact Or.inl (Or.inr (pointerCell_mem hj)), h⟩
    · exact ⟨_, by
        simp only [List.mem_append]
        exact Or.inr (slotOf_mem hj), h⟩
  · rintro ⟨c, hc, h⟩
    simp only [List.mem_append, List.mem_cons, List.not_mem_nil, or_false] at hc
    rcases hc with (((hc | hc) | hc) | hc) | hc
    · subst hc; exact Or.inl h
    · subst hc; exact Or.inr (Or.inl h)
    · obtain ⟨i, hi, hci⟩ := mem_rootCells hc
      rw [hci] at h
      exact Or.inr (Or.inr (Or.inl ⟨i, hi, h⟩))
    · obtain ⟨j, hj, hcj⟩ := mem_pointerCells hc
      rw [hcj] at h
      exact Or.inr (Or.inr (Or.inr (Or.inl ⟨j, hj, h⟩)))
    · obtain ⟨j, hj, hcj⟩ := mem_slotCells hc
      rw [hcj] at h
      exact Or.inr (Or.inr (Or.inr (Or.inr ⟨j, hj, h⟩)))

theorem relocated_frame_getElem? (imageData : Nat) (m : List Byte) (k : Nat)
    (h : ¬ Relocated m k) : (relocated imageData m)[k]? = m[k]? :=
  getElem?_eq_of_getD (relocated_length _ _) (relocated_frame imageData m k h)

theorem leRead_one (m : List Byte) (off : Nat) : leRead m off 1 = (m.getD off 0).val := by
  simp [leRead]

/-! ## Claims -/

/-- C1 (magic gate): on a buffer whose `Magic` field (its first four bytes)
differs from `CARBONITE_IMAGE_MAGIC`, `CarboniteUnfreezeImage` returns
`nullptr` for every expected version, the wildcard included, and hands the
buffer back byte for byte as it was. -/
theorem magic_gate (imageData : Nat) (m : List Byte) (expected : Nat)
    (hlen : 4 ≤ m.length) (hmagic : magicOf m ≠ CARBONITE_IMAGE_MAGIC) :
    CarboniteUnfreezeImage imageData m expected = .ok (nullptr, m) :=
  unfreeze_of_bad_magic imageData m expected hlen hmagic

/-- Witness of C1: a buffer starting with `"XRBN"`, loaded with the wildcard. -/
theorem magic_gate_witness :
    4 ≤ ([0x58, 0x52, 0x42, 0x4E, 1, 0, 0, 0] : List Byte).length ∧
    magicOf [0x58, 0x52, 0x42, 0x4E, 1, 0, 0, 0] ≠ CARBONITE_IMAGE_MAGIC ∧
    CarboniteUnfreezeImage 4096 [0x58, 0x52, 0x42, 0x4E, 1, 0, 0, 0]
        CARBONITE_ACCEPT_ANY_PAYLOAD_FORMAT_VERSION
      = .ok (nullptr, [0x58, 0x52, 0x42, 0x4E, 1, 0, 0, 0]) :=
  ⟨by decide, by decide, magic_gate 4096 _ _ (by decide) (by decide)⟩

/-- C2 (version gate): on a buffer with the correct `Magic` whose
`PayloadFormatVersion` differs from the expected version, the expected version
not being the wildcard, `CarboniteUnfreezeImage` returns `nullptr` and hands
the buffer back byte for byte as it was. -/
theorem version_gate (imageData : Nat) (m : List Byte) (expected : Nat)
    (hlen : 8 ≤ m.length) (hmagic : magicOf m = CARBONITE_IMAGE_MAGIC)
    (hversion : versionOf m ≠ expected)
    (hwild : expected ≠ CARBONITE_ACCEPT_ANY_PAYLOAD_FORMAT_VERSION) :
    CarboniteUnfreezeImage imageData m expected = .ok (nullptr, m) :=
  unfreeze_of_bad_version imageData m expected hlen hmagic hversion hwild

/-- Witness of C2 (Scenario B): the image of Scenario A, of version 1, loaded
with the expected version 2. -/
theorem version_gate_witness :
    versionOf scenarioA = 1 ∧
    CarboniteUnfreezeImage 4096 scenarioA 2 = .ok (nullptr, scenarioA) :=
  ⟨by decide, version_gate 4096 scenarioA 2 (by decide) (by decide) (by decide) (by decide)⟩

/-- C3 as stated fails: `headerOnly` has the correct magic and the expected
version 1, yet the call does not succeed: the relocation reads and writes the
root-table entry at offset 40 of a 40-byte buffer. -/
theorem acceptance_counterexample :
    passesGate headerOnly 1 ∧
    CarboniteUnfreezeImage 4096 headerOnly 1 = .error .outOfBounds ∧
    ¬ ∃ m1, CarboniteUnfreezeImage 4096 headerOnly 1 = .ok (4096, m1) := by
  have h : CarboniteUnfreezeImage 4096 headerOnly 1 = .error .outOfBounds := by decide
  refine ⟨by decide, h, ?_⟩
  rintro ⟨m1, h1⟩
  rw [h] at h1
  cases h1

/-- C3, amended (acceptance): for a valid buffer holding an image with a
proper layout and the correct `Magic`, the call succeeds when
`PayloadFormatVersion` equals the expected version, and for every version when
the wildcard is expected; it then returns the address of the buffer itself,
which is not `nullptr`, and the buffer keeps its length.  For every buffer at
a non-null address that holds the two checked fields, the call returns
`nullptr` if and only if the magic is wrong or the version differs and the
wildcard was not requested. -/
theorem acceptance (imageData : Nat) (m : List Byte) (expected : Nat)
    (hbase : 0 < imageData) (hlen : 8 ≤ m.length) :
    (ValidBuffer imageData m → Layout m → magicOf m = CARBONITE_IMAGE_MAGIC →
      (versionOf m = expected ∨ expected = CARBONITE_ACCEPT_ANY_PAYLOAD_FORMAT_VERSION) →
      ∃ m1, CarboniteUnfreezeImage imageData m expected = .ok (imageData, m1) ∧
        imageData ≠ nullptr ∧ m1.length = m.length) ∧
    ((∃ m1, CarboniteUnfreezeImage imageData m expected = .ok (nullptr, m1)) ↔
      (magicOf m ≠ CARBONITE_IMAGE_MAGIC ∨
        (versionOf m ≠ expected ∧
          expected ≠ CARBONITE_ACCEPT_ANY_PAYLOAD_FORMAT_VERSION))) := by
  constructor
  · intro hV hL hm hv
    refine ⟨relocated imageData m, unfreeze_eq expected hV hL ⟨hm, hv⟩, ?_,
      relocated_length _ _⟩
    unfold nullptr
    omega
  · rw [unfreeze_null_iff _ _ _ hbase hlen, passesGate_iff]

set_option maxRecDepth 100000 in
/-- Witness of C3: Scenario A loaded with its own version and with the
wildcard. -/
theorem acceptance_witness :
    (∃ m1, CarboniteUnfreezeImage 4096 scenarioA 1 = .ok (4096, m1) ∧
      4096 ≠ nullptr ∧ m1.length = scenarioA.length) ∧
    (∃ m1, CarboniteUnfreezeImage 4096 scenarioA
        CARBONITE_ACCEPT_ANY_PAYLOAD_FORMAT_VERSION = .ok (4096, m1) ∧
      4096 ≠ nullptr ∧ m1.length = scenarioA.length) :=
  ⟨(acceptance 4096 scenarioA 1 (by decide) (by decide)).1
      (by decide) (by decide) (by decide) (by decide),
    (acceptance 4096 scenarioA 0 (by decide) (by decide)).1
      (by decide) (by decide) (by decide) (by decide)⟩

/-- C4 as stated fails: in `slotInHeader` the root table lies inside the blob,
after the header, and overlaps neither the pointer table nor the designated
slot; the load succeeds, but the designated slot is the header field
`RootObjectTable.Elements`, which ends as `r + 2 * B` instead of `B + r`. -/
theorem root_table_relocation_counterexample :
    passesGate slotInHeader 1 ∧ RootTableProper slotInHeader ∧
    fieldAfter (CarboniteUnfreezeImage 4096 slotInHeader 1) offRootObjectTableElements
      = .ok (4096, 40 + 2 * 4096) ∧
    (4096 + rootElements slotInHeader) % 2 ^ 64 = 40 + 4096 := by
  decide

/-- C4, amended (root-table relocation): for a valid buffer at address `B`
holding an image that passes the header check and has a proper layout (both
tables and every designated slot inside the blob after the header, the tables
apart from each other and from every slot), the load succeeds and afterwards
`RootObjectTable.Count` is unchanged, `RootObjectTable.Elements` is
`(B + r) mod 2^64`, and `RootObjectTable[i]` is `(B + e_i) mod 2^64` for every
`i < N`, in index order. -/
theorem root_table_relocation (imageData : Nat) (m : List Byte) (expected : Nat)
    (hV : ValidBuffer imageData m) (hL : Layout m) (hg : passesGate m expected) :
    ∃ m1, CarboniteUnfreezeImage imageData m expected = .ok (imageData, m1) ∧
      rootCount m1 = rootCount m ∧
      rootElements m1 = (imageData + rootElements m) % 2 ^ 64 ∧
      ∀ i < rootCount m,
        CarboniteArray_index 8 imageData m1 (imageData + offRootObjectTableCount) i
          = .ok ((imageData + rootEntry m i) % 2 ^ 64) := by
  have h40 := hV.header
  have hfit := hV.fits
  have hel : rootElements (relocated imageData m) = (imageData + rootElements m) % 2 ^ 64 :=
    relocated_rootElements h40 hL
  refine ⟨relocated imageData m, unfreeze_eq expected hV hL hg, ?_, hel, ?_⟩
  · exact header_field_relocated hL 24 8 (by omega) (by omega)
  · intro i hi
    refine index_entry imageData _ offRootObjectTableCount (rootElements m) i _
      (by rw [relocated_length]; exact hfit)
      (by rw [relocated_length]; unfold offRootObjectTableCount; omega) hel
      (by rw [relocated_length]; exact (hL.root_in hi).2) ?_
    rw [Nat.add_comm imageData]
    exact relocated_rootCell hL hi

set_option maxRecDepth 100000 in
/-- Witness of C4: Scenario A loaded at address 4096. -/
theorem root_table_relocation_witness :
    ∃ m1, CarboniteUnfreezeImage 4096 scenarioA 1 = .ok (4096, m1) ∧
      rootCount m1 = rootCount scenarioA ∧
      rootElements m1 = (4096 + rootElements scenarioA) % 2 ^ 64 ∧
      ∀ i < rootCount scenarioA,
        CarboniteArray_index 8 4096 m1 (4096 + offRootObjectTableCount) i
          = .ok ((4096 + rootEntry scenarioA i) % 2 ^ 64) :=
  root_table_relocation 4096 scenarioA 1 (by decide) (by decide) (by decide)

/-- C5 as stated fails: `rootTableInHeader` has an empty pointer table, so the
conditions on the designated slots hold, and the load succeeds; but its root
table lies on the header field `PointerTable.Elements`, which is relocated
twice and ends as `p + 2 * B` instead of `B + p`. -/
theorem pointer_table_relocation_counterexample :
    passesGate rootTableInHeader 1 ∧ SlotsProper rootTableInHeader ∧
    fieldAfter (CarboniteUnfreezeImage 4096 rootTableInHeader 1) offPointerTableElements
      = .ok (4096, 0 + 2 * 4096) ∧
    (4096 + pointerElements rootTableInHeader) % 2 ^ 64 = 0 + 4096 := by
  decide

/-- C5, amended (pointer-table relocation): for a valid buffer at address `B`
holding an image that passes the header check, has a proper layout (both
tables and every designated slot inside the blob after the header, the tables
apart from each other and from every slot) and pairwise non-overlapping
designated slots, the load succeeds and afterwards `PointerTable.Elements` is
`(B + p) mod 2^64`, `PointerTable[j]` is `(B + s_j) mod 2^64`, and the 8 bytes
at that address, the slot at blob offset `s_j`, hold `(B + v_j) mod 2^64`. -/
theorem pointer_table_relocation (imageData : Nat) (m : List Byte) (expected : Nat)
    (hV : ValidBuffer imageData m) (hL : Layout m) (hD : DistinctSlots m)
    (hg : passesGate m expected) :
    ∃ m1, CarboniteUnfreezeImage imageData m expected = .ok (imageData, m1) ∧
      pointerElements m1 = (imageData + pointerElements m) % 2 ^ 64 ∧
      ∀ j < pointerCount m,
        CarboniteArray_index 8 imageData m1 (imageData + offPointerTableCount) j
          = .ok ((imageData + slotOf m j) % 2 ^ 64) ∧
        (imageData + slotOf m j) % 2 ^ 64 = imageData + slotOf m j ∧
        read64 m1 (slotOf m j) = (imageData + slotValue m j) % 2 ^ 64 ∧
        load imageData m1 ((imageData + slotOf m j) % 2 ^ 64) 8
          = .ok ((imageData + slotValue m j) % 2 ^ 64) := by
  have h40 := hV.header
  have hfit := hV.fits
  have hel : pointerElements (relocated imageData m)
      = (imageData + pointerElements m) % 2 ^ 64 :=
    relocated_pointerElements h40 hL
  refine ⟨relocated imageData m, unfreeze_eq expected hV hL hg, hel, ?_⟩
  intro j hj
  have hs := hL.slot_in hj
  have hw : (imageData + slotOf m j) % 2 ^ 64 = imageData + slotOf m j :=
    wrap_lt _ _ _ hfit (by omega)
  have hslot : read64 (relocated imageData m) (slotOf m j)
      = (imageData + slotValue m j) % 2 ^ 64 := by
    rw [Nat.add_comm imageData]
    exact relocated_slot hL hD hj
  refine ⟨?_, hw, hslot, ?_⟩
  · refine index_entry imageData _ offPointerTableCount (pointerElements m) j _
      (by rw [relocated_length]; exact hfit)
      (by rw [relocated_length]; unfold offPointerTableCount; omega) hel
      (by rw [relocated_length]; exact (hL.pointer_in hj).2) ?_
    rw [Nat.add_comm imageData]
    exact relocated_pointerCell hL hj
  · rw [hw, load64_inside _ _ _ (by rw [relocated_length]; exact hs.2), hslot]

set_option maxRecDepth 100000 in
/-- Witness of C5: Scenario A loaded at address 4096. -/
theorem pointer_table_relocation_witness :
    ∃ m1, CarboniteUnfreezeImage 4096 scenarioA 1 = .ok (4096, m1) ∧
      pointerElements m1 = (4096 + pointerElements scenarioA) % 2 ^ 64 ∧
      ∀ j < pointerCount scenarioA,
        CarboniteArray_index 8 4096 m1 (4096 + offPointerTableCount) j
          = .ok ((4096 + slotOf scenarioA j) % 2 ^ 64) ∧
        (4096 + slotOf scenarioA j) % 2 ^ 64 = 4096 + slotOf scenarioA j ∧
        read64 m1 (slotOf scenarioA j) = (4096 + slotValue scenarioA j) % 2 ^ 64 ∧
        load 4096 m1 ((4096 + slotOf scenarioA j) % 2 ^ 64) 8
          = .ok ((4096 + slotValue scenarioA j) % 2 ^ 64) :=
  pointer_table_relocation 4096 scenarioA 1 (by decide) (by decide) (by decide) (by decide)

/-- C6 (frame): a load of a well-formed image succeeds and changes no byte
outside the relocated locations (the two `Elements` fields of the header, the
root-table entries, the pointer-table entries and the designated slots); the
buffer keeps its length, and `Magic`, `PayloadFormatVersion` and both `Count`
fields keep their values. -/
theorem frame (imageData : Nat) (m : List Byte) (expected : Nat)
    (hW : WellFormed imageData m) (hg : passesGate m expected) :
    ∃ m1, CarboniteUnfreezeImage imageData m expected = .ok (imageData, m1) ∧
      m1.length = m.length ∧
      (∀ k, ¬ Relocated m k → m1[k]? = m[k]?) ∧
      magicOf m1 = magicOf m ∧ versionOf m1 = versionOf m ∧
      pointerCount m1 = pointerCount m ∧ rootCount m1 = rootCount m := by
  have hL := hW.layout
  exact ⟨relocated imageData m, unfreeze_eq expected hW.valid hL hg, relocated_length _ _,
    fun k hk => relocated_frame_getElem? imageData m k hk,
    header_field_relocated hL 0 4 (by omega) (by omega),
    header_field_relocated hL 4 4 (by omega) (by omega),
    header_field_relocated hL 8 8 (by omega) (by omega),
    header_field_relocated hL 24 8 (by omega) (by omega)⟩

set_option maxRecDepth 100000 in
/-- Witness of C6 (Scenario A): the bytes of the integers 10 and 20 (offsets
72 and 76) are not relocated and keep their values. -/
theorem frame_witness :
    ∃ m1, CarboniteUnfreezeImage 4096 scenarioA 1 = .ok (4096, m1) ∧
      m1.length = scenarioA.length ∧
      m1[72]? = some 10 ∧ m1[76]? = some 20 ∧
      magicOf m1 = magicOf scenarioA ∧ versionOf m1 = versionOf scenarioA ∧
      pointerCount m1 = pointerCount scenarioA ∧ rootCount m1 = rootCount scenarioA := by
  obtain ⟨m1, h, hlen, hframe, h1, h2, h3, h4⟩ :=
    frame 4096 scenarioA 1 (by decide) (by decide)
  refine ⟨m1, h, hlen, ?_, ?_, h1, h2, h3, h4⟩
  · rw [hframe 72 (by decide)]; rfl
  · rw [hframe 76 (by decide)]; rfl

/-- Scenario A evaluated: after the load the array's `Elements` slot (offset
64) holds the absolute address `4096 + 72`, while the two integers still read
10 and 20. -/
theorem scenarioA_loaded :
    fieldAfter (CarboniteUnfreezeImage 4096 scenarioA 1) 64 = .ok (4096, 4096 + 72) ∧
    (CarboniteUnfreezeImage 4096 scenarioA 1).map (fun x => (read32 x.2 72, read32 x.2 76))
      = .ok (10, 20) := by
  decide

/-- C7 (aliasing and self-reference): after the load of a well-formed image,
two distinct designated slots that stored the same offset hold the same
address; a designated slot at offset `s` that stored `s` holds `B + s`; and
every designated slot holds exactly `B` plus the offset it stored, whichever
object (itself, an ancestor, a shared object) that offset belongs to. -/
theorem aliasing_and_self_reference (imageData : Nat) (m : List Byte) (expected : Nat)
    (hW : WellFormed imageData m) (hg : passesGate m expected) :
    ∃ m1, CarboniteUnfreezeImage imageData m expected = .ok (imageData, m1) ∧
      (∀ j < pointerCount m, ∀ k < pointerCount m, j ≠ k →
        slotValue m j = slotValue m k →
        read64 m1 (slotOf m j) = read64 m1 (slotOf m k)) ∧
      (∀ j < pointerCount m, slotValue m j = slotOf m j →
        read64 m1 (slotOf m j) = imageData + slotOf m j) ∧
      (∀ j < pointerCount m, read64 m1 (slotOf m j) = imageData + slotValue m j) := by
  have hcell : ∀ j < pointerCount m,
      read64 (relocated imageData m) (slotOf m j) = imageData + slotValue m j := by
    intro j hj
    have hmem : slotOf m j ∈ relocatedCells m := by
      unfold relocatedCells
      simp only [List.mem_append]
      exact Or.inr (slotOf_mem hj)
    exact relocated_cell hW hmem
  refine ⟨relocated imageData m, unfreeze_eq expected hW.valid hW.layout hg, ?_, ?_, hcell⟩
  · intro j hj k hk _ hv
    rw [hcell j hj, hcell k hk, hv]
  · intro j hj hv
    rw [hcell j hj, hv]

set_option maxRecDepth 100000 in
/-- Witness of C7: in `aliasedImage` slots 0 and 1 both store the offset 96 and
slot 2, at offset 88, stores 88. -/
theorem aliasing_and_self_reference_witness :
    slotValue aliasedImage 0 = slotValue aliasedImage 1 ∧
    slotOf aliasedImage 2 = 88 ∧ slotValue aliasedImage 2 = 88 ∧
    ∃ m1, CarboniteUnfreezeImage 4096 aliasedImage 1 = .ok (4096, m1) ∧
      read64 m1 (slotOf aliasedImage 0) = read64 m1 (slotOf aliasedImage 1) ∧
      read64 m1 (slotOf aliasedImage 2) = 4096 + slotOf aliasedImage 2 := by
  obtain ⟨m1, h, ha, hs, _⟩ :=
    aliasing_and_self_reference 4096 aliasedImage 1 (by decide) (by decide)
  exact ⟨by decide, by decide, by decide, m1, h,
    ha 0 (by decide) 1 (by decide) (by decide) (by decide),
    hs 2 (by decide) (by decide)⟩

/-- C8 (string null-termination): after the load of a well-formed image, a
frozen string (its `Elements` field designated by the pointer table, a zero
byte stored at offset `Elements + Count`) has its `Count` unchanged, its
`Elements` equal to the absolute address of its characters, and
`Elements[Count] == 0`; when `Count` is 0, `Elements` is a non-null address
inside the buffer that points at a zero byte. -/
theorem string_null_terminated (imageData : Nat) (m : List Byte) (expected a : Nat)
    (hW : WellFormed imageData m) (hg : passesGate m expected) (hS : FrozenString m a) :
    ∃ m1, CarboniteUnfreezeImage imageData m expected = .ok (imageData, m1) ∧
      stringCount m1 a = stringCount m a ∧
      stringElements m1 a = imageData + stringElements m a ∧
      CarboniteArray_index 1 imageData m1 (imageData + a) (stringCount m1 a) = .ok 0 ∧
      (stringCount m a = 0 →
        stringElements m1 a ≠ nullptr ∧ imageData ≤ stringElements m1 a ∧
        stringElements m1 a < imageData + m1.length ∧
        load imageData m1 (stringElements m1 a) 1 = .ok 0) := by
  have hV := hW.valid
  have hL := hW.layout
  have hfit := hV.fits
  have hpos : 0 < imageData := hV.1
  obtain ⟨⟨j, hj, hslot⟩, hcount, hlt, hterm, hzero⟩ := hS
  have hin := hL.slot_in hj
  have hlen := relocated_length imageData m
  have hc : stringCount (relocated imageData m) a = stringCount m a := by
    unfold stringCount read64
    refine leRead_congr _ _ _ _ fun k h1 h2 => relocated_frame imageData m k ?_
    have := hcount (k - a) (by omega)
    rwa [Nat.add_sub_cancel' h1] at this
  have he : stringElements (relocated imageData m) a = imageData + stringElements m a := by
    have h : read64 (relocated imageData m) (slotOf m j)
        = (slotValue m j + imageData) % 2 ^ 64 := relocated_slot hL hW.distinct hj
    unfold slotValue at h
    rw [hslot] at h
    unfold stringElements
    rw [h, Nat.add_comm]
    exact wrap_lt _ _ _ hfit (by unfold stringElements at hlt; omega)
  have hbyte : ∀ q, q = stringElements m a + stringCount m a →
      load imageData (relocated imageData m) (imageData + q) 1 = .ok 0 := by
    intro q hq
    rw [load_inside _ _ _ _ (by rw [hlen]; omega), leRead_one, hq,
      relocated_frame imageData m _ hterm, hzero]
    rfl
  refine ⟨relocated imageData m, unfreeze_eq expected hV hL hg, hc, he, ?_, ?_⟩
  · unfold CarboniteArray_index
    have hl : load imageData (relocated imageData m) (imageData + a + 8) 8
        = .ok (imageData + stringElements m a) := by
      rw [Nat.add_assoc, load64_inside _ _ _ (by rw [hlen]; omega)]
      exact congrArg _ he
    rw [hl, hc]
    simp only [Except.bind, Nat.one_mul]
    rw [Nat.add_assoc, wrap_lt _ _ _ hfit hlt]
    exact hbyte _ rfl
  · intro h0
    rw [he, hlen]
    refine ⟨by unfold nullptr; omega, by omega, by omega, ?_⟩
    exact hbyte _ (by omega)

set_option maxRecDepth 100000 in
/-- Witness of C8: the two strings of `twoStrings`, `"hi"` at offset 56 and the
empty string at offset 72. -/
theorem string_null_terminated_witness :
    stringCount twoStrings 56 = 2 ∧ stringCount twoStrings 72 = 0 ∧
    (∃ m1, CarboniteUnfreezeImage 4096 twoStrings 1 = .ok (4096, m1) ∧
      CarboniteArray_index 1 4096 m1 (4096 + 56) (stringCount m1 56) = .ok 0) ∧
    (∃ m1, CarboniteUnfreezeImage 4096 twoStrings 1 = .ok (4096, m1) ∧
      stringElements m1 72 ≠ nullptr ∧
      load 4096 m1 (stringElements m1 72) 1 = .ok 0) := by
  obtain ⟨m1, h1, _, _, h4, _⟩ :=
    string_null_terminated 4096 twoStrings 1 56 (by decide) (by decide) (by decide)
  obtain ⟨m2, g1, _, _, _, g5⟩ :=
    string_null_terminated 4096 twoStrings 1 72 (by decide) (by decide) (by decide)
  have g := g5 (by decide)
  exact ⟨by decide, by decide, ⟨m1, h1, h4⟩, ⟨m2, g1, g.1, g.2.2.2⟩⟩

/-- C9 (deterministic, position-independent reload): two loads of the same
well-formed image at the addresses `B1` and `B2` both fail, returning
`nullptr` and leaving the bytes alone, or both succeed; when they succeed the
two buffers have the same length, agree on every byte that is not relocated,
and every relocated 8-byte location that stored `v` holds `B1 + v` in one and
`B2 + v` in the other.  For `B1 = B2` the two outcomes are equal. -/
theorem position_independent_reload (B1 B2 : Nat) (m : List Byte) (expected : Nat)
    (h1 : WellFormed B1 m) (h2 : WellFormed B2 m) :
    (¬ passesGate m expected →
      CarboniteUnfreezeImage B1 m expected = .ok (nullptr, m) ∧
      CarboniteUnfreezeImage B2 m expected = .ok (nullptr, m)) ∧
    (passesGate m expected →
      ∃ m1 m2, CarboniteUnfreezeImage B1 m expected = .ok (B1, m1) ∧
        CarboniteUnfreezeImage B2 m expected = .ok (B2, m2) ∧
        m1.length = m2.length ∧
        (∀ k, ¬ Relocated m k → m1[k]? = m2[k]?) ∧
        (∀ c ∈ relocatedCells m,
          read64 m1 c = B1 + read64 m c ∧ read64 m2 c = B2 + read64 m c)) ∧
    (B1 = B2 →
      CarboniteUnfreezeImage B1 m expected = CarboniteUnfreezeImage B2 m expected) := by
  have h40 := h1.valid.header
  refine ⟨?_, ?_, ?_⟩
  · intro hg
    rcases (passesGate_iff m expected).mp hg with h | ⟨ha, hb⟩
    · exact ⟨unfreeze_of_bad_magic _ _ _ (by omega) h,
        unfreeze_of_bad_magic _ _ _ (by omega) h⟩
    · by_cases h3 : magicOf m = CARBONITE_IMAGE_MAGIC
      · exact ⟨unfreeze_of_bad_version _ _ _ (by omega) h3 ha hb,
          unfreeze_of_bad_version _ _ _ (by omega) h3 ha hb⟩
      · exact ⟨unfreeze_of_bad_magic _ _ _ (by omega) h3,
          unfreeze_of_bad_magic _ _ _ (by omega) h3⟩
  · intro hg
    refine ⟨relocated B1 m, relocated B2 m, unfreeze_eq expected h1.valid h1.layout hg,
      unfreeze_eq expected h2.valid h2.layout hg, ?_, ?_, ?_⟩
    · rw [relocated_length, relocated_length]
    · intro k hk
      rw [relocated_frame_getElem? B1 m k hk, relocated_frame_getElem? B2 m k hk]
    · intro c hc
      exact ⟨relocated_cell h1 hc, relocated_cell h2 hc⟩
  · intro hB
    rw [hB]

set_option maxRecDepth 100000 in
/-- Witness of C9: Scenario A loaded at the addresses 4096 and 65536. -/
theorem position_independent_reload_witness :
    passesGate scenarioA 1 ∧
    ∃ m1 m2, CarboniteUnfreezeImage 4096 scenarioA 1 = .ok (4096, m1) ∧
      CarboniteUnfreezeImage 65536 scenarioA 1 = .ok (65536, m2) ∧
      m1.length = m2.length ∧
      (∀ k, ¬ Relocated scenarioA k → m1[k]? = m2[k]?) ∧
      (∀ c ∈ relocatedCells scenarioA,
        read64 m1 c = 4096 + read64 scenarioA c ∧ read64 m2 c = 65536 + read64 scenarioA c) :=
  ⟨by decide, (position_independent_reload 4096 65536 scenarioA 1
    (by decide) (by decide)).2.1 (by decide)⟩

/-- C10 (magic tag bytes): the little-endian encoding of
`CARBONITE_IMAGE_MAGIC` in 32 bits is `'C','R','B','N'` (0x43, 0x52, 0x42,
0x4E), and the loader reads `Magic` equal to it exactly from the buffers whose
first four bytes are `"CRBN"`. -/
theorem magic_is_CRBN :
    leBytes 4 CARBONITE_IMAGE_MAGIC = [0x43, 0x52, 0x42, 0x4E] ∧
    CARBONITE_IMAGE_MAGIC < 2 ^ 32 ∧
    ∀ (imageData : Nat) (m : List Byte),
      load imageData m (imageData + offMagic) 4 = .ok CARBONITE_IMAGE_MAGIC ↔
        m.take 4 = [0x43, 0x52, 0x42, 0x4E] := by
  refine ⟨by decide, by decide, ?_⟩
  intro imageData m
  match m with
  | [] => simp [load, offMagic]
  | [_] => simp [load, offMagic]
  | [_, _] => simp [load, offMagic]
  | [_, _, _] => simp [load, offMagic]
  | a :: b :: c :: d :: rest =>
    have hl := load_inside imageData (a :: b :: c :: d :: rest) 0 4 (by simp)
    rw [offMagic, hl]
    simp only [leRead, List.getD_cons_zero, List.getD_cons_succ, List.take, Except.ok.injEq,
      CARBONITE_IMAGE_MAGIC]
    have ha := a.isLt
    have hb := b.isLt
    have hc := c.isLt
    have hd := d.isLt
    constructor
    · intro h
      have h1 : a = (0x43 : Byte) := Fin.ext (show a.val = 0x43 by omega)
      have h2 : b = (0x52 : Byte) := Fin.ext (show b.val = 0x52 by omega)
      have h3 : c = (0x42 : Byte) := Fin.ext (show c.val = 0x42 by omega)
      have h4 : d = (0x4E : Byte) := Fin.ext (show d.val = 0x4E by omega)
      rw [h1, h2, h3, h4]
    · intro h
      simp only [List.cons.injEq, and_true] at h
      obtain ⟨h1, h2, h3, h4⟩ := h
      subst h1 h2 h3 h4
      rfl

/-! ## The log of stores -/

theorem relocateEntriesLog_erase (imageData countAddr entries : Nat) :
    ∀ (fuel i : Nat) (m : List Byte) (w : List Nat),
      (relocateEntriesLog imageData countAddr entries fuel i m w).map Prod.fst
        = relocateEntries imageData countAddr entries fuel i m := by
  intro fuel
  induction fuel with
  | zero => intro i m w; rfl
  | succ f ih =>
    intro i m w
    unfold relocateEntriesLog relocateEntries
    cases load imageData m countAddr 8 with
    | error e => rfl
    | ok count =>
      simp only [Except.bind]
      split
      · cases load imageData m ((entries + 8 * i) % 2 ^ 64) 8 with
        | error e => rfl
        | ok v =>
          simp only [Except.bind]
          cases store imageData m ((entries + 8 * i) % 2 ^ 64) 8 ((v + imageData) % 2 ^ 64) with
          | error e => rfl
          | ok m1 => exact ih _ _ _
      · rfl

theorem relocateSlotsLog_erase (imageData : Nat) :
    ∀ (fuel i : Nat) (m : List Byte) (w : List Nat),
      (relocateSlotsLog imageData fuel i m w).map Prod.fst
        = relocateSlots imageData fuel i m := by
  intro fuel
  induction fuel with
  | zero => intro i m w; rfl
  | succ f ih =>
    intro i m w
    unfold relocateSlotsLog relocateSlots
    cases load imageData m (imageData + offPointerTableCount) 8 with
    | error e => rfl
    | ok count =>
      simp only [Except.bind]
      split
      · cases load imageData m (imageData + offPointerTableElements) 8 with
        | error e => rfl
        | ok elements =>
          simp only [Except.bind]
          cases load imageData m ((elements + 8 * i) % 2 ^ 64) 8 with
          | error e => rfl
          | ok pointer =>
            simp only [Except.bind]
            cases load imageData m pointer 8 with
            | error e => rfl
            | ok v =>
              simp only [Except.bind]
              cases store imageData m pointer 8 ((v + imageData) % 2 ^ 64) with
              | error e => rfl
              | ok m1 => exact ih _ _ _
      · rfl

theorem map_bind_fst {α β : Type} (x : Except Fault (α × List Nat))
    (y : Except Fault α) (f : α × List Nat → Except Fault (β × List Nat))
    (g : α → Except Fault β) (hx : x.map Prod.fst = y)
    (hf : ∀ s, (f s).map Prod.fst = g s.1) :
    (x.bind f).map Prod.fst = y.bind g := by
  cases x with
  | error e => rw [← hx]; rfl
  | ok s => rw [← hx]; exact hf s

theorem relocateLog_erase (imageData : Nat) (m : List Byte) :
    (relocateLog imageData m).map Prod.fst = relocate imageData m := by
  unfold relocateLog relocate
  cases load imageData m (imageData + offRootObjectTableElements) 8 with
  | error e => rfl
  | ok r =>
    simp only [Except.bind]
    cases store imageData m (imageData + offRootObjectTableElements) 8
        ((imageData + r) % 2 ^ 64) with
    | error e => rfl
    | ok m1 =>
      simp only [Except.bind]
      cases load imageData m1 (imageData + offRootObjectTableElements) 8 with
      | error e => rfl
      | ok rootObjects =>
        refine map_bind_fst _ _ _ _ (relocateEntriesLog_erase _ _ _ _ _ _ _) fun s2 => ?_
        cases load imageData s2.1 (imageData + offPointerTableElements) 8 with
        | error e => rfl
        | ok p =>
          simp only [Except.bind]
          cases store imageData s2.1 (imageData + offPointerTableElements) 8
              ((imageData + p) % 2 ^ 64) with
          | error e => rfl
          | ok m3 =>
            simp only [Except.bind]
            cases load imageData m3 (imageData + offPointerTableElements) 8 with
            | error e => rfl
            | ok pointers =>
              refine map_bind_fst _ _ _ _ (relocateEntriesLog_erase _ _ _ _ _ _ _) fun s4 => ?_
              exact relocateSlotsLog_erase _ _ _ _ _

/-- Dropping the log from the logging loader gives the loader: the two are the
same program. -/
theorem unfreezeLog_erase (imageData : Nat) (m : List Byte) (expected : Nat) :
    (CarboniteUnfreezeImageLog imageData m expected).map (fun x => (x.1, x.2.1))
      = CarboniteUnfreezeImage imageData m expected := by
  unfold CarboniteUnfreezeImageLog CarboniteUnfreezeImage
  cases load imageData m (imageData + offMagic) 4 with
  | error e => rfl
  | ok magic =>
    simp only [Except.bind]
    split
    · rfl
    · cases load imageData m (imageData + offPayloadFormatVersion) 4 with
      | error e => rfl
      | ok version =>
        simp only [Except.bind]
        split
        · rfl
        · rw [← relocateLog_erase]
          cases relocateLog imageData m with
          | error e => rfl
          | ok s => rfl

theorem relocateEntriesLog_eq (imageData cOff entries t n : Nat)
    (hc : cOff + 8 ≤ sizeofCarboniteImage)
    (haddr : ∀ k < n, (entries + 8 * k) % 2 ^ 64 = imageData + (t + 8 * k)) :
    ∀ (d i : Nat) (m : List Byte) (w : List Nat) (fuel : Nat), i + d = n → d < fuel →
      sizeofCarboniteImage ≤ m.length → read64 m cOff = n →
      (∀ k < n, InBody m (t + 8 * k)) →
      relocateEntriesLog imageData (imageData + cOff) entries fuel i m w
        = .ok (relocCells imageData ((List.range' i d).map fun k => t + 8 * k) m,
            w ++ (List.range' i d).map fun k => imageData + (t + 8 * k)) := by
  intro d
  induction d with
  | zero =>
    intro i m w fuel hi hf hlen hcnt hin
    obtain ⟨f, rfl⟩ : ∃ f, fuel = f + 1 := ⟨fuel - 1, by omega⟩
    have hl := load64_inside imageData m cOff (by omega)
    simp only [relocateEntriesLog, hl, Except.bind, hcnt]
    rw [if_neg (by omega)]
    simp [relocCells_nil]
  | succ d ih =>
    intro i m w fuel hi hf hlen hcnt hin
    obtain ⟨f, rfl⟩ : ∃ f, fuel = f + 1 := ⟨fuel - 1, by omega⟩
    have hl := load64_inside imageData m cOff (by omega)
    have hi' : i < n := by omega
    have hbody := hin i hi'
    have hl2 := load64_inside imageData m (t + 8 * i) hbody.2
    have hs := store64_reloc imageData m (t + 8 * i) hbody.2
    simp only [relocateEntriesLog, hl, Except.bind, hcnt]
    rw [if_pos hi', haddr i hi']
    simp only [hl2, hs]
    rw [ih (i + 1) _ _ f (by omega) (by omega) (by rw [relocCell_length]; exact hlen)
      (by rw [relocCell_read64_header _ _ _ _ hc hbody.1]; exact hcnt)
      (fun k hk => by
        have := hin k hk
        unfold InBody at this ⊢
        rw [relocCell_length]; exact this)]
    rw [List.range'_succ, List.map_cons, List.map_cons, relocCells_cons, List.append_assoc,
      List.singleton_append]

theorem relocateSlotsLog_eq (imageData elements p n : Nat) (s : Nat → Nat)
    (haddr : ∀ k < n, (elements + 8 * k) % 2 ^ 64 = imageData + (p + 8 * k))
    (hslot : ∀ k < n, sizeofCarboniteImage ≤ s k)
    (hapart : ∀ j < n, ∀ k < n, Apart (p + 8 * j) (s k)) :
    ∀ (d i : Nat) (m : List Byte) (w : List Nat) (fuel : Nat), i + d = n → d < fuel →
      sizeofCarboniteImage ≤ m.length →
      read64 m offPointerTableCount = n → read64 m offPointerTableElements = elements →
      (∀ k < n, p + 8 * k + 8 ≤ m.length) → (∀ k < n, s k + 8 ≤ m.length) →
      (∀ k < n, read64 m (p + 8 * k) = imageData + s k) →
      relocateSlotsLog imageData fuel i m w
        = .ok (relocCells imageData ((List.range' i d).map s) m,
            w ++ (List.range' i d).map fun k => imageData + s k) := by
  intro d
  induction d with
  | zero =>
    intro i m w fuel hi hf hlen hcnt hel hpin hsin hent
    obtain ⟨f, rfl⟩ : ∃ f, fuel = f + 1 := ⟨fuel - 1, by omega⟩
    have hl := load64_inside imageData m offPointerTableCount
      (by unfold offPointerTableCount; unfold sizeofCarboniteImage at hlen; omega)
    simp only [relocateSlotsLog, hl, Except.bind, hcnt]
    rw [if_neg (by omega)]
    simp [relocCells_nil]
  | succ d ih =>
    intro i m w fuel hi hf hlen hcnt hel hpin hsin hent
    obtain ⟨f, rfl⟩ : ∃ f, fuel = f + 1 := ⟨fuel - 1, by omega⟩
    have hi' : i < n := by omega
    have h40 : sizeofCarboniteImage = 40 := rfl
    have hl := load64_inside imageData m offPointerTableCount
      (by unfold offPointerTableCount; omega)
    have hl1 := load64_inside imageData m offPointerTableElements
      (by unfold offPointerTableElements; omega)
    have hl2 := load64_inside imageData m (p + 8 * i) (hpin i hi')
    have hl3 := load64_inside imageData m (s i) (hsin i hi')
    have hs := store64_reloc imageData m (s i) (hsin i hi')
    simp only [relocateSlotsLog, hl, Except.bind, hcnt]
    rw [if_pos hi']
    simp only [hl1, hel, haddr i hi', hl2, hent i hi', hl3, hs]
    rw [ih (i + 1) _ _ f (by omega) (by omega) (by rw [relocCell_length]; exact hlen)
      (by rw [relocCell_read64_header _ _ _ _ (by decide) (hslot i hi')]; exact hcnt)
      (by rw [relocCell_read64_header _ _ _ _ (by decide) (hslot i hi')]; exact hel)
      (fun k hk => by rw [relocCell_length]; exact hpin k hk)
      (fun k hk => by rw [relocCell_length]; exact hsin k hk)
      (fun k hk => by
        have ha := hapart k hk i hi'
        have : read64 (relocCell imageData m (s i)) (p + 8 * k) = read64 m (p + 8 * k) :=
          relocCell_leRead_disjoint _ _ _ _ _ (by unfold Apart at ha; omega)
        rw [this]; exact hent k hk)]
    rw [List.range'_succ, List.map_cons, List.map_cons, relocCells_cons, List.append_assoc,
      List.singleton_append]
/-- With a valid buffer and a proper layout, the logging relocation produces
`relocated` and the log `storesOf`. -/
theorem relocateLog_eq {imageData : Nat} {m : List Byte} (hV : ValidBuffer imageData m)
    (hL : Layout m) :
    relocateLog imageData m = .ok (relocated imageData m, storesOf imageData m) := by
  have h40 := hV.header
  have hfit := hV.fits
  have e1 : load imageData m (imageData + offRootObjectTableElements) 8
      = .ok (rootElements m) :=
    load64_inside _ _ _ (by unfold offRootObjectTableElements; omega)
  have e2 : store imageData m (imageData + offRootObjectTableElements) 8
      ((imageData + rootElements m) % 2 ^ 64) = .ok (stage1 imageData m) :=
    store_inside _ _ _ _ _ (by unfold offRootObjectTableElements; omega)
  have e3 : load imageData (stage1 imageData m) (imageData + offRootObjectTableElements) 8
      = .ok ((imageData + rootElements m) % 2 ^ 64) := by
    rw [load64_inside _ _ _ (by rw [stage1_length]; unfold offRootObjectTableElements; omega),
      stage1_rootElements _ _ h40]
  have e4 : ∀ w, relocateEntriesLog imageData (imageData + offRootObjectTableCount)
      ((imageData + rootElements m) % 2 ^ 64) (2 ^ 64) 0 (stage1 imageData m) w
      = .ok (stage2 imageData m, w ++ (rootCells m).map (imageData + ·)) := by
    intro w
    have hcount : read64 (stage1 imageData m) offRootObjectTableCount = rootCount m :=
      peel_rootElements _ _ _ _ (by unfold offRootObjectTableCount; omega)
    have h := relocateEntriesLog_eq imageData offRootObjectTableCount _ (rootElements m)
      (rootCount m) (by decide)
      (fun k hk => wrap_add _ _ _ _ hfit (hL.root_in hk).2)
      (rootCount m) 0 (stage1 imageData m) w (2 ^ 64) (by omega) (read64_lt _ _)
      (by rw [stage1_length]; exact h40) hcount
      (fun k hk => by
        have := hL.root_in hk
        unfold InBody
        rw [stage1_length]; exact this)
    rw [h]
    unfold rootCells stage2 rootCells
    rw [List.map_map]
    rfl
  have e5 : load imageData (stage2 imageData m) (imageData + offPointerTableElements) 8
      = .ok (pointerElements m) := by
    rw [load64_inside _ _ _ (by rw [stage2_length]; unfold offPointerTableElements; omega),
      stage2_pointerElements hL]
  have e6 : store imageData (stage2 imageData m) (imageData + offPointerTableElements) 8
      ((imageData + pointerElements m) % 2 ^ 64) = .ok (stage3 imageData m) :=
    store_inside _ _ _ _ _ (by rw [stage2_length]; unfold offPointerTableElements; omega)
  have e7 : load imageData (stage3 imageData m) (imageData + offPointerTableElements) 8
      = .ok ((imageData + pointerElements m) % 2 ^ 64) := by
    rw [load64_inside _ _ _ (by rw [stage3_length]; unfold offPointerTableElements; omega),
      stage3_pointerElements _ _ h40]
  have hcount3 : read64 (stage3 imageData m) offPointerTableCount = pointerCount m := by
    unfold read64 pointerCount read64 offPointerTableCount
    rw [peel_pointerElements _ _ _ _ (by omega),
      peel_roots _ _ _ _ (fun i hi => by have := hL.root_in hi; omega),
      peel_rootElements _ _ _ _ (by omega)]
  have e8 : ∀ w, relocateEntriesLog imageData (imageData + offPointerTableCount)
      ((imageData + pointerElements m) % 2 ^ 64) (2 ^ 64) 0 (stage3 imageData m) w
      = .ok (stage4 imageData m, w ++ (pointerCells m).map (imageData + ·)) := by
    intro w
    have h := relocateEntriesLog_eq imageData offPointerTableCount _ (pointerElements m)
      (pointerCount m) (by decide)
      (fun k hk => wrap_add _ _ _ _ hfit (hL.pointer_in hk).2)
      (pointerCount m) 0 (stage3 imageData m) w (2 ^ 64) (by omega) (read64_lt _ _)
      (by rw [stage3_length]; exact h40) hcount3
      (fun k hk => by
        have := hL.pointer_in hk
        unfold InBody
        rw [stage3_length]; exact this)
    rw [h]
    unfold pointerCells stage4 pointerCells
    rw [List.map_map]
    rfl
  have e9 : ∀ w, relocateSlotsLog imageData (2 ^ 64) 0 (stage4 imageData m) w
      = .ok (relocated imageData m, w ++ (slotCells m).map (imageData + ·)) := by
    intro w
    have h := relocateSlotsLog_eq imageData ((imageData + pointerElements m) % 2 ^ 64)
      (pointerElements m) (pointerCount m) (slotOf m)
      (fun k hk => wrap_add _ _ _ _ hfit (hL.pointer_in hk).2)
      (fun k hk => (hL.slot_in hk).1)
      (fun j hj k hk => hL.pointer_slot hj hk)
      (pointerCount m) 0 (stage4 imageData m) w (2 ^ 64) (by omega) (read64_lt _ _)
      (by rw [stage4_length]; exact h40)
      (by
        have : leRead (stage4 imageData m) 8 8 = leRead m 8 8 :=
          header_field_stage4 hL 8 8 (by omega) (by omega)
        exact this)
      (by
        have h := stage3_pointerElements imageData m h40
        have hp : read64 (stage4 imageData m) offPointerTableElements
            = read64 (stage3 imageData m) offPointerTableElements :=
          peel_pointers _ _ _ _ (fun j hj => by
            have := hL.pointer_in hj; unfold offPointerTableElements; omega)
        rw [hp, h])
      (fun k hk => by rw [stage4_length]; exact (hL.pointer_in hk).2)
      (fun k hk => by rw [stage4_length]; exact (hL.slot_in hk).2)
      (fun k hk => by
        have : read64 (stage4 imageData m) (pointerCell m k)
            = (slotOf m k + imageData) % 2 ^ 64 := stage4_pointerCell hL hk
        rw [wrap_base _ _ _ hfit (hL.slot_in hk).2] at this
        exact this)
    rw [h]
    unfold slotCells relocated slotCells
    rw [List.map_map]
    rfl
  unfold relocateLog
  simp only [e1, e2, e3, e4, e5, e6, e7, e8, e9, Except.bind]
  unfold storesOf
  simp only [List.append_assoc]

/-- What the logging loader returns on an image with a proper layout that
passes the header check. -/
theorem unfreezeLog_eq {imageData : Nat} {m : List Byte} (expected : Nat)
    (hV : ValidBuffer imageData m) (hL : Layout m) (hg : passesGate m expected) :
    CarboniteUnfreezeImageLog imageData m expected
      = .ok (imageData, relocated imageData m, storesOf imageData m) := by
  have h40 := hV.header
  obtain ⟨hm, hv⟩ := hg
  unfold CarboniteUnfreezeImageLog
  rw [load_magic _ _ (by omega), load_version _ _ (by omega)]
  simp only [Except.bind]
  rw [if_neg (by simp [hm]), if_neg (by
    intro h
    rcases hv with hv | hv
    · exact h.1 hv
    · exact h.2 hv)]
  rw [relocateLog_eq hV hL]
/-! ## Encoded fields -/

theorem leBytes_length (n v : Nat) : (leBytes n v).length = n := by
  induction n generalizing v with
  | zero => rfl
  | succ n ih => simp [leBytes, ih]

theorem leRead_append_right (pre m : List Byte) (off n : Nat) :
    leRead (pre ++ m) (pre.length + off) n = leRead m off n := by
  induction n generalizing off with
  | zero => rfl
  | succ n ih =>
    simp only [leRead]
    rw [Nat.add_assoc, ih (off + 1), List.getD_eq_getElem?_getD, List.getD_eq_getElem?_getD,
      List.getElem?_append_right (by omega), Nat.add_sub_cancel_left]

theorem leRead_leBytes (n v : Nat) (rest : List Byte) :
    leRead (leBytes n v ++ rest) 0 n = v % 256 ^ n := by
  induction n generalizing v with
  | zero => simp [leRead, Nat.mod_one]
  | succ n ih =>
    simp only [leRead, leBytes, List.cons_append, List.getD_cons_zero]
    have h := leRead_append_right [(⟨v % 256, Nat.mod_lt v (by decide)⟩ : Byte)]
      (leBytes n (v / 256) ++ rest) 0 n
    simp only [List.singleton_append, List.length_singleton] at h
    rw [h, ih, pow_succ, mul_comm (256 ^ n) 256, Nat.mod_mul]

/-- Reading a field that was encoded after the prefix `pre`. -/
theorem leRead_field (pre rest : List Byte) (n v off : Nat) (h : off = pre.length) :
    leRead (pre ++ (leBytes n v ++ rest)) off n = v % 256 ^ n := by
  have := leRead_append_right pre (leBytes n v ++ rest) 0 n
  rw [Nat.add_zero] at this
  rw [h, this, leRead_leBytes]

theorem headerBytes_length (a b c d e f : Nat) : (headerBytes a b c d e f).length = 40 := by
  simp [headerBytes, leBytes_length]

theorem take_getD (m : List Byte) (n k : Nat) (h : k < n) :
    (m.take n).getD k 0 = m.getD k 0 := by
  rw [List.getD_eq_getElem?_getD, List.getD_eq_getElem?_getD, List.getElem?_take_of_lt h]

theorem magicOf_take (m : List Byte) : magicOf (m.take 4) = magicOf m :=
  leRead_congr _ _ _ _ fun k _ h2 => take_getD m 4 k (by unfold offMagic at h2; omega)

theorem magicOf_congr (m1 m2 : List Byte) (h : m1.take 4 = m2.take 4) :
    magicOf m1 = magicOf m2 := by
  rw [← magicOf_take m1, ← magicOf_take m2, h]

/-! ## Claims on the header -/

/-- C11 (header wire layout): laid out in declaration order with 64-bit
counts and pointers, the fields of `CarboniteImage` lie at the offsets the
loader uses: `Magic` at 0, `PayloadFormatVersion` at 4, `PointerTable.Count`
at 8, `PointerTable.Elements` at 16, `RootObjectTable.Count` at 24,
`RootObjectTable.Elements` at 32, in a header of 40 bytes; and on a buffer
that starts with these six fields encoded in this order, little-endian, the
header reads of the loader return them. -/
theorem header_wire_layout :
    fieldOffsets 0 CarboniteArray_fields = [0, 8] ∧
    fieldOffsets 0 CarboniteImage_fields
      = [offMagic, offPayloadFormatVersion, offPointerTableCount, offRootObjectTableCount] ∧
    offPointerTableElements = offPointerTableCount + 8 ∧
    offRootObjectTableElements = offRootObjectTableCount + 8 ∧
    (structOf CarboniteImage_fields).size = sizeofCarboniteImage ∧
    [offMagic, offPayloadFormatVersion, offPointerTableCount, offPointerTableElements,
      offRootObjectTableCount, offRootObjectTableElements, sizeofCarboniteImage]
      = [0, 4, 8, 16, 24, 32, 40] ∧
    ∀ (imageData magic version pc pe rc re : Nat) (rest : List Byte),
      load imageData (headerBytes magic version pc pe rc re ++ rest) (imageData + offMagic) 4
        = .ok (magic % 2 ^ 32) ∧
      load imageData (headerBytes magic version pc pe rc re ++ rest)
        (imageData + offPayloadFormatVersion) 4 = .ok (version % 2 ^ 32) ∧
      load imageData (headerBytes magic version pc pe rc re ++ rest)
        (imageData + offPointerTableCount) 8 = .ok (pc % 2 ^ 64) ∧
      load imageData (headerBytes magic version pc pe rc re ++ rest)
        (imageData + offPointerTableElements) 8 = .ok (pe % 2 ^ 64) ∧
      load imageData (headerBytes magic version pc pe rc re ++ rest)
        (imageData + offRootObjectTableCount) 8 = .ok (rc % 2 ^ 64) ∧
      load imageData (headerBytes magic version pc pe rc re ++ rest)
        (imageData + offRootObjectTableElements) 8 = .ok (re % 2 ^ 64) := by
  refine ⟨by decide, by decide, by decide, by decide, by decide, by decide, ?_⟩
  intro imageData magic version pc pe rc re rest
  have hlen : (headerBytes magic version pc pe rc re ++ rest).length = 40 + rest.length := by
    rw [List.length_append, headerBytes_length]
  have h32 : (256 : Nat) ^ 4 = 2 ^ 32 := by norm_num
  refine ⟨?_, ?_, ?_, ?_, ?_, ?_⟩
  · rw [load_inside _ _ _ _ (by rw [hlen]; unfold offMagic; omega), ← h32]
    unfold headerBytes
    simp only [List.append_assoc]
    exact congrArg _ (leRead_field [] _ 4 magic _ rfl)
  · rw [load_inside _ _ _ _ (by rw [hlen]; unfold offPayloadFormatVersion; omega), ← h32]
    unfold headerBytes
    simp only [List.append_assoc]
    exact congrArg _ (leRead_field _ _ 4 version _ (by simp [leBytes_length]; rfl))
  · rw [load_inside _ _ _ _ (by rw [hlen]; unfold offPointerTableCount; omega), ← two_pow_64]
    unfold headerBytes
    simp only [List.append_assoc]
    rw [← List.append_assoc (leBytes 4 magic)]
    exact congrArg _ (leRead_field _ _ 8 pc _ (by simp [leBytes_length]; rfl))
  · rw [load_inside _ _ _ _ (by rw [hlen]; unfold offPointerTableElements; omega),
      ← two_pow_64]
    unfold headerBytes
    simp only [List.append_assoc]
    rw [← List.append_assoc (leBytes 4 magic), ← List.append_assoc (leBytes 4 magic ++ _)]
    exact congrArg _ (leRead_field _ _ 8 pe _ (by simp [leBytes_length]; rfl))
  · rw [load_inside _ _ _ _ (by rw [hlen]; unfold offRootObjectTableCount; omega),
      ← two_pow_64]
    unfold headerBytes
    simp only [List.append_assoc]
    rw [← List.append_assoc (leBytes 4 magic), ← List.append_assoc (leBytes 4 magic ++ _),
      ← List.append_assoc (leBytes 4 magic ++ _ ++ _)]
    exact congrArg _ (leRead_field _ _ 8 rc _ (by simp [leBytes_length]; rfl))
  · rw [load_inside _ _ _ _ (by rw [hlen]; unfold offRootObjectTableElements; omega),
      ← two_pow_64]
    unfold headerBytes
    simp only [List.append_assoc]
    rw [← List.append_assoc (leBytes 4 magic), ← List.append_assoc (leBytes 4 magic ++ _),
      ← List.append_assoc (leBytes 4 magic ++ _ ++ _),
      ← List.append_assoc (leBytes 4 magic ++ _ ++ _ ++ _)]
    exact congrArg _ (leRead_field _ _ 8 re _ (by simp [leBytes_length]; rfl))
theorem storesOf_inside {imageData : Nat} {m : List Byte} (hV : ValidBuffer imageData m)
    (hL : Layout m) {a : Nat} (ha : a ∈ storesOf imageData m) :
    imageData ≤ a ∧ a + 8 ≤ imageData + m.length := by
  have h40 := hV.header
  unfold storesOf at ha
  simp only [List.mem_append, List.mem_cons, List.not_mem_nil, or_false, List.mem_map] at ha
  rcases ha with (((ha | ⟨c, hc, ha⟩) | ha) | ⟨c, hc, ha⟩) | ⟨c, hc, ha⟩
  · rw [ha]; unfold offRootObjectTableElements; omega
  · obtain ⟨i, hi, hci⟩ := mem_rootCells hc
    have := hL.root_in hi
    rw [← ha, hci]; omega
  · rw [ha]; unfold offPointerTableElements; omega
  · obtain ⟨j, hj, hcj⟩ := mem_pointerCells hc
    have := hL.pointer_in hj
    rw [← ha, hcj]; omega
  · obtain ⟨j, hj, hcj⟩ := mem_slotCells hc
    have := hL.slot_in hj
    rw [← ha, hcj]; omega

theorem rootCells_length (m : List Byte) : (rootCells m).length = rootCount m := by
  simp [rootCells]

theorem pointerCells_length (m : List Byte) : (pointerCells m).length = pointerCount m := by
  simp [pointerCells]

theorem slotCells_length (m : List Byte) : (slotCells m).length = pointerCount m := by
  simp [slotCells]

theorem storesOf_length (imageData : Nat) (m : List Byte) :
    (storesOf imageData m).length = 2 + rootCount m + 2 * pointerCount m := by
  simp only [storesOf, List.length_append, List.length_map, rootCells_length,
    pointerCells_length, slotCells_length, List.length_singleton]
  omega

/-- With an empty root table whose stored `Elements` is the zero sentinel, the
load leaves `RootObjectTable.Elements` equal to the base address, not to
`nullptr`. -/
theorem empty_rootTable_elements {imageData : Nat} {m : List Byte} (expected : Nat)
    (hV : ValidBuffer imageData m) (hL : Layout m) (hg : passesGate m expected)
    (hr : rootElements m = 0) :
    CarboniteUnfreezeImage imageData m expected = .ok (imageData, relocated imageData m) ∧
    rootElements (relocated imageData m) = imageData ∧ imageData ≠ nullptr := by
  have hfit := hV.fits
  have hpos : 0 < imageData := hV.1
  refine ⟨unfreeze_eq expected hV hL hg, ?_, by unfold nullptr; omega⟩
  have h : rootElements (relocated imageData m) = (imageData + rootElements m) % 2 ^ 64 :=
    relocated_rootElements hV.header hL
  rw [h, hr]
  exact wrap_lt imageData 0 m.length hfit (by have := hV.header; omega)

/-! ## Claims on the bounds of the accesses -/

/-- C12 fails on the code: `emptyTables` has both `Count` fields 0 and both
stored `Elements` equal to the zero sentinel; loaded at address 4096, both
`Elements` fields hold 4096, the address of the buffer, not `nullptr`. -/
theorem empty_table_not_null :
    passesGate emptyTables 1 ∧
    rootCount emptyTables = 0 ∧ rootElements emptyTables = 0 ∧
    pointerCount emptyTables = 0 ∧ pointerElements emptyTables = 0 ∧
    fieldAfter (CarboniteUnfreezeImage 4096 emptyTables 1) offRootObjectTableElements
      = .ok (4096, 4096) ∧
    fieldAfter (CarboniteUnfreezeImage 4096 emptyTables 1) offPointerTableElements
      = .ok (4096, 4096) ∧
    4096 ≠ nullptr := by
  decide

/-- C13 as stated fails: in `sharedTable` every stored offset (both table
offsets, the root entry, the pointer-table entry, the value of the designated
slot) is smaller than the length 56, and the header check passes; the entry
at offset 40 belongs to both tables and is relocated twice, so the slot loop
accesses the address `48 + 2 * 4096`, outside the buffer. -/
theorem writes_inside_blob_counterexample :
    sharedTable.length = 56 ∧ OffsetsInBlob sharedTable ∧ passesGate sharedTable 1 ∧
    CarboniteUnfreezeImage 4096 sharedTable 1 = .error .outOfBounds ∧
    CarboniteUnfreezeImageLog 4096 sharedTable 1 = .error .outOfBounds := by
  decide

/-- A second image on which C13 as stated fails: in `straddlingSlot` every
stored offset is smaller than the length 52, but the designated slot at offset
48 ends past the end of the blob. -/
theorem straddlingSlot_outOfBounds :
    straddlingSlot.length = 52 ∧ OffsetsInBlob straddlingSlot ∧
    passesGate straddlingSlot 1 ∧
    CarboniteUnfreezeImage 4096 straddlingSlot 1 = .error .outOfBounds := by
  decide

/-- C13, amended (writes stay inside the blob): for a valid buffer of length
`L` at address `B` holding an image that passes the header check and has a
proper layout (every entry of both tables and every designated slot wholly
inside the blob after the header, the tables apart from each other and from
every slot), the load returns and every 8-byte store it performs lies inside
`[B, B + L)`, that is at blob offsets in `[0, L)`. -/
theorem writes_inside_blob (imageData : Nat) (m : List Byte) (expected : Nat)
    (hV : ValidBuffer imageData m) (hL : Layout m) (hg : passesGate m expected) :
    ∃ m1 w, CarboniteUnfreezeImageLog imageData m expected = .ok (imageData, m1, w) ∧
      CarboniteUnfreezeImage imageData m expected = .ok (imageData, m1) ∧
      m1.length = m.length ∧
      ∀ a ∈ w, imageData ≤ a ∧ a + 8 ≤ imageData + m.length :=
  ⟨relocated imageData m, storesOf imageData m, unfreezeLog_eq expected hV hL hg,
    unfreeze_eq expected hV hL hg, relocated_length _ _, fun _ ha => storesOf_inside hV hL ha⟩

set_option maxRecDepth 100000 in
/-- Witness of C13: Scenario A loaded at address 4096. -/
theorem writes_inside_blob_witness :
    ∃ m1 w, CarboniteUnfreezeImageLog 4096 scenarioA 1 = .ok (4096, m1, w) ∧
      CarboniteUnfreezeImage 4096 scenarioA 1 = .ok (4096, m1) ∧
      m1.length = scenarioA.length ∧
      ∀ a ∈ w, 4096 ≤ a ∧ a + 8 ≤ 4096 + scenarioA.length :=
  writes_inside_blob 4096 scenarioA 1 (by decide) (by decide) (by decide)

/-- C14 (truncated header): when the first four bytes are not the magic tag,
the load of the buffer cut down to these four bytes returns `nullptr` without
a fault, so no byte at offset 4 or beyond is read; the load of the buffer
itself returns `nullptr`, and so does the load of every buffer with the same
first four bytes, for every expected version. -/
theorem truncated_header (imageData : Nat) (m : List Byte) (expected : Nat)
    (hlen : 4 ≤ m.length) (hmagic : magicOf m ≠ CARBONITE_IMAGE_MAGIC) :
    (m.take 4).length = 4 ∧
    CarboniteUnfreezeImage imageData (m.take 4) expected = .ok (nullptr, m.take 4) ∧
    CarboniteUnfreezeImage imageData m expected = .ok (nullptr, m) ∧
    ∀ (m2 : List Byte) (expected2 : Nat), m2.take 4 = m.take 4 →
      CarboniteUnfreezeImage imageData m2 expected2 = .ok (nullptr, m2) := by
  have h4 : (m.take 4).length = 4 := by rw [List.length_take]; omega
  refine ⟨h4, ?_, unfreeze_of_bad_magic _ _ _ hlen hmagic, ?_⟩
  · exact unfreeze_of_bad_magic _ _ _ (by omega) (by rw [magicOf_take]; exact hmagic)
  · intro m2 expected2 h2
    have hl2 : 4 ≤ m2.length := by
      have : (m2.take 4).length = 4 := by rw [h2]; exact h4
      rw [List.length_take] at this
      omega
    exact unfreeze_of_bad_magic _ _ _ hl2 (by rw [magicOf_congr m2 m h2]; exact hmagic)

/-- Witness of C14: a buffer of exactly four bytes, `"XRBN"`. -/
theorem truncated_header_witness :
    ([0x58, 0x52, 0x42, 0x4E] : List Byte).length = 4 ∧
    CarboniteUnfreezeImage 4096 [0x58, 0x52, 0x42, 0x4E] 1
      = .ok (nullptr, [0x58, 0x52, 0x42, 0x4E]) :=
  ⟨by decide, (truncated_header 4096 [0x58, 0x52, 0x42, 0x4E] 1 (by decide) (by decide)).2.2.1⟩

/-- C17 (bounded single pass): the load of a well-formed image with `N` root
entries and `M` pointer-table entries returns after exactly these stores, in
this order: `RootObjectTable.Elements`, the `N` root entries,
`PointerTable.Elements`, the `M` pointer-table entries, the `M` designated
slots; `2 + N + 2 * M` stores in all, whatever the stored pointers point at. -/
theorem bounded_single_pass (imageData : Nat) (m : List Byte) (expected : Nat)
    (hW : WellFormed imageData m) (hg : passesGate m expected) :
    ∃ m1 w, CarboniteUnfreezeImageLog imageData m expected = .ok (imageData, m1, w) ∧
      CarboniteUnfreezeImage imageData m expected = .ok (imageData, m1) ∧
      w = [imageData + offRootObjectTableElements] ++ (rootCells m).map (imageData + ·)
        ++ [imageData + offPointerTableElements] ++ (pointerCells m).map (imageData + ·)
        ++ (slotCells m).map (imageData + ·) ∧
      (rootCells m).length = rootCount m ∧ (pointerCells m).length = pointerCount m ∧
      (slotCells m).length = pointerCount m ∧
      w.length = 2 + rootCount m + 2 * pointerCount m :=
  ⟨relocated imageData m, storesOf imageData m, unfreezeLog_eq expected hW.valid hW.layout hg,
    unfreeze_eq expected hW.valid hW.layout hg, rfl, rootCells_length m, pointerCells_length m,
    slotCells_length m, storesOf_length imageData m⟩

set_option maxRecDepth 100000 in
/-- Witness of C17: `aliasedImage`, with a shared object and a self-reference,
is loaded with `2 + 1 + 2 * 3 = 9` stores. -/
theorem bounded_single_pass_witness :
    rootCount aliasedImage = 1 ∧ pointerCount aliasedImage = 3 ∧
    ∃ m1 w, CarboniteUnfreezeImageLog 4096 aliasedImage 1 = .ok (4096, m1, w) ∧
      CarboniteUnfreezeImage 4096 aliasedImage 1 = .ok (4096, m1) ∧
      w.length = 9 := by
  obtain ⟨m1, w, h1, h2, _, _, _, _, h3⟩ :=
    bounded_single_pass 4096 aliasedImage 1 (by decide) (by decide)
  refine ⟨by decide, by decide, m1, w, h1, h2, ?_⟩
  rw [h3]
  decide
/-! ## The steps of the relocation, one by one -/

theorem load_rootElements {imageData : Nat} {m : List Byte} (hV : ValidBuffer imageData m) :
    load imageData m (imageData + offRootObjectTableElements) 8 = .ok (rootElements m) :=
  load64_inside _ _ _ (by have := hV.header; unfold offRootObjectTableElements; omega)

theorem store_rootElements {imageData : Nat} {m : List Byte} (hV : ValidBuffer imageData m) :
    store imageData m (imageData + offRootObjectTableElements) 8
      ((imageData + rootElements m) % 2 ^ 64) = .ok (stage1 imageData m) :=
  store_inside _ _ _ _ _ (by have := hV.header; unfold offRootObjectTableElements; omega)

theorem load_rootObjects {imageData : Nat} {m : List Byte} (hV : ValidBuffer imageData m) :
    load imageData (stage1 imageData m) (imageData + offRootObjectTableElements) 8
      = .ok ((imageData + rootElements m) % 2 ^ 64) := by
  have h40 := hV.header
  rw [load64_inside _ _ _ (by rw [stage1_length]; unfold offRootObjectTableElements; omega),
    stage1_rootElements _ _ h40]

theorem rootLoop_eq {imageData : Nat} {m : List Byte} (hV : ValidBuffer imageData m)
    (hL : Layout m) :
    relocateEntries imageData (imageData + offRootObjectTableCount)
      ((imageData + rootElements m) % 2 ^ 64) (2 ^ 64) 0 (stage1 imageData m)
      = .ok (stage2 imageData m) := by
  have h40 := hV.header
  have hfit := hV.fits
  have hcount : read64 (stage1 imageData m) offRootObjectTableCount = rootCount m :=
    peel_rootElements _ _ _ _ (by unfold offRootObjectTableCount; omega)
  exact relocateEntries_eq imageData offRootObjectTableCount _ (rootElements m) (rootCount m)
    (by decide)
    (fun k hk => wrap_add _ _ _ _ hfit (hL.root_in hk).2)
    (rootCount m) 0 (stage1 imageData m) (2 ^ 64) (by omega) (read64_lt _ _)
    (by rw [stage1_length]; exact h40) hcount
    (fun k hk => by
      have := hL.root_in hk
      unfold InBody
      rw [stage1_length]; exact this)

theorem load_pointerElements {imageData : Nat} {m : List Byte} (hV : ValidBuffer imageData m)
    (hL : Layout m) :
    load imageData (stage2 imageData m) (imageData + offPointerTableElements) 8
      = .ok (pointerElements m) := by
  have h40 := hV.header
  rw [load64_inside _ _ _ (by rw [stage2_length]; unfold offPointerTableElements; omega),
    stage2_pointerElements hL]

theorem store_pointerElements {imageData : Nat} {m : List Byte}
    (hV : ValidBuffer imageData m) :
    store imageData (stage2 imageData m) (imageData + offPointerTableElements) 8
      ((imageData + pointerElements m) % 2 ^ 64) = .ok (stage3 imageData m) :=
  store_inside _ _ _ _ _ (by
    have := hV.header; rw [stage2_length]; unfold offPointerTableElements; omega)

theorem load_pointers {imageData : Nat} {m : List Byte} (hV : ValidBuffer imageData m) :
    load imageData (stage3 imageData m) (imageData + offPointerTableElements) 8
      = .ok ((imageData + pointerElements m) % 2 ^ 64) := by
  have h40 := hV.header
  rw [load64_inside _ _ _ (by rw [stage3_length]; unfold offPointerTableElements; omega),
    stage3_pointerElements _ _ h40]

theorem pointerLoop_eq {imageData : Nat} {m : List Byte} (hV : ValidBuffer imageData m)
    (hL : Layout m) :
    relocateEntries imageData (imageData + offPointerTableCount)
      ((imageData + pointerElements m) % 2 ^ 64) (2 ^ 64) 0 (stage3 imageData m)
      = .ok (stage4 imageData m) := by
  have h40 := hV.header
  have hfit := hV.fits
  have hcount3 : read64 (stage3 imageData m) offPointerTableCount = pointerCount m := by
    unfold read64 pointerCount read64 offPointerTableCount
    rw [peel_pointerElements _ _ _ _ (by omega),
      peel_roots _ _ _ _ (fun i hi => by have := hL.root_in hi; omega),
      peel_rootElements _ _ _ _ (by omega)]
  exact relocateEntries_eq imageData offPointerTableCount _ (pointerElements m)
    (pointerCount m) (by decide)
    (fun k hk => wrap_add _ _ _ _ hfit (hL.pointer_in hk).2)
    (pointerCount m) 0 (stage3 imageData m) (2 ^ 64) (by omega) (read64_lt _ _)
    (by rw [stage3_length]; exact h40) hcount3
    (fun k hk => by
      have := hL.pointer_in hk
      unfold InBody
      rw [stage3_length]; exact this)

/-- The slot loop on any buffer `x` that has the length, the pointer-table
header fields and the relocated pointer-table entries of the image `m` after
lines 140-150: it relocates the designated slots of `m`, one store each. -/
theorem slotLoop_on {imageData : Nat} {m : List Byte} (hV : ValidBuffer imageData m)
    (hL : Layout m) (x : List Byte) (hlen : x.length = m.length)
    (hcount : read64 x offPointerTableCount = pointerCount m)
    (hel : read64 x offPointerTableElements = (imageData + pointerElements m) % 2 ^ 64)
    (hent : ∀ k < pointerCount m, read64 x (pointerCell m k) = imageData + slotOf m k) :
    relocateSlots imageData (2 ^ 64) 0 x = .ok (relocCells imageData (slotCells m) x) := by
  have h40 := hV.header
  have hfit := hV.fits
  exact relocateSlots_eq imageData ((imageData + pointerElements m) % 2 ^ 64)
    (pointerElements m) (pointerCount m) (slotOf m)
    (fun k hk => wrap_add _ _ _ _ hfit (hL.pointer_in hk).2)
    (fun k hk => (hL.slot_in hk).1)
    (fun j hj k hk => hL.pointer_slot hj hk)
    (pointerCount m) 0 x (2 ^ 64) (by omega) (read64_lt _ _)
    (by rw [hlen]; exact h40) hcount hel
    (fun k hk => by rw [hlen]; exact (hL.pointer_in hk).2)
    (fun k hk => by rw [hlen]; exact (hL.slot_in hk).2)
    hent

theorem stage4_pointerCell_abs {imageData : Nat} {m : List Byte}
    (hV : ValidBuffer imageData m) (hL : Layout m) {k : Nat} (hk : k < pointerCount m) :
    read64 (stage4 imageData m) (pointerCell m k) = imageData + slotOf m k := by
  rw [stage4_pointerCell hL hk]
  exact wrap_base _ _ _ hV.fits (hL.slot_in hk).2

theorem relocated_pointerCell_abs {imageData : Nat} {m : List Byte}
    (hV : ValidBuffer imageData m) (hL : Layout m) {k : Nat} (hk : k < pointerCount m) :
    read64 (relocated imageData m) (pointerCell m k) = imageData + slotOf m k := by
  rw [relocated_pointerCell hL hk]
  exact wrap_base _ _ _ hV.fits (hL.slot_in hk).2

theorem stage4_pointerElements {imageData : Nat} {m : List Byte}
    (hV : ValidBuffer imageData m) (hL : Layout m) :
    read64 (stage4 imageData m) offPointerTableElements
      = (imageData + pointerElements m) % 2 ^ 64 := by
  have hp : read64 (stage4 imageData m) offPointerTableElements
      = read64 (stage3 imageData m) offPointerTableElements :=
    peel_pointers _ _ _ _ (fun j hj => by
      have := hL.pointer_in hj; unfold offPointerTableElements; omega)
  rw [hp, stage3_pointerElements imageData m hV.header]

theorem slotLoop_eq {imageData : Nat} {m : List Byte} (hV : ValidBuffer imageData m)
    (hL : Layout m) :
    relocateSlots imageData (2 ^ 64) 0 (stage4 imageData m) = .ok (relocated imageData m) :=
  slotLoop_on hV hL (stage4 imageData m) (stage4_length _ _)
    (header_field_stage4 hL 8 8 (by omega) (by omega))
    (stage4_pointerElements hV hL)
    (fun _ hk => stage4_pointerCell_abs hV hL hk)

/-- The slot loop run a second time, on the buffer a load leaves behind. -/
theorem slotLoop_again {imageData : Nat} {m : List Byte} (hV : ValidBuffer imageData m)
    (hL : Layout m) :
    relocateSlots imageData (2 ^ 64) 0 (relocated imageData m)
      = .ok (relocCells imageData (slotCells m) (relocated imageData m)) :=
  slotLoop_on hV hL (relocated imageData m) (relocated_length _ _)
    (header_field_relocated hL 8 8 (by omega) (by omega))
    (relocated_pointerElements hV.header hL)
    (fun _ hk => relocated_pointerCell_abs hV hL hk)

theorem relocateRootElements_eq {imageData : Nat} {m : List Byte}
    (hV : ValidBuffer imageData m) :
    relocateRootElements imageData m = .ok (stage1 imageData m) := by
  unfold relocateRootElements
  rw [load_rootElements hV]
  exact store_rootElements hV

theorem relocateTableEntries_eq {imageData : Nat} {m : List Byte}
    (hV : ValidBuffer imageData m) (hL : Layout m) :
    relocateTableEntries imageData (stage1 imageData m) = .ok (stage4 imageData m) := by
  unfold relocateTableEntries
  simp only [load_rootObjects hV, rootLoop_eq hV hL, load_pointerElements hV hL,
    store_pointerElements hV, load_pointers hV, pointerLoop_eq hV hL, Except.bind]

theorem relocateTables_eq {imageData : Nat} {m : List Byte}
    (hV : ValidBuffer imageData m) (hL : Layout m) :
    relocateTables imageData m = .ok (stage4 imageData m) := by
  unfold relocateTables
  rw [relocateRootElements_eq hV]
  exact relocateTableEntries_eq hV hL

/-- The relocation is the bootstrap-table relocation followed by the slot
loop, on every buffer. -/
theorem relocate_tables_slots (imageData : Nat) (m : List Byte) :
    relocate imageData m
      = (relocateTables imageData m).bind (relocateSlots imageData (2 ^ 64) 0) := by
  unfold relocate relocateTables relocateRootElements relocateTableEntries
  cases load imageData m (imageData + offRootObjectTableElements) 8 with
  | error e => rfl
  | ok r =>
    simp only [Except.bind]
    cases store imageData m (imageData + offRootObjectTableElements) 8
        ((imageData + r) % 2 ^ 64) with
    | error e => rfl
    | ok m1 =>
      simp only [Except.bind]
      cases load imageData m1 (imageData + offRootObjectTableElements) 8 with
      | error e => rfl
      | ok rootObjects =>
        simp only [Except.bind]
        cases relocateEntries imageData (imageData + offRootObjectTableCount) rootObjects
            (2 ^ 64) 0 m1 with
        | error e => rfl
        | ok m2 =>
          simp only [Except.bind]
          cases load imageData m2 (imageData + offPointerTableElements) 8 with
          | error e => rfl
          | ok p =>
            simp only [Except.bind]
            cases store imageData m2 (imageData + offPointerTableElements) 8
                ((imageData + p) % 2 ^ 64) with
            | error e => rfl
            | ok m3 =>
              simp only [Except.bind]
              cases load imageData m3 (imageData + offPointerTableElements) 8 with
              | error e => rfl
              | ok pointers => simp only [Except.bind]
/-! ## Relocating a slot more than once -/

theorem add_base_twice (v b : Nat) :
    ((v + b) % 2 ^ 64 + b) % 2 ^ 64 = (v + 2 * b) % 2 ^ 64 := by
  norm_num
  omega

theorem add_base_twice_ne (v b : Nat) (h : b % 2 ^ 64 ≠ 0) :
    (v + 2 * b) % 2 ^ 64 ≠ (b + v) % 2 ^ 64 := by
  norm_num at h ⊢
  omega

theorem valid_base_ne_zero {imageData : Nat} {m : List Byte} (hV : ValidBuffer imageData m) :
    imageData % 2 ^ 64 ≠ 0 := by
  have h1 := hV.fits
  have h2 : 0 < imageData := hV.1
  have h3 := hV.header
  norm_num
  omega

/-- A cell that occurs `n` times in the list of relocated cells, all the other
cells of the list being apart from it, has the base address added `n` times. -/
theorem relocCells_read64_count (imageData : Nat) (offs : List Nat) (m : List Byte) (c : Nat)
    (hc : c + 8 ≤ m.length) (h : ∀ a ∈ offs, a = c ∨ Apart c a) :
    read64 (relocCells imageData offs m) c
      = (read64 m c + offs.count c * imageData) % 2 ^ 64 := by
  induction offs generalizing m with
  | nil =>
    simp only [relocCells_nil, List.count_nil, Nat.zero_mul, Nat.add_zero]
    exact (Nat.mod_eq_of_lt (read64_lt m c)).symm
  | cons a offs ih =>
    rw [relocCells_cons, ih _ (by rw [relocCell_length]; exact hc)
      (fun b hb => h b (List.mem_cons_of_mem _ hb))]
    rcases h a (List.mem_cons_self _ _) with ha | ha
    · subst ha
      rw [relocCell_read64_same _ _ _ hc, List.count_cons_self, Nat.add_mul, Nat.one_mul]
      generalize List.count a offs * imageData = t
      norm_num
      omega
    · have hne : c ≠ a := by
        intro hca
        rw [hca] at ha
        unfold Apart at ha
        omega
      have hr : read64 (relocCell imageData m a) c = read64 m c :=
        relocCell_leRead_disjoint _ _ _ _ _ (by unfold Apart at ha; omega)
      rw [hr, List.count_cons_of_ne hne]

theorem range_split_two (j k n : Nat) (hjk : j < k) (hk : k < n) :
    List.range' 0 n
      = List.range' 0 j ++ j :: (List.range' (j + 1) (k - j - 1)
          ++ k :: List.range' (k + 1) (n - k - 1)) := by
  have h1 := List.range'_append_1 0 j (n - j)
  have h2 := List.range'_append_1 (j + 1) (k - j - 1) (n - k)
  have h3 := List.range'_succ j (n - j - 1) 1
  have h4 := List.range'_succ k (n - k - 1) 1
  have a1 : n - j + j = n := by omega
  have a2 : 0 + j = j := by omega
  have a3 : j + 1 + (k - j - 1) = k := by omega
  have a4 : n - k + (k - j - 1) = n - j - 1 := by omega
  have a5 : n - j - 1 + 1 = n - j := by omega
  have a6 : n - k - 1 + 1 = n - k := by omega
  rw [a1, a2] at h1
  rw [a3, a4] at h2
  rw [a5] at h3
  rw [a6] at h4
  rw [← h1, h3, ← h2, h4]

theorem slotCells_count_two {m : List Byte} {j k : Nat} (hjk : j < k)
    (hk : k < pointerCount m) (hsame : slotOf m k = slotOf m j)
    (hothers : ∀ i < pointerCount m, i ≠ j → i ≠ k → Apart (slotOf m j) (slotOf m i)) :
    (slotCells m).count (slotOf m j) = 2 := by
  have hout : ∀ (s d : Nat), (∀ i, s ≤ i → i < s + d → i < pointerCount m ∧ i ≠ j ∧ i ≠ k) →
      ((List.range' s d).map (slotOf m)).count (slotOf m j) = 0 := by
    intro s d hsd
    rw [List.count_eq_zero]
    intro hmem
    obtain ⟨i, hi, hij⟩ := List.mem_map.mp hmem
    have hr := List.mem_range'_1.mp hi
    obtain ⟨h1, h2, h3⟩ := hsd i hr.1 hr.2
    have ha := hothers i h1 h2 h3
    rw [hij] at ha
    unfold Apart at ha
    omega
  unfold slotCells
  rw [range_split_two j k (pointerCount m) hjk hk]
  simp only [List.map_append, List.map_cons, List.count_append, List.count_cons, hsame,
    beq_self_eq_true, if_true]
  rw [hout 0 j (fun i _ h2 => ⟨by omega, by omega, by omega⟩),
    hout (j + 1) (k - j - 1) (fun i h1 h2 => ⟨by omega, by omega, by omega⟩),
    hout (k + 1) (pointerCount m - k - 1) (fun i h1 h2 => ⟨by omega, by omega, by omega⟩)]

/-! ## Claims on repeated relocation -/

/-- C15 (non-idempotence of the slot pass): for a well-formed image, the slot
loop of lines 153-156 applied to the buffer that lines 140-150 produce gives
the loaded buffer, in which slot `j` holds `(B + v_j) mod 2^64`; applied a
second time it returns a buffer in which every designated slot holds
`(v_j + 2 * B) mod 2^64`, which differs from `(B + v_j) mod 2^64` whenever
`B` is not 0 mod `2^64`. -/
theorem slot_pass_twice (imageData : Nat) (m : List Byte) (hW : WellFormed imageData m) :
    ∃ m4 m5 m6, relocateTables imageData m = .ok m4 ∧
      relocateSlots imageData (2 ^ 64) 0 m4 = .ok m5 ∧
      relocate imageData m = .ok m5 ∧
      relocateSlots imageData (2 ^ 64) 0 m5 = .ok m6 ∧
      ∀ j < pointerCount m,
        read64 m5 (slotOf m j) = (imageData + slotValue m j) % 2 ^ 64 ∧
        read64 m6 (slotOf m j) = (slotValue m j + 2 * imageData) % 2 ^ 64 ∧
        (imageData % 2 ^ 64 ≠ 0 →
          read64 m6 (slotOf m j) ≠ (imageData + slotValue m j) % 2 ^ 64) := by
  have hV := hW.valid
  have hL := hW.layout
  have hD := hW.distinct
  refine ⟨stage4 imageData m, relocated imageData m,
    relocCells imageData (slotCells m) (relocated imageData m),
    relocateTables_eq hV hL, slotLoop_eq hV hL, relocate_eq hV hL, slotLoop_again hV hL, ?_⟩
  intro j hj
  have h5 : read64 (relocated imageData m) (slotOf m j)
      = (slotValue m j + imageData) % 2 ^ 64 := relocated_slot hL hD hj
  have hin : ∀ a ∈ slotCells m, a + 8 ≤ (relocated imageData m).length := by
    intro a ha
    obtain ⟨k, hk, hak⟩ := mem_slotCells ha
    rw [relocated_length, hak]; exact (hL.slot_in hk).2
  have h6 : read64 (relocCells imageData (slotCells m) (relocated imageData m)) (slotOf m j)
      = (slotValue m j + 2 * imageData) % 2 ^ 64 := by
    rw [relocCells_read64_mem _ _ _ _ (slotCells_pairwise hD) hin (slotOf_mem hj), h5]
    exact add_base_twice _ _
  refine ⟨by rw [h5, Nat.add_comm], h6, fun hB => ?_⟩
  rw [h6]
  exact add_base_twice_ne _ _ hB

set_option maxRecDepth 100000 in
/-- Witness of C15: Scenario A at address 4096, whose slot at offset 64 stores
72: one pass gives `72 + 4096`, two passes give `72 + 2 * 4096`. -/
theorem slot_pass_twice_witness :
    slotOf scenarioA 0 = 64 ∧ slotValue scenarioA 0 = 72 ∧
    ∃ m4 m5 m6, relocateTables 4096 scenarioA = .ok m4 ∧
      relocateSlots 4096 (2 ^ 64) 0 m4 = .ok m5 ∧
      relocateSlots 4096 (2 ^ 64) 0 m5 = .ok m6 ∧
      read64 m5 (slotOf scenarioA 0) = (4096 + slotValue scenarioA 0) % 2 ^ 64 ∧
      read64 m6 (slotOf scenarioA 0) = (slotValue scenarioA 0 + 2 * 4096) % 2 ^ 64 ∧
      read64 m6 (slotOf scenarioA 0) ≠ (4096 + slotValue scenarioA 0) % 2 ^ 64 := by
  obtain ⟨m4, m5, m6, h1, h2, _, h3, h⟩ := slot_pass_twice 4096 scenarioA (by decide)
  obtain ⟨h5, h6, h7⟩ := h 0 (by decide)
  exact ⟨by decide, by decide, m4, m5, m6, h1, h2, h3, h5, h6, h7 (by decide)⟩

/-- C16 (duplicate pointer-table entries): when the entries `j < k` of the
pointer table designate the same slot, every other entry designating a slot
apart from it, in an image with a proper layout that passes the header check,
the load succeeds (the repetition is not detected) and leaves that slot
holding `(v + 2 * B) mod 2^64`, not `(B + v) mod 2^64`. -/
theorem duplicate_entries (imageData : Nat) (m : List Byte) (expected j k : Nat)
    (hV : ValidBuffer imageData m) (hL : Layout m) (hg : passesGate m expected)
    (hjk : j < k) (hk : k < pointerCount m) (hsame : slotOf m k = slotOf m j)
    (hothers : ∀ i < pointerCount m, i ≠ j → i ≠ k → Apart (slotOf m j) (slotOf m i)) :
    ∃ m1, CarboniteUnfreezeImage imageData m expected = .ok (imageData, m1) ∧
      read64 m1 (slotOf m j) = (slotValue m j + 2 * imageData) % 2 ^ 64 ∧
      read64 m1 (slotOf m j) ≠ (imageData + slotValue m j) % 2 ^ 64 := by
  have hj : j < pointerCount m := by omega
  have hval : read64 (relocated imageData m) (slotOf m j)
      = (slotValue m j + 2 * imageData) % 2 ^ 64 := by
    have hall : ∀ a ∈ slotCells m, a = slotOf m j ∨ Apart (slotOf m j) a := by
      intro a ha
      obtain ⟨i, hi, hai⟩ := mem_slotCells ha
      rw [hai]
      by_cases h1 : i = j
      · left; rw [h1]
      · by_cases h2 : i = k
        · left; rw [h2, hsame]
        · right; exact hothers i hi h1 h2
    unfold relocated
    rw [relocCells_read64_count _ _ _ _ (by rw [stage4_length]; exact (hL.slot_in hj).2) hall,
      slotCells_count_two hjk hk hsame hothers, stage4_slot hL hj]
  refine ⟨relocated imageData m, unfreeze_eq expected hV hL hg, hval, ?_⟩
  rw [hval]
  exact add_base_twice_ne _ _ (valid_base_ne_zero hV)

set_option maxRecDepth 100000 in
/-- Witness of C16: `duplicateEntry` at address 4096; both entries designate
the slot at offset 64, which stores 72 and ends as `72 + 2 * 4096`. -/
theorem duplicate_entries_witness :
    slotOf duplicateEntry 0 = 64 ∧ slotOf duplicateEntry 1 = 64 ∧
    slotValue duplicateEntry 0 = 72 ∧
    ∃ m1, CarboniteUnfreezeImage 4096 duplicateEntry 1 = .ok (4096, m1) ∧
      read64 m1 (slotOf duplicateEntry 0) = (slotValue duplicateEntry 0 + 2 * 4096) % 2 ^ 64 ∧
      read64 m1 (slotOf duplicateEntry 0) ≠ (4096 + slotValue duplicateEntry 0) % 2 ^ 64 :=
  ⟨by decide, by decide, by decide,
    duplicate_entries 4096 duplicateEntry 1 0 1 (by decide) (by decide) (by decide)
      (by decide) (by decide) (by decide) (by decide)⟩
/-! ## The order of the root loop -/

theorem leWrite_set_comm (m : List Byte) (off n v k : Nat) (b : Byte)
    (hk : k < off ∨ off + n ≤ k) :
    leWrite (m.set k b) off n v = (leWrite m off n v).set k b := by
  induction n generalizing m off v with
  | zero => rfl
  | succ n ih =>
    simp only [leWrite]
    rw [List.set_comm _ _ _ (by omega), ih _ _ _ (by omega)]

theorem leWrite_comm (m : List Byte) (o1 n1 v1 o2 n2 v2 : Nat)
    (h : o1 + n1 ≤ o2 ∨ o2 + n2 ≤ o1) :
    leWrite (leWrite m o1 n1 v1) o2 n2 v2 = leWrite (leWrite m o2 n2 v2) o1 n1 v1 := by
  induction n1 generalizing m o1 v1 with
  | zero => rfl
  | succ n ih =>
    simp only [leWrite]
    rw [ih _ _ _ (by omega), leWrite_set_comm _ _ _ _ _ _ (by omega)]

theorem relocCell_comm (imageData : Nat) (m : List Byte) (a b : Nat) (h : Apart a b) :
    relocCell imageData (relocCell imageData m a) b
      = relocCell imageData (relocCell imageData m b) a := by
  have h1 : read64 (relocCell imageData m a) b = read64 m b :=
    relocCell_leRead_disjoint _ _ _ _ _ (by unfold Apart at h; omega)
  have h2 : read64 (relocCell imageData m b) a = read64 m a :=
    relocCell_leRead_disjoint _ _ _ _ _ (by unfold Apart at h; omega)
  show leWrite (relocCell imageData m a) b 8 _ = leWrite (relocCell imageData m b) a 8 _
  rw [h1, h2]
  exact leWrite_comm _ _ _ _ _ _ _ (by unfold Apart at h; omega)

/-- Relocating cells that are pairwise apart gives the same buffer in every
order. -/
theorem relocCells_perm (imageData : Nat) (l1 l2 : List Nat) (m : List Byte)
    (hp : l1.Perm l2) (h : ∀ x ∈ l1, ∀ y ∈ l1, x = y ∨ Apart x y) :
    relocCells imageData l1 m = relocCells imageData l2 m := by
  unfold relocCells
  refine List.Perm.foldl_eq' hp ?_ m
  intro x hx y hy z
  rcases h x hx y hy with hxy | hxy
  · rw [hxy]
  · exact relocCell_comm imageData z x y hxy

theorem relocateEntriesIn_eq (imageData entries t n : Nat)
    (haddr : ∀ k < n, (entries + 8 * k) % 2 ^ 64 = imageData + (t + 8 * k)) :
    ∀ (order : List Nat) (m : List Byte), (∀ i ∈ order, i < n) →
      (∀ k < n, t + 8 * k + 8 ≤ m.length) →
      relocateEntriesIn imageData entries order m
        = .ok (relocCells imageData (order.map fun k => t + 8 * k) m) := by
  intro order
  induction order with
  | nil => intro m _ _; rfl
  | cons i rest ih =>
    intro m hord hin
    have hi : i < n := hord i (List.mem_cons_self _ _)
    have hl := load64_inside imageData m (t + 8 * i) (hin i hi)
    have hs := store64_reloc imageData m (t + 8 * i) (hin i hi)
    simp only [relocateEntriesIn, haddr i hi, hl, hs, Except.bind]
    rw [ih _ (fun k hk => hord k (List.mem_cons_of_mem _ hk))
      (fun k hk => by rw [relocCell_length]; exact hin k hk)]
    rfl

/-- With a valid buffer and a proper layout, the relocation with the root
entries taken in any permutation of `0, ..., N - 1` is the relocation. -/
theorem relocateInOrder_eq {imageData : Nat} {m : List Byte} (order : List Nat)
    (hV : ValidBuffer imageData m) (hL : Layout m)
    (hperm : order.Perm (List.range' 0 (rootCount m))) :
    relocateInOrder imageData m order = relocate imageData m := by
  have hfit := hV.fits
  have hloop : relocateEntriesIn imageData ((imageData + rootElements m) % 2 ^ 64) order
      (stage1 imageData m) = .ok (stage2 imageData m) := by
    rw [relocateEntriesIn_eq imageData _ (rootElements m) (rootCount m)
      (fun k hk => wrap_add _ _ _ _ hfit (hL.root_in hk).2) order (stage1 imageData m)
      (fun i hi => by
        have := (List.mem_range'_1.mp ((List.Perm.mem_iff hperm).mp hi)).2
        omega)
      (fun k hk => by rw [stage1_length]; exact (hL.root_in hk).2)]
    have hp : (order.map fun k => rootElements m + 8 * k).Perm (rootCells m) :=
      List.Perm.map _ hperm
    have hpair := stride_pairwise (rootElements m) (rootCount m)
    have hapart : ∀ x ∈ rootCells m, ∀ y ∈ rootCells m, x = y ∨ Apart x y := by
      intro x hx y hy
      obtain ⟨i, _, hxi⟩ := mem_rootCells hx
      obtain ⟨k, _, hyk⟩ := mem_rootCells hy
      rw [hxi, hyk]
      unfold rootCell Apart
      omega
    have := relocCells_perm imageData _ _ (stage1 imageData m) hp.symm hapart
    unfold stage2
    rw [this]
  rw [relocate_eq hV hL]
  unfold relocateInOrder
  simp only [load_rootElements hV, store_rootElements hV, load_rootObjects hV, hloop,
    load_pointerElements hV hL, store_pointerElements hV, load_pointers hV,
    pointerLoop_eq hV hL, slotLoop_eq hV hL, Except.bind]

/-- C18 (iteration order is irrelevant): for a well-formed image that passes
the header check, the loader with the root entries relocated in any
permutation of the index order returns what the loader returns, the same
pointer and the same buffer, and in that buffer entry `i` of the root table is
the relocation `B + e_i` of entry `i` before the load. -/
theorem iteration_order_irrelevant (imageData : Nat) (m : List Byte) (expected : Nat)
    (order : List Nat) (hW : WellFormed imageData m) (hg : passesGate m expected)
    (hperm : order.Perm (List.range' 0 (rootCount m))) :
    CarboniteUnfreezeImageInOrder imageData m expected order
      = CarboniteUnfreezeImage imageData m expected ∧
    ∃ m1, CarboniteUnfreezeImage imageData m expected = .ok (imageData, m1) ∧
      ∀ i < rootCount m, read64 m1 (rootCell m i) = imageData + rootEntry m i := by
  constructor
  · unfold CarboniteUnfreezeImageInOrder CarboniteUnfreezeImage
    rw [relocateInOrder_eq order hW.valid hW.layout hperm]
  · refine ⟨relocated imageData m, unfreeze_eq expected hW.valid hW.layout hg, ?_⟩
    intro i hi
    have hmem : rootCell m i ∈ relocatedCells m := by
      unfold relocatedCells
      simp only [List.mem_append]
      exact Or.inl (Or.inl (Or.inr (rootCell_mem hi)))
    exact relocated_cell hW hmem

set_option maxRecDepth 100000 in
/-- Witness of C18: `twoRoots` with the root entries relocated in the order
1, 0. -/
theorem iteration_order_irrelevant_witness :
    rootCount twoRoots = 2 ∧
    CarboniteUnfreezeImageInOrder 4096 twoRoots 1 [1, 0]
      = CarboniteUnfreezeImage 4096 twoRoots 1 ∧
    ∃ m1, CarboniteUnfreezeImage 4096 twoRoots 1 = .ok (4096, m1) ∧
      ∀ i < rootCount twoRoots, read64 m1 (rootCell twoRoots i) = 4096 + rootEntry twoRoots i := by
  have hp : [1, 0].Perm (List.range' 0 (rootCount twoRoots)) := by
    have h : List.range' 0 (rootCount twoRoots) = [0, 1] := by decide
    rw [h]
    exact List.Perm.swap 0 1 []
  exact ⟨by decide, iteration_order_irrelevant 4096 twoRoots 1 [1, 0] (by decide) (by decide) hp⟩
/-! ## Loading twice -/

theorem validBuffer_of_length {imageData : Nat} {m x : List Byte}
    (hV : ValidBuffer imageData m) (hlen : x.length = m.length) : ValidBuffer imageData x := by
  unfold ValidBuffer at hV ⊢
  rw [hlen]
  exact hV

theorem passesGate_relocated {imageData : Nat} {m : List Byte} (expected : Nat)
    (hL : Layout m) (hg : passesGate m expected) :
    passesGate (relocated imageData m) expected := by
  have h1 : magicOf (relocated imageData m) = magicOf m :=
    header_field_relocated hL 0 4 (by omega) (by omega)
  have h2 : versionOf (relocated imageData m) = versionOf m :=
    header_field_relocated hL 4 4 (by omega) (by omega)
  unfold passesGate at hg ⊢
  rw [h1, h2]
  exact hg

theorem layout_of_empty (m : List Byte) (hr : rootCount m = 0) (hp : pointerCount m = 0) :
    Layout m := by
  unfold Layout
  rw [hr, hp]
  refine ⟨?_, ?_, ?_, ?_, ?_, ?_⟩ <;> intro i hi <;> omega

/-- The call written as its steps: header check passed, then line 141, lines
142-150, lines 153-156, and the return of the buffer address. -/
theorem unfreeze_steps (imageData : Nat) (m : List Byte) (expected : Nat)
    (hlen : 8 ≤ m.length) (hg : passesGate m expected) :
    CarboniteUnfreezeImage imageData m expected
      = (((relocateRootElements imageData m).bind (relocateTableEntries imageData)).bind
          (relocateSlots imageData (2 ^ 64) 0)).bind fun m2 => .ok (imageData, m2) := by
  rw [unfreeze_of_gate _ _ _ hlen hg, relocate_tables_slots]
  rfl

theorem load_outside (imageData : Nat) (m : List Byte) (addr n : Nat)
    (h : ¬ (imageData ≤ addr ∧ addr + n ≤ imageData + m.length)) :
    load imageData m addr n = .error .outOfBounds := by
  unfold load
  rw [if_neg h]

/-- A table loop whose `Count` is not 0 and whose first entry lies outside the
buffer faults at that entry. -/
theorem relocateEntries_first_fault (imageData countAddr entries fuel n : Nat) (m : List Byte)
    (hfuel : 0 < fuel) (hcount : load imageData m countAddr 8 = .ok n) (hn : 0 < n)
    (hout : ¬ (imageData ≤ entries % 2 ^ 64 ∧ entries % 2 ^ 64 + 8 ≤ imageData + m.length)) :
    relocateEntries imageData countAddr entries fuel 0 m = .error .outOfBounds := by
  obtain ⟨f, rfl⟩ : ∃ f, fuel = f + 1 := ⟨fuel - 1, by omega⟩
  have hl : load imageData m ((entries + 8 * 0) % 2 ^ 64) 8 = .error .outOfBounds :=
    load_outside _ _ _ _ (by rw [Nat.mul_zero, Nat.add_zero]; exact hout)
  simp only [relocateEntries, hcount, Except.bind]
  rw [if_pos hn, hl]

/-- A table loop whose `Count` is 0 leaves the buffer as it is. -/
theorem relocateEntries_empty (imageData cOff entries fuel : Nat) (m : List Byte)
    (hfuel : 0 < fuel) (hc : cOff + 8 ≤ m.length) (hcount : read64 m cOff = 0) :
    relocateEntries imageData (imageData + cOff) entries fuel 0 m = .ok m := by
  obtain ⟨f, rfl⟩ : ∃ f, fuel = f + 1 := ⟨fuel - 1, by omega⟩
  have hl := load64_inside imageData m cOff hc
  simp only [relocateEntries, hl, Except.bind, hcount]
  rfl

/-- An address relocated twice lies outside the buffer when the base address
is at least the length of the buffer. -/
theorem twice_outside (imageData len t : Nat)
    (hfit : imageData + len ≤ 18446744073709551616) (hbase : len ≤ imageData)
    (ht : t + 8 ≤ len) :
    ¬ (imageData ≤ ((imageData + (imageData + t) % 2 ^ 64) % 2 ^ 64) % 2 ^ 64 ∧
      ((imageData + (imageData + t) % 2 ^ 64) % 2 ^ 64) % 2 ^ 64 + 8 ≤ imageData + len) := by
  norm_num
  omega

/-- The relocation run on the buffer that a load leaves behind: when a table
is not empty and the base address is at least the length of the buffer, the
first entry of the first non-empty table is looked up at a doubly relocated
address, outside the buffer. -/
theorem relocate_again_faults {imageData : Nat} {m : List Byte}
    (hV : ValidBuffer imageData m) (hL : Layout m) (hbase : m.length ≤ imageData)
    (hne : 0 < rootCount m ∨ 0 < pointerCount m) :
    relocate imageData (relocated imageData m) = .error .outOfBounds := by
  have h40 := hV.header
  have hfit := hV.fits
  have hlen := relocated_length imageData m
  have hV1 : ValidBuffer imageData (relocated imageData m) := validBuffer_of_length hV hlen
  have hrc : rootCount (relocated imageData m) = rootCount m :=
    header_field_relocated hL 24 8 (by omega) (by omega)
  have hpc : pointerCount (relocated imageData m) = pointerCount m :=
    header_field_relocated hL 8 8 (by omega) (by omega)
  have hre : rootElements (relocated imageData m) = (imageData + rootElements m) % 2 ^ 64 :=
    relocated_rootElements h40 hL
  have hpe : pointerElements (relocated imageData m)
      = (imageData + pointerElements m) % 2 ^ 64 := relocated_pointerElements h40 hL
  have hcount1 : load imageData (stage1 imageData (relocated imageData m))
      (imageData + offRootObjectTableCount) 8 = .ok (rootCount m) := by
    rw [load64_inside _ _ _ (by rw [stage1_length, hlen]; unfold offRootObjectTableCount; omega)]
    have : read64 (stage1 imageData (relocated imageData m)) offRootObjectTableCount
        = rootCount (relocated imageData m) :=
      peel_rootElements _ _ _ _ (by unfold offRootObjectTableCount; omega)
    rw [this, hrc]
  unfold relocate
  simp only [load_rootElements hV1, store_rootElements hV1, load_rootObjects hV1, Except.bind]
  by_cases hN : 0 < rootCount m
  · have hin := (hL.root_in hN).2
    have hcell : rootCell m 0 = rootElements m := by unfold rootCell; omega
    rw [relocateEntries_first_fault _ _ _ _ _ _ (by norm_num) hcount1 hN (by
      rw [hre, stage1_length, hlen]
      exact twice_outside _ _ _ hfit hbase (by rw [← hcell]; exact hin))]
  · have hN0 : rootCount m = 0 := by omega
    have hM : 0 < pointerCount m := by omega
    have hin := (hL.pointer_in hM).2
    have hcell : pointerCell m 0 = pointerElements m := by unfold pointerCell; omega
    have hroot : relocateEntries imageData (imageData + offRootObjectTableCount)
        ((imageData + rootElements (relocated imageData m)) % 2 ^ 64) (2 ^ 64) 0
        (stage1 imageData (relocated imageData m))
        = .ok (stage1 imageData (relocated imageData m)) := by
      refine relocateEntries_empty _ _ _ _ _ (by norm_num)
        (by rw [stage1_length, hlen]; unfold offRootObjectTableCount; omega) ?_
      have : read64 (stage1 imageData (relocated imageData m)) offRootObjectTableCount
          = rootCount (relocated imageData m) :=
        peel_rootElements _ _ _ _ (by unfold offRootObjectTableCount; omega)
      rw [this, hrc, hN0]
    have hl5 : load imageData (stage1 imageData (relocated imageData m))
        (imageData + offPointerTableElements) 8
        = .ok ((imageData + pointerElements m) % 2 ^ 64) := by
      rw [load64_inside _ _ _ (by
        rw [stage1_length, hlen]; unfold offPointerTableElements; omega)]
      have : read64 (stage1 imageData (relocated imageData m)) offPointerTableElements
          = pointerElements (relocated imageData m) :=
        peel_rootElements _ _ _ _ (by unfold offPointerTableElements; omega)
      rw [this, hpe]
    have hs6 : store imageData (stage1 imageData (relocated imageData m))
        (imageData + offPointerTableElements) 8
        ((imageData + (imageData + pointerElements m) % 2 ^ 64) % 2 ^ 64)
        = .ok (leWrite (stage1 imageData (relocated imageData m)) offPointerTableElements 8
            ((imageData + (imageData + pointerElements m) % 2 ^ 64) % 2 ^ 64)) :=
      store_inside _ _ _ _ _ (by
        rw [stage1_length, hlen]; unfold offPointerTableElements; omega)
    have hl7 : load imageData
        (leWrite (stage1 imageData (relocated imageData m)) offPointerTableElements 8
          ((imageData + (imageData + pointerElements m) % 2 ^ 64) % 2 ^ 64))
        (imageData + offPointerTableElements) 8
        = .ok ((imageData + (imageData + pointerElements m) % 2 ^ 64) % 2 ^ 64) := by
      rw [load_inside _ _ _ _ (by
        rw [leWrite_length, stage1_length, hlen]; unfold offPointerTableElements; omega),
        leRead_leWrite_same _ _ _ _ (by
          rw [stage1_length, hlen]; unfold offPointerTableElements; omega),
        two_pow_64, Nat.mod_mod]
    have hcount3 : load imageData
        (leWrite (stage1 imageData (relocated imageData m)) offPointerTableElements 8
          ((imageData + (imageData + pointerElements m) % 2 ^ 64) % 2 ^ 64))
        (imageData + offPointerTableCount) 8 = .ok (pointerCount m) := by
      rw [load_inside _ _ _ _ (by
        rw [leWrite_length, stage1_length, hlen]; unfold offPointerTableCount; omega),
        leRead_leWrite_disjoint _ _ _ _ _ _ (by
          unfold offPointerTableCount offPointerTableElements; omega)]
      have : read64 (stage1 imageData (relocated imageData m)) offPointerTableCount
          = pointerCount (relocated imageData m) :=
        peel_rootElements _ _ _ _ (by unfold offPointerTableCount; omega)
      exact congrArg _ (this.trans hpc)
    simp only [hroot, hl5, hs6, hl7]
    rw [relocateEntries_first_fault _ _ _ _ _ _ (by norm_num) hcount3 hM (by
      rw [leWrite_length, stage1_length, hlen]
      exact twice_outside _ _ _ hfit hbase (by rw [← hcell]; exact hin))]

/-- C19 as stated fails: the load of `slotAtMagic` at address 4096 succeeds (it
returns the buffer address), but its only designated slot is the first 8
bytes of the header, so `Magic` is changed by the load and the second call
with the same expected version returns `nullptr`. -/
theorem double_load_counterexample :
    passesGate slotAtMagic 1 ∧ magicOf slotAtMagic = CARBONITE_IMAGE_MAGIC ∧
    (CarboniteUnfreezeImage 4096 slotAtMagic 1).map (fun x => (x.1, magicOf x.2))
      = .ok (4096, CARBONITE_IMAGE_MAGIC + 4096) ∧
    (CarboniteUnfreezeImage 4096 slotAtMagic 1).bind
      (fun x => (CarboniteUnfreezeImage 4096 x.2 1).map Prod.fst) = .ok nullptr := by
  decide

/-- C19, amended (double load is not detected): the load of an image with a
proper layout in a valid buffer leaves `Magic`, `PayloadFormatVersion` and
both `Count` fields as they were, so a second call on the relocated buffer
with the same expected version passes the header check again and never
returns `nullptr`; it runs the relocation again, and its line 141 leaves
`RootObjectTable.Elements` at `(r + 2 * B) mod 2^64`, not at
`(B + r) mod 2^64`.  When both tables are empty the second call returns the
buffer address with that value in the field; when a table is not empty and
the base address is at least the length of the buffer, the second call then
accesses memory outside the buffer instead of returning. -/
theorem double_load (imageData : Nat) (m : List Byte) (expected : Nat)
    (hV : ValidBuffer imageData m) (hL : Layout m) (hg : passesGate m expected) :
    ∃ m1, CarboniteUnfreezeImage imageData m expected = .ok (imageData, m1) ∧
      magicOf m1 = magicOf m ∧ versionOf m1 = versionOf m ∧
      pointerCount m1 = pointerCount m ∧ rootCount m1 = rootCount m ∧
      passesGate m1 expected ∧
      (∀ m2, CarboniteUnfreezeImage imageData m1 expected ≠ .ok (nullptr, m2)) ∧
      CarboniteUnfreezeImage imageData m1 expected
        = (((relocateRootElements imageData m1).bind (relocateTableEntries imageData)).bind
            (relocateSlots imageData (2 ^ 64) 0)).bind (fun m2 => .ok (imageData, m2)) ∧
      (∃ m2, relocateRootElements imageData m1 = .ok m2 ∧
        rootElements m2 = (rootElements m + 2 * imageData) % 2 ^ 64 ∧
        rootElements m2 ≠ (imageData + rootElements m) % 2 ^ 64) ∧
      (rootCount m = 0 → pointerCount m = 0 →
        ∃ m2, CarboniteUnfreezeImage imageData m1 expected = .ok (imageData, m2) ∧
          rootElements m2 = (rootElements m + 2 * imageData) % 2 ^ 64 ∧
          rootElements m2 ≠ (imageData + rootElements m) % 2 ^ 64) ∧
      (m.length ≤ imageData → (0 < rootCount m ∨ 0 < pointerCount m) →
        CarboniteUnfreezeImage imageData m1 expected = .error .outOfBounds) := by
  have h40 := hV.header
  have hV1 : ValidBuffer imageData (relocated imageData m) :=
    validBuffer_of_length hV (relocated_length _ _)
  have hg1 : passesGate (relocated imageData m) expected :=
    passesGate_relocated expected hL hg
  have hpc : pointerCount (relocated imageData m) = pointerCount m :=
    header_field_relocated hL 8 8 (by omega) (by omega)
  have hrc : rootCount (relocated imageData m) = rootCount m :=
    header_field_relocated hL 24 8 (by omega) (by omega)
  have hre : rootElements (relocated imageData m) = (imageData + rootElements m) % 2 ^ 64 :=
    relocated_rootElements h40 hL
  have htwice : (imageData + rootElements (relocated imageData m)) % 2 ^ 64
      = (rootElements m + 2 * imageData) % 2 ^ 64 := by
    rw [hre]
    norm_num
    omega
  have hne : (rootElements m + 2 * imageData) % 2 ^ 64
      ≠ (imageData + rootElements m) % 2 ^ 64 :=
    add_base_twice_ne _ _ (valid_base_ne_zero hV)
  refine ⟨relocated imageData m, unfreeze_eq expected hV hL hg,
    header_field_relocated hL 0 4 (by omega) (by omega),
    header_field_relocated hL 4 4 (by omega) (by omega), hpc, hrc, hg1, ?_, ?_, ?_, ?_, ?_⟩
  · intro m2 h2
    exact (unfreeze_null_iff imageData _ expected hV.1
      (by rw [relocated_length]; omega)).mp ⟨m2, h2⟩ hg1
  · exact unfreeze_steps _ _ _ (by rw [relocated_length]; omega) hg1
  · have h := stage1_rootElements imageData (relocated imageData m)
      (by rw [relocated_length]; exact h40)
    have h2 : rootElements (stage1 imageData (relocated imageData m))
        = (rootElements m + 2 * imageData) % 2 ^ 64 := h.trans htwice
    refine ⟨stage1 imageData (relocated imageData m), relocateRootElements_eq hV1, h2, ?_⟩
    rw [h2]
    exact hne
  · intro hr0 hp0
    have hL1 : Layout (relocated imageData m) :=
      layout_of_empty _ (by rw [hrc]; exact hr0) (by rw [hpc]; exact hp0)
    have h : rootElements (relocated imageData (relocated imageData m))
        = (imageData + rootElements (relocated imageData m)) % 2 ^ 64 :=
      relocated_rootElements (by rw [relocated_length]; exact h40) hL1
    have h2 : rootElements (relocated imageData (relocated imageData m))
        = (rootElements m + 2 * imageData) % 2 ^ 64 := h.trans htwice
    refine ⟨relocated imageData (relocated imageData m), unfreeze_eq expected hV1 hL1 hg1,
      h2, ?_⟩
    rw [h2]
    exact hne
  · intro hbase hnonempty
    rw [unfreeze_of_gate _ _ _ (by rw [relocated_length]; omega) hg1,
      relocate_again_faults hV hL hbase hnonempty]
    rfl

set_option maxRecDepth 100000 in
/-- Witness of C19: Scenario A and `emptyTables`, loaded at address 4096. -/
theorem double_load_witness :
    (∃ m1, CarboniteUnfreezeImage 4096 scenarioA 1 = .ok (4096, m1) ∧
      passesGate m1 1 ∧
      (∀ m2, CarboniteUnfreezeImage 4096 m1 1 ≠ .ok (nullptr, m2)) ∧
      (∃ m2, relocateRootElements 4096 m1 = .ok m2 ∧
        rootElements m2 = (rootElements scenarioA + 2 * 4096) % 2 ^ 64) ∧
      CarboniteUnfreezeImage 4096 m1 1 = .error .outOfBounds) ∧
    (∃ m1, CarboniteUnfreezeImage 4096 emptyTables 1 = .ok (4096, m1) ∧
      ∃ m2, CarboniteUnfreezeImage 4096 m1 1 = .ok (4096, m2) ∧
        rootElements m2 = (rootElements emptyTables + 2 * 4096) % 2 ^ 64) := by
  obtain ⟨m1, h1, _, _, _, _, h6, h7, _, ⟨m2, h9, h10, _⟩, _, h12⟩ :=
    double_load 4096 scenarioA 1 (by decide) (by decide) (by decide)
  obtain ⟨x1, g1, _, _, _, _, _, _, _, _, g10, _⟩ :=
    double_load 4096 emptyTables 1 (by decide) (by decide) (by decide)
  obtain ⟨x2, g2, g3, _⟩ := g10 (by decide) (by decide)
  exact ⟨⟨m1, h1, h6, h7, ⟨m2, h9, h10⟩, h12 (by decide) (by decide)⟩, ⟨x1, g1, x2, g2, g3⟩⟩

/-- Scenario A loaded twice at address 4096: the second call passes the header
check and then leaves the buffer (its root loop uses `40 + 2 * 4096` as the
address of the root table). -/
theorem scenarioA_double_load :
    (CarboniteUnfreezeImage 4096 scenarioA 1).bind
      (fun x => CarboniteUnfreezeImage 4096 x.2 1) = .error .outOfBounds := by
  decide

end Carbonite
